import Mathlib

/-!
# FilamintFixer: feed-arm controller and reed-switch pulse counter

Shallow embedding of `src/WheelEncoder.cpp` (class `ReedSwitch`) and
`src/FeedArmController.cpp` (class `FeedArmController`).

Conventions of the embedding.

* `uint32_t` values are natural numbers; every operation that can wrap is
  written with an explicit reduction modulo `2^32` (`millis`, `sub32`, `inc32`).
* Every call of the Arduino `millis()` is an explicit argument: the reading of
  the millisecond clock at that call. `millis t` is the 32-bit value the call
  returns.
* A finite `float` value (configuration angle, commanded angle, pulse rate)
  is the rational it denotes. Every `float` operation of the source (a
  conversion from an integer, a division, a multiplication, a subtraction)
  rounds its exact result to the nearest IEEE 754 binary32 value, ties to
  even: the function `f32`. Comparisons and the `(int)` conversion are exact.
  A potentiometer angle is an `Option ℚ`, where `none` is the NaN that the
  division in `readPotAngle` produces for a degenerate calibration.
* Member functions take the object as first argument and return the new
  object. Servo calls are recorded, in order, in the field `servoLog`, with
  the integer that the `(int)` conversion of the source passes to `write`.
  `Serial` output and pin configuration are not modelled.
* A function returns an `Option` when the C++ code can divide an integer by
  zero (`potSamples = 0` in `readPotSmoothed`): `none` is that failure.
* An interrupt is an event between two calls: a call is atomic.
-/

set_option autoImplicit false

namespace FilamintFixer

/-! ## Machine arithmetic -/

/-- The modulus of `uint32_t` arithmetic, `2^32`. -/
def U32 : Nat := 4294967296

/-- The value returned by a call of `millis()` when the millisecond clock
reads `t`: a `uint32_t`. -/
def millis (t : Nat) : Nat := t % U32

/-- The `uint32_t` subtraction `a - b`. -/
def sub32 (a b : Nat) : Nat := (a % U32 + U32 - b % U32) % U32

/-- The `uint32_t` increment `a++`. -/
def inc32 (a : Nat) : Nat := (a + 1) % U32

/-! ## Float arithmetic -/

/-- The power `2^z` of two with an integer exponent, as a rational. -/
def pow2 (z : Int) : ℚ :=
  if 0 ≤ z then ((2 ^ z.toNat : Nat) : ℚ) else 1 / ((2 ^ (-z).toNat : Nat) : ℚ)

/-- The number of halvings that bring `n` below 2, at most `fuel` of them. -/
def log2Aux : Nat → Nat → Nat
  | 0, _ => 0
  | fuel + 1, n => if n < 2 then 0 else log2Aux fuel (n / 2) + 1

/-- The position of the leading bit of `n`: the `p` with `2^p <= n < 2^(p+1)`
for `n > 0`. -/
def ilog2 (n : Nat) : Nat := log2Aux n n

/-- The binary exponent of a positive rational `a`: the integer `e` with
`2^e <= a < 2^(e+1)`. -/
def binExp (a : ℚ) : Int :=
  let k : Int := (ilog2 a.num.natAbs : Int) - (ilog2 a.den : Int)
  if pow2 k ≤ a then k else k - 1

/-- Rounding to the nearest integer, a tie going to the even one. -/
def roundHalfEven (x : ℚ) : Int :=
  if x - (⌊x⌋ : ℚ) < 1 / 2 then ⌊x⌋
  else if 1 / 2 < x - (⌊x⌋ : ℚ) then ⌊x⌋ + 1
  else if ⌊x⌋ % 2 = 0 then ⌊x⌋ else ⌊x⌋ + 1

/-- A positive rational rounded to 24 significant bits, to nearest, ties to
even: the spacing of the `float` values from `2^e` to `2^(e+1)` is
`2^(e-23)`. -/
def roundPos (a : ℚ) : ℚ :=
  (roundHalfEven (a / pow2 (binExp a - 23)) : ℚ) * pow2 (binExp a - 23)

/-- The result of a `float` operation whose exact result is `x`: the nearest
IEEE 754 binary32 value, ties to even (the type `float` of the source, in
the default rounding mode). The exponent range is not bounded: overflow to
infinity and subnormal values, which no operation of the modelled code
reaches on `float` operands, are not modelled. -/
def f32 (x : ℚ) : ℚ :=
  if x = 0 then 0 else if 0 < x then roundPos x else -roundPos (-x)

/-! ## ReedSwitch (WheelEncoder.h, WheelEncoder.cpp) -/

/-- Data members of `class ReedSwitch`. -/
structure ReedSwitch where
  pin : Nat
  pulseCount : Nat
  lastPulseTimeMs : Nat
  lastSampleCount : Nat
  lastSampleTimeMs : Nat
  pulsesPerSec : ℚ
deriving DecidableEq

namespace ReedSwitch

/-- The object before `begin()`: the default member initialisers. -/
def init : ReedSwitch :=
  { pin := 0, pulseCount := 0, lastPulseTimeMs := 0, lastSampleCount := 0,
    lastSampleTimeMs := 0, pulsesPerSec := 0 }

/-- Model of `ReedSwitch::begin(pin)`; `t` is the clock at its `millis()`. -/
def begin (r : ReedSwitch) (pin : Nat) (t : Nat) : ReedSwitch :=
  { r with
    pin := pin
    pulseCount := 0
    lastPulseTimeMs := 0
    lastSampleCount := 0
    lastSampleTimeMs := millis t
    pulsesPerSec := 0 }

/-- Model of `ReedSwitch::handleInterrupt()`; `t` is the clock at its
`millis()`. -/
def handleInterrupt (r : ReedSwitch) (t : Nat) : ReedSwitch :=
  let now := millis t
  if sub32 now r.lastPulseTimeMs > 50 then
    { r with pulseCount := inc32 r.pulseCount, lastPulseTimeMs := now }
  else r

/-- Model of `ReedSwitch::isStalled(timeoutMs)`; `t` is the clock at its
`millis()`. -/
def isStalled (r : ReedSwitch) (timeoutMs : Nat) (t : Nat) : Bool :=
  if r.lastPulseTimeMs = 0 then
    decide (millis t > timeoutMs)
  else
    decide (sub32 (millis t) r.lastPulseTimeMs > timeoutMs)

/-- Model of `ReedSwitch::sample()`: the new object and the returned
`deltaPulses`; `t` is the clock at its `millis()`. The rate is
`(float)deltaPulses / ((float)deltaTimeMs / 1000.0f)`: two conversions and
two divisions, each rounded to `float`. -/
def sample (r : ReedSwitch) (t : Nat) : ReedSwitch × Nat :=
  let now := millis t
  let count := r.pulseCount
  let deltaPulses := sub32 count r.lastSampleCount
  let deltaTimeMs := sub32 now r.lastSampleTimeMs
  let rate : ℚ :=
    if deltaTimeMs > 0 then
      f32 (f32 (deltaPulses : ℚ) / f32 (f32 (deltaTimeMs : ℚ) / 1000))
    else r.pulsesPerSec
  ({ r with pulsesPerSec := rate, lastSampleCount := count, lastSampleTimeMs := now },
   deltaPulses)

/-- Model of `ReedSwitch::timeSinceLastPulseMs()`. -/
def timeSinceLastPulseMs (r : ReedSwitch) (t : Nat) : Nat :=
  if r.lastPulseTimeMs = 0 then millis t else sub32 (millis t) r.lastPulseTimeMs

/-- Model of `ReedSwitch::reset()`; `t` is the clock at its `millis()`. -/
def reset (r : ReedSwitch) (t : Nat) : ReedSwitch :=
  { r with
    pulseCount := 0
    lastPulseTimeMs := 0
    lastSampleCount := 0
    lastSampleTimeMs := millis t
    pulsesPerSec := 0 }

/-- Whether `handleInterrupt()` at clock `t` counts the event: the test of
its `if`. -/
def accepts (r : ReedSwitch) (t : Nat) : Bool :=
  decide (sub32 (millis t) r.lastPulseTimeMs > 50)

end ReedSwitch

/-- A call on the pulse counter: an interrupt or a call of `sample()`, each
with the clock read by the call. -/
inductive ReedCall where
  | interrupt (t : Nat)
  | sample (t : Nat)
deriving DecidableEq

namespace ReedSwitch

/-- The pulse counter after one call. -/
def call (r : ReedSwitch) : ReedCall → ReedSwitch
  | .interrupt t => r.handleInterrupt t
  | .sample t => (r.sample t).1

/-- The pulse counter after a sequence of calls. -/
def calls (r : ReedSwitch) : List ReedCall → ReedSwitch
  | [] => r
  | k :: ks => calls (r.call k) ks

/-- The clock value of the last event that `handleInterrupt()` counted in a
sequence of calls on `r`, starting from `last` (`none`: no event counted). -/
def lastAccepted (r : ReedSwitch) (last : Option Nat) : List ReedCall → Option Nat
  | [] => last
  | .interrupt t :: ks =>
      lastAccepted (r.handleInterrupt t) (if r.accepts t then some (millis t) else last) ks
  | .sample t :: ks => lastAccepted (r.sample t).1 last ks

/-- The clock reading, not reduced to 32 bits, of the last event that
`handleInterrupt()` counted in a sequence of calls on `r`, starting from
`last` (`none`: no event counted). -/
def lastAcceptedAt (r : ReedSwitch) (last : Option Nat) : List ReedCall → Option Nat
  | [] => last
  | .interrupt t :: ks =>
      lastAcceptedAt (r.handleInterrupt t) (if r.accepts t then some t else last) ks
  | .sample t :: ks => lastAcceptedAt (r.sample t).1 last ks

end ReedSwitch

/-! ## Config (Config.h) -/

/-- Fields of `struct Config`: angles in degrees, times in milliseconds. -/
structure Config where
  feedArmRestAngle : ℚ
  feedArmJamAngle : ℚ
  feedArmUnstickAngle : ℚ
  unstickHoldTimeMs : Nat
  unstickCooldownMs : Nat
  tensionServoAngle : ℚ
  tensionAngleMin : ℚ
  tensionAngleMax : ℚ
  potFeedMin : Nat
  potFeedMax : Nat
  potTensionMin : Nat
  potTensionMax : Nat
  potSamples : Nat
  reedStallTimeoutMs : Nat
  reedMinPulsesPerSec : ℚ
  monitorIntervalMs : Nat
  baudRate : Nat
deriving DecidableEq

/-- The default member initialisers of `struct Config`. -/
def Config.defaults : Config :=
  { feedArmRestAngle := 90, feedArmJamAngle := 45, feedArmUnstickAngle := 140,
    unstickHoldTimeMs := 500, unstickCooldownMs := 2000,
    tensionServoAngle := 80, tensionAngleMin := 30, tensionAngleMax := 130,
    potFeedMin := 200, potFeedMax := 3800, potTensionMin := 200, potTensionMax := 3800,
    potSamples := 8, reedStallTimeoutMs := 3000, reedMinPulsesPerSec := 1 / 2,
    monitorIntervalMs := 50, baudRate := 115200 }

/-! ## FeedArmController (FeedArmController.h, FeedArmController.cpp) -/

/-- The enumeration `FeedArmState`. -/
inductive FeedArmState where
  | MONITORING
  | UNSTICKING
  | HOLD_UNSTICK
  | RETURNING
  | COOLDOWN
deriving DecidableEq, Repr

/-- The successor of a state in the unstick cycle. -/
def FeedArmState.next : FeedArmState → FeedArmState
  | .MONITORING => .UNSTICKING
  | .UNSTICKING => .HOLD_UNSTICK
  | .HOLD_UNSTICK => .RETURNING
  | .RETURNING => .COOLDOWN
  | .COOLDOWN => .MONITORING

/-- The two `Servo` members of the controller. -/
inductive ServoId where
  | feed
  | tension
deriving DecidableEq, Repr

/-- A call on a `Servo` object, with its arguments. -/
inductive ServoCall where
  | setPeriodHertz (hz : Nat)
  | attach (pin minUs maxUs : Nat)
  | write (value : Int)
  | detach
deriving DecidableEq, Repr

/-- The C conversion `(int)x` of a finite float: truncation toward zero. -/
def toInt (x : ℚ) : Int := Int.tdiv x.num x.den

/-- Modelled from the spec: the Arduino macro `constrain(amt, low, high)`,
which the repository uses and does not define; it clamps `amt` into
`[low, high]`: `low` when `amt < low`, `high` when `amt > high`, else `amt`. -/
def constrain (amt low high : ℚ) : ℚ :=
  if amt < low then low else if amt > high then high else amt

/-- The comparison `a <= b` of a potentiometer angle with a finite float:
false when `a` is NaN. -/
def angleLe (a : Option ℚ) (b : ℚ) : Bool :=
  match a with
  | some x => decide (x ≤ b)
  | none => false

/-- The comparison `a < b` of a potentiometer angle with a finite float:
false when `a` is NaN. -/
def angleLt (a : Option ℚ) (b : ℚ) : Bool :=
  match a with
  | some x => decide (x < b)
  | none => false

/-- Data members of `class FeedArmController`. The `ReedSwitch` the member
`_reed` points to is held in `reed` (`none`: null pointer). `servoLog` is the
sequence of calls made on the two servos, oldest first. -/
structure FeedArmController where
  cfg : Config
  reed : Option ReedSwitch
  servoLog : List (ServoId × ServoCall)
  feedServoPin : Nat
  tensionServoPin : Nat
  feedPotPin : Nat
  tensionPotPin : Nat
  feedServoAttached : Bool
  state : FeedArmState
  feedArmAngle : Option ℚ
  tensionArmAngle : Option ℚ
  tensionAngle : ℚ
  savedTensionAngle : ℚ
  rawFeedPot : Nat
  rawTensionPot : Nat
  stateEnteredAt : Nat
  unstickCount : Nat
  filamentStalled : Bool
  lastReedSampleTime : Nat
deriving DecidableEq

/-- The clock readings and analog samples consumed by one call of
`update()`. `feedSamples k` and `tensionSamples k` are the results of the
`k`-th `analogRead` of the feed and of the tension potentiometer. -/
structure TickInput where
  now : Nat
  feedSamples : Nat → Nat
  tensionSamples : Nat → Nat
  sampleTime : Nat
  stalledTime : Nat
  resetTime : Nat
  transitionTime : Nat

/-- The clock readings and analog samples consumed by `begin()`. -/
structure BeginInput where
  enteredTime : Nat
  reedSampleTime : Nat
  feedSamples : Nat → Nat
  tensionSamples : Nat → Nat

namespace FeedArmController

/-- The object before `begin()`: the default member initialisers. -/
def init : FeedArmController :=
  { cfg := Config.defaults, reed := none, servoLog := [],
    feedServoPin := 0, tensionServoPin := 0, feedPotPin := 0, tensionPotPin := 0,
    feedServoAttached := false, state := .MONITORING,
    feedArmAngle := some 90, tensionArmAngle := some 80,
    tensionAngle := 80, savedTensionAngle := 80,
    rawFeedPot := 0, rawTensionPot := 0,
    stateEnteredAt := 0, unstickCount := 0, filamentStalled := false,
    lastReedSampleTime := 0 }

/-- The accumulator `sum` of `readPotSmoothed` after `n` iterations of its
loop: a `uint32_t` to which `uint16_t` samples are added. -/
def sumSamples (samples : Nat → Nat) : Nat → Nat
  | 0 => 0
  | n + 1 => (sumSamples samples n + samples n % 65536) % U32

/-- Model of `FeedArmController::readPotSmoothed(pin)`: `none` when
`potSamples` is 0 (integer division by zero), else the `uint16_t` result. -/
def readPotSmoothed (c : FeedArmController) (samples : Nat → Nat) : Option Nat :=
  if c.cfg.potSamples = 0 then none
  else some ((sumSamples samples c.cfg.potSamples / c.cfg.potSamples) % 65536)

/-- The arithmetic of `readPotAngle`:
`constrain((float)(raw - adcMin) / (float)(adcMax - adcMin) * 160.0f, 0.0f, 160.0f)`
with the subtractions in `int`, and the two conversions, the division and
the multiplication each rounded to `float`. When `adcMax = adcMin` the float
division is by zero: the quotient is +infinity, -infinity or NaN, which
`constrain` maps to 160, 0 and NaN (`none`). -/
def mapAngle (raw adcMin adcMax : Nat) : Option ℚ :=
  let num : Int := (raw : Int) - (adcMin : Int)
  let den : Int := (adcMax : Int) - (adcMin : Int)
  if den = 0 then
    if num = 0 then none else if num > 0 then some 160 else some 0
  else some (constrain (f32 (f32 (f32 (num : ℚ) / f32 (den : ℚ)) * 160)) 0 160)

/-- Model of `FeedArmController::readPotAngle(pin, adcMin, adcMax)`: the
object with the raw value recorded, and the angle. -/
def readPotAngle (c : FeedArmController) (pin adcMin adcMax : Nat) (samples : Nat → Nat) :
    Option (FeedArmController × Option ℚ) :=
  match c.readPotSmoothed samples with
  | none => none
  | some raw =>
    let c1 :=
      if pin = c.feedPotPin then { c with rawFeedPot := raw }
      else if pin = c.tensionPotPin then { c with rawTensionPot := raw }
      else c
    some (c1, mapAngle raw adcMin adcMax)

/-- Model of `FeedArmController::transitionTo(newState)`; `t` is the clock
at its `millis()`. -/
def transitionTo (c : FeedArmController) (newState : FeedArmState) (t : Nat) :
    FeedArmController :=
  { c with state := newState, stateEnteredAt := millis t }

/-- Model of `FeedArmController::isJamDetected()`; the subtraction
`_cfg.feedArmRestAngle - 15.0f` is a `float` operation. -/
def isJamDetected (c : FeedArmController) : Bool :=
  if angleLe c.feedArmAngle c.cfg.feedArmJamAngle then true
  else if c.filamentStalled &&
      angleLt c.feedArmAngle (f32 (c.cfg.feedArmRestAngle - 15)) then true
  else false

/-- A call on a servo, appended to the log. -/
def servo (c : FeedArmController) (s : ServoId) (k : ServoCall) : FeedArmController :=
  { c with servoLog := c.servoLog ++ [(s, k)] }

/-- Model of `FeedArmController::begin(cfg, pins, reed)` on the object `c`. -/
def begin (c : FeedArmController) (cfg : Config)
    (feedServoPin tensionServoPin feedPotPin tensionPotPin : Nat)
    (reed : Option ReedSwitch) (i : BeginInput) : Option FeedArmController :=
  let c := { c with cfg := cfg, reed := reed, feedServoPin := feedServoPin,
                    tensionServoPin := tensionServoPin, feedPotPin := feedPotPin,
                    tensionPotPin := tensionPotPin }
  let c := c.servo .tension (.setPeriodHertz 50)
  let c := c.servo .tension (.attach c.tensionServoPin 500 2500)
  let c := { c with tensionAngle := c.cfg.tensionServoAngle }
  let c := c.servo .tension (.write (toInt c.tensionAngle))
  let c := c.servo .feed (.setPeriodHertz 50)
  let c := { c with feedServoAttached := false }
  let c := { c with state := .MONITORING, stateEnteredAt := millis i.enteredTime,
                    lastReedSampleTime := millis i.reedSampleTime, unstickCount := 0 }
  match c.readPotAngle c.feedPotPin c.cfg.potFeedMin c.cfg.potFeedMax i.feedSamples with
  | none => none
  | some (c, a) =>
    let c := { c with feedArmAngle := a }
    match c.readPotAngle c.tensionPotPin c.cfg.potTensionMin c.cfg.potTensionMax
        i.tensionSamples with
    | none => none
    | some (c, a) => some { c with tensionArmAngle := a }

/-- First block of `update()`: both potentiometer angles are read. -/
def readAngles (c : FeedArmController) (i : TickInput) : Option FeedArmController :=
  match c.readPotAngle c.feedPotPin c.cfg.potFeedMin c.cfg.potFeedMax i.feedSamples with
  | none => none
  | some (c, a) =>
    let c := { c with feedArmAngle := a }
    match c.readPotAngle c.tensionPotPin c.cfg.potTensionMin c.cfg.potTensionMax
        i.tensionSamples with
    | none => none
    | some (c, a) => some { c with tensionArmAngle := a }

/-- Second block of `update()`: the reed switch is sampled and the stalled
flag recomputed when 1000 ms have passed since the last refresh. -/
def sampleReed (c : FeedArmController) (i : TickInput) : FeedArmController :=
  let now := millis i.now
  if sub32 now c.lastReedSampleTime ≥ 1000 then
    let c :=
      match c.reed with
      | some r =>
        let r := (r.sample i.sampleTime).1
        { c with reed := some r,
                 filamentStalled := r.isStalled c.cfg.reedStallTimeoutMs i.stalledTime }
      | none => c
    { c with lastReedSampleTime := now }
  else c

/-- Third block of `update()`: the `switch (_state)`, with `elapsed` computed
at the top of `update()`. -/
def switchState (c : FeedArmController) (elapsed : Nat) (i : TickInput) : FeedArmController :=
  match c.state with
  | .MONITORING =>
    if c.isJamDetected then c.transitionTo .UNSTICKING i.transitionTime else c
  | .UNSTICKING =>
    let c :=
      if c.feedServoAttached = false then
        let c := { c with savedTensionAngle := c.tensionAngle }
        let c := c.servo .tension (.write (toInt c.cfg.tensionAngleMin))
        let c := c.servo .feed (.attach c.feedServoPin 500 2500)
        { c with feedServoAttached := true }
      else c
    let c := c.servo .feed (.write (toInt c.cfg.feedArmUnstickAngle))
    c.transitionTo .HOLD_UNSTICK i.transitionTime
  | .HOLD_UNSTICK =>
    if elapsed ≥ c.cfg.unstickHoldTimeMs then c.transitionTo .RETURNING i.transitionTime
    else c
  | .RETURNING =>
    let c := c.servo .feed (.write (toInt c.cfg.feedArmRestAngle))
    let c := { c with unstickCount := inc32 c.unstickCount }
    c.transitionTo .COOLDOWN i.transitionTime
  | .COOLDOWN =>
    if elapsed ≥ c.cfg.unstickCooldownMs then
      let c :=
        if c.feedServoAttached = true then
          let c := c.servo .feed .detach
          { c with feedServoAttached := false }
        else c
      let c := { c with tensionAngle := c.savedTensionAngle }
      let c := c.servo .tension (.write (toInt c.tensionAngle))
      let c := { c with reed := c.reed.map (fun r => ReedSwitch.reset r i.resetTime) }
      c.transitionTo .MONITORING i.transitionTime
    else c

/-- Model of `FeedArmController::update()`: `none` when the call divides by
zero in `readPotSmoothed`. -/
def update (c : FeedArmController) (i : TickInput) : Option FeedArmController :=
  let now := millis i.now
  let elapsed := sub32 now c.stateEnteredAt
  match c.readAngles i with
  | none => none
  | some c1 => some ((c1.sampleReed i).switchState elapsed i)

/-- Model of `FeedArmController::triggerUnstick()`; `t` is the clock at the
`millis()` of `transitionTo`. -/
def triggerUnstick (c : FeedArmController) (t : Nat) : FeedArmController :=
  if c.state = .MONITORING ∨ c.state = .COOLDOWN then c.transitionTo .UNSTICKING t
  else c

/-- Model of `FeedArmController::setTensionAngle(angle)`. -/
def setTensionAngle (c : FeedArmController) (angle : ℚ) : FeedArmController :=
  let c := { c with
    tensionAngle := constrain angle c.cfg.tensionAngleMin c.cfg.tensionAngleMax }
  c.servo .tension (.write (toInt c.tensionAngle))

/-- Model of `FeedArmController::filamentPulsesPerSec()`. -/
def filamentPulsesPerSec (c : FeedArmController) : ℚ :=
  match c.reed with
  | some r => r.pulsesPerSec
  | none => 0

/-- Model of `FeedArmController::updateConfig(cfg)`. -/
def updateConfig (c : FeedArmController) (cfg : Config) : FeedArmController :=
  { c with cfg := cfg }

/-- An interrupt of the reed switch, delivered between two calls on the
controller: `handleInterrupt()` on the object `_reed` points to. -/
def pulse (c : FeedArmController) (t : Nat) : FeedArmController :=
  { c with reed := c.reed.map (fun r => ReedSwitch.handleInterrupt r t) }

end FeedArmController

/-- What happens to a controller between two observations: a call of
`update()`, a reed-switch interrupt, or one of the external commands. -/
inductive Event where
  | tick (i : TickInput)
  | pulse (t : Nat)
  | trigger (t : Nat)
  | setTension (angle : ℚ)
  | setConfig (cfg : Config)

/-- The external commands among the events. -/
def Event.isCommand : Event → Bool
  | .tick _ => false
  | .pulse _ => false
  | .trigger _ => true
  | .setTension _ => true
  | .setConfig _ => true

namespace FeedArmController

/-- The controller after one event. -/
def step (c : FeedArmController) : Event → Option FeedArmController
  | .tick i => c.update i
  | .pulse t => some (c.pulse t)
  | .trigger t => some (c.triggerUnstick t)
  | .setTension a => some (c.setTensionAngle a)
  | .setConfig cfg => some (c.updateConfig cfg)

/-- The controllers after each event of a sequence, in order. -/
def run (c : FeedArmController) : List Event → Option (List FeedArmController)
  | [] => some []
  | e :: es =>
    match c.step e with
    | none => none
    | some c1 =>
      match run c1 es with
      | none => none
      | some cs => some (c1 :: cs)

/-- The number of calls of `update()` in a sequence of events that begin in
state RETURNING. -/
def returningTicks (c : FeedArmController) : List Event → Nat
  | [] => 0
  | e :: es =>
    (match e with
      | .tick _ => if c.state = .RETURNING then 1 else 0
      | _ => 0) +
    (match c.step e with
      | none => 0
      | some c1 => returningTicks c1 es)

end FeedArmController

namespace FeedArmController

/-- The members that the first two blocks of `update()` leave alone. -/
structure Prepared (c p : FeedArmController) : Prop where
  cfg : p.cfg = c.cfg
  servoLog : p.servoLog = c.servoLog
  feedServoPin : p.feedServoPin = c.feedServoPin
  tensionServoPin : p.tensionServoPin = c.tensionServoPin
  feedPotPin : p.feedPotPin = c.feedPotPin
  tensionPotPin : p.tensionPotPin = c.tensionPotPin
  feedServoAttached : p.feedServoAttached = c.feedServoAttached
  state : p.state = c.state
  tensionAngle : p.tensionAngle = c.tensionAngle
  savedTensionAngle : p.savedTensionAngle = c.savedTensionAngle
  stateEnteredAt : p.stateEnteredAt = c.stateEnteredAt
  unstickCount : p.unstickCount = c.unstickCount

end FeedArmController

/-! ## The unstick cycle -/

namespace FeedArmController

/-- The servo calls of the UNSTICKING tick of a cycle that starts with the
feed servo detached. -/
def relaxCalls (c0 : FeedArmController) : List (ServoId × ServoCall) :=
  [(.tension, .write (toInt c0.cfg.tensionAngleMin)),
   (.feed, .attach c0.feedServoPin 500 2500),
   (.feed, .write (toInt c0.cfg.feedArmUnstickAngle))]

/-- The pulse counter, when there is one, is as `reset()` leaves it. -/
def reedIsReset (c : FeedArmController) : Prop :=
  ∀ r, c.reed = some r →
    r.pulseCount = 0 ∧ r.lastPulseTimeMs = 0 ∧ r.lastSampleCount = 0 ∧ r.pulsesPerSec = 0

/-- What holds of the controller `c` during the unstick cycle that began
from `c0` (in MONITORING, feed servo detached), by state of `c`; the case
MONITORING is the end of the cycle. -/
def CycleInv (c0 c : FeedArmController) : Prop :=
  c.cfg = c0.cfg ∧ c.feedServoPin = c0.feedServoPin ∧ c.reed.isSome = c0.reed.isSome ∧
  c.tensionAngle = c0.tensionAngle ∧
  match c.state with
  | .UNSTICKING =>
    c.feedServoAttached = false ∧ c.servoLog = c0.servoLog ∧
    c.unstickCount = c0.unstickCount
  | .HOLD_UNSTICK =>
    c.feedServoAttached = true ∧ c.savedTensionAngle = c0.tensionAngle ∧
    c.servoLog = c0.servoLog ++ relaxCalls c0 ∧ c.unstickCount = c0.unstickCount
  | .RETURNING =>
    c.feedServoAttached = true ∧ c.savedTensionAngle = c0.tensionAngle ∧
    c.servoLog = c0.servoLog ++ relaxCalls c0 ∧ c.unstickCount = c0.unstickCount
  | .COOLDOWN =>
    c.feedServoAttached = true ∧ c.savedTensionAngle = c0.tensionAngle ∧
    c.servoLog = c0.servoLog ++ relaxCalls c0 ++
      [(.feed, .write (toInt c0.cfg.feedArmRestAngle))] ∧
    c.unstickCount = inc32 c0.unstickCount
  | .MONITORING =>
    c.feedServoAttached = false ∧
    c.servoLog = c0.servoLog ++ relaxCalls c0 ++
      [(.feed, .write (toInt c0.cfg.feedArmRestAngle)), (.feed, .detach),
       (.tension, .write (toInt c0.tensionAngle))] ∧
    c.unstickCount = inc32 c0.unstickCount ∧ reedIsReset c

end FeedArmController

/-! ## Invariants of the controller -/

/-- The events that are calls of `setTensionAngle()`. -/
def Event.isSetTension : Event → Bool
  | .setTension _ => true
  | _ => false

/-- An event leaves the tension range `[lo, hi]` of the configuration as it
is: every event does, except an `updateConfig()` with other bounds. -/
def Event.keepsTensionRange (lo hi : ℚ) : Event → Prop
  | .setConfig cfg => cfg.tensionAngleMin = lo ∧ cfg.tensionAngleMax = hi
  | _ => True

namespace FeedArmController

/-- Actuator ownership: the feed servo is detached in MONITORING and
attached in HOLD_UNSTICK, RETURNING and COOLDOWN. -/
def Owned (c : FeedArmController) : Prop :=
  (c.state = .MONITORING → c.feedServoAttached = false) ∧
  (c.state = .HOLD_UNSTICK ∨ c.state = .RETURNING ∨ c.state = .COOLDOWN →
    c.feedServoAttached = true)

/-- Every value written to the tension servo, in the calls `log`, is the
`(int)` conversion of an angle in `[lo, hi]`. -/
def TensionWritesIn (lo hi : ℚ) (log : List (ServoId × ServoCall)) : Prop :=
  ∀ v : Int, (ServoId.tension, ServoCall.write v) ∈ log →
    ∃ a : ℚ, lo ≤ a ∧ a ≤ hi ∧ v = toInt a

/-- The tension range invariant for the bounds `[lo, hi]`: they are the
bounds of the configuration, the commanded tension angle lies within them,
so does the saved tension angle while the feed servo is attached, and the
values written to the tension servo after the first `n` calls of the log
come from angles within them. -/
def TensionInv (lo hi : ℚ) (n : Nat) (c : FeedArmController) : Prop :=
  c.cfg.tensionAngleMin = lo ∧ c.cfg.tensionAngleMax = hi ∧
  lo ≤ c.tensionAngle ∧ c.tensionAngle ≤ hi ∧
  (c.feedServoAttached = true → lo ≤ c.savedTensionAngle ∧ c.savedTensionAngle ≤ hi) ∧
  c.Owned ∧ n ≤ c.servoLog.length ∧ TensionWritesIn lo hi (c.servoLog.drop n)

/-- In a sequence of events from `c`, some `setTensionAngle()` is called in
UNSTICKING while the feed servo is still detached, that is before the tick
that saves the tension angle. -/
def setsTensionBeforeSave (c : FeedArmController) : List Event → Bool
  | [] => false
  | e :: es =>
    (e.isSetTension && decide (c.state = .UNSTICKING) && !c.feedServoAttached) ||
    (match c.step e with
      | none => false
      | some c1 => setsTensionBeforeSave c1 es)

/-- During an unstick cycle, the tension angle `T` is either already saved
(feed servo attached) or still the commanded one, to be saved by the
UNSTICKING tick. -/
def Saved (T : ℚ) (c : FeedArmController) : Prop :=
  (c.feedServoAttached = true ∧ c.savedTensionAngle = T) ∨
  (c.state = .UNSTICKING ∧ c.feedServoAttached = false ∧ c.tensionAngle = T)

end FeedArmController

/-- The default configuration with the initial tension angle 200, outside
the range 30..130. -/
def cfgTensionHigh : Config := { Config.defaults with tensionServoAngle := 200 }

/-- The default configuration with the lower tension bound raised to 100. -/
def cfgRangeRaised : Config := { Config.defaults with tensionAngleMin := 100 }

/-- The default configuration with the lower tension bound 30.5. -/
def cfgMinHalf : Config := { Config.defaults with tensionAngleMin := 61 / 2 }

/-- The input of `begin()` at clock 1000 with the potentiometers at 2225 and
2000. -/
def benchBegin : BeginInput :=
  { enteredTime := 1000, reedSampleTime := 1000,
    feedSamples := fun _ => 2225, tensionSamples := fun _ => 2000 }

/-! ## Concrete inputs -/

/-- The states from `s` to the end of the unstick cycle. -/
def FeedArmState.toMonitoring : FeedArmState → List FeedArmState
  | .MONITORING => [.MONITORING]
  | .UNSTICKING => [.UNSTICKING, .HOLD_UNSTICK, .RETURNING, .COOLDOWN, .MONITORING]
  | .HOLD_UNSTICK => [.HOLD_UNSTICK, .RETURNING, .COOLDOWN, .MONITORING]
  | .RETURNING => [.RETURNING, .COOLDOWN, .MONITORING]
  | .COOLDOWN => [.COOLDOWN, .MONITORING]

/-- The controller after `begin()` with the default configuration, the pins
of `pins.h` and a pulse counter begun at clock 1000, when the potentiometers
read 2225 (90 degrees) and 2000 (80 degrees). -/
def bench : FeedArmController :=
  { cfg := Config.defaults
    reed := some (ReedSwitch.init.begin 4 1000)
    servoLog := [(.tension, .setPeriodHertz 50), (.tension, .attach 14 500 2500),
                 (.tension, .write 80), (.feed, .setPeriodHertz 50)]
    feedServoPin := 13, tensionServoPin := 14, feedPotPin := 6, tensionPotPin := 7
    feedServoAttached := false, state := .MONITORING
    feedArmAngle := some 90, tensionArmAngle := some 80
    tensionAngle := 80, savedTensionAngle := 80
    rawFeedPot := 2225, rawTensionPot := 2000
    stateEnteredAt := 1000, unstickCount := 0, filamentStalled := false
    lastReedSampleTime := 1000 }

/-- A call of `update()` at clock `t` in which every sample of the feed
potentiometer is `feedRaw` and every sample of the tension potentiometer is
2000. -/
def tickAt (t feedRaw : Nat) : TickInput :=
  { now := t, feedSamples := fun _ => feedRaw, tensionSamples := fun _ => 2000,
    sampleTime := t, stalledTime := t, resetTime := t, transitionTime := t }

/-- The input of a tick at clock 1050 in which the feed potentiometer reads
1100, that is 40 degrees: a jam with the default configuration. -/
def jamTick : TickInput := tickAt 1050 1100

/-- The ticks that follow the jam of `jamTick`, with the arm back at rest,
until the cooldown is over. -/
def cycleTail : List Event :=
  [.tick (tickAt 1100 2225), .tick (tickAt 1150 2225), .tick (tickAt 1600 2225),
   .tick (tickAt 1650 2225), .tick (tickAt 3000 2225), .tick (tickAt 3650 2225)]

/-- One unstick cycle: the jam, then `cycleTail`. -/
def cycleEvents : List Event := .tick jamTick :: cycleTail

/-- The controller `bench` after the tick `jamTick`. -/
def cycleStart : FeedArmController := (bench.update jamTick).getD bench

/-- The controllers after each event of `cycleTail`, from `cycleStart`. -/
def cycleTrace : List FeedArmController := (cycleStart.run cycleTail).getD []

/-- The controller `bench` with the stalled flag set. -/
def benchStalled : FeedArmController := { bench with filamentStalled := true }

/-- The input of a tick at clock 1050 in which the feed potentiometer reads
1775, that is 70 degrees. -/
def stallTick : TickInput := tickAt 1050 1775

/-- The controller `benchStalled` after the tick `stallTick`. -/
def stallStart : FeedArmController := (benchStalled.update stallTick).getD bench

/-- The controller `bench` with the unstick counter at its largest value. -/
def benchMax : FeedArmController := { bench with unstickCount := 4294967295 }

/-- The controller `benchMax` after `setTensionAngle(80.5)`. -/
def benchHalf : FeedArmController := benchMax.setTensionAngle (161 / 2)

/-- The ticks of `cycleTail` with a call `setTensionAngle(100)` during the
hold. -/
def cycleTailWithSet : List Event :=
  [.tick (tickAt 1100 2225), .setTension 100, .tick (tickAt 1150 2225),
   .tick (tickAt 1600 2225), .tick (tickAt 1650 2225), .tick (tickAt 3000 2225),
   .tick (tickAt 3650 2225)]

/-- The controllers after each event of `cycleTailWithSet`, from
`cycleStart`. -/
def cycleTraceWithSet : List FeedArmController :=
  (cycleStart.run cycleTailWithSet).getD []

/-! ## Sequences of calls on the pulse counter -/

/-- The calls that are interrupts. -/
def ReedCall.isInterrupt : ReedCall → Bool
  | .interrupt _ => true
  | .sample _ => false

namespace ReedSwitch

/-- The sum of the values returned by the `sample()` calls of a sequence of
calls on `r`. -/
def sampleSum (r : ReedSwitch) : List ReedCall → Nat
  | [] => 0
  | .interrupt t :: ks => sampleSum (r.handleInterrupt t) ks
  | .sample t :: ks => (r.sample t).2 + sampleSum (r.sample t).1 ks

/-- The pulse count read by the last `sample()` call of a sequence of calls
on `r`, starting from `last` (the value when the sequence has no `sample()`). -/
def countAtLastSample (r : ReedSwitch) (last : Nat) : List ReedCall → Nat
  | [] => last
  | .interrupt t :: ks => countAtLastSample (r.handleInterrupt t) last ks
  | .sample t :: ks => countAtLastSample (r.sample t).1 r.pulseCount ks

/-- The number of interrupts of a sequence of calls on `r` that
`handleInterrupt()` counts. -/
def acceptedCount (r : ReedSwitch) : List ReedCall → Nat
  | [] => 0
  | .interrupt t :: ks =>
      (if r.accepts t then 1 else 0) + acceptedCount (r.handleInterrupt t) ks
  | .sample t :: ks => acceptedCount (r.sample t).1 ks

end ReedSwitch

/-- A train of `n` interrupts 51 ms apart, the first one 51 ms after clock
`t`. -/
def pulseTrain : Nat → Nat → List ReedCall
  | _, 0 => []
  | t, n + 1 => .interrupt (t + 51) :: pulseTrain (t + 51) n

/-- Two trains of `n` interrupts from clock 0, each followed by a call of
`sample()`. -/
def twoTrains (n : Nat) : List ReedCall :=
  pulseTrain 0 n ++ [.sample (51 * n)] ++ pulseTrain (51 * n) n ++ [.sample (102 * n)]

/-- Two trains of `2^31` interrupts, each followed by a call of `sample()`:
`2^32` counted events in all, from clock 0. -/
def wrapCalls : List ReedCall := twoTrains 2147483648

/-- A short history of the pulse counter: two interrupts 30 ms apart, a
`sample()`, one more interrupt, a `sample()`. -/
def shortCalls : List ReedCall :=
  [.interrupt 2000, .interrupt 2030, .sample 3000, .interrupt 3100, .sample 4000]

/-! ## Histories of the pulse counter with `reset()`, and re-triggered cycles -/

/-- A call in a history of the pulse counter that may contain `reset()`: an
interrupt, a call of `sample()` or a call of `reset()`, each with the clock
read by the call. -/
inductive CounterCall where
  | interrupt (t : Nat)
  | sample (t : Nat)
  | reset (t : Nat)
deriving DecidableEq

namespace ReedSwitch

/-- The pulse counter after one call of a history. -/
def applyCall (r : ReedSwitch) : CounterCall → ReedSwitch
  | .interrupt t => r.handleInterrupt t
  | .sample t => (r.sample t).1
  | .reset t => r.reset t

/-- The pulse counter after a history of calls. -/
def history (r : ReedSwitch) : List CounterCall → ReedSwitch
  | [] => r
  | h :: hs => history (r.applyCall h) hs

/-- The number of interrupts of a history on `r` that `handleInterrupt()`
counts. -/
def acceptedTotal (r : ReedSwitch) : List CounterCall → Nat
  | [] => 0
  | .interrupt t :: hs =>
      (if r.accepts t then 1 else 0) + acceptedTotal (r.handleInterrupt t) hs
  | .sample t :: hs => acceptedTotal (r.sample t).1 hs
  | .reset t :: hs => acceptedTotal (r.reset t) hs

/-- The pulse counts read by the `sample()` calls that a history on `r` makes
after its last `reset()`, oldest first; `seen` holds the ones read since the
last `reset()` before the history. -/
def observedSinceReset (r : ReedSwitch) (seen : List Nat) : List CounterCall → List Nat
  | [] => seen
  | .interrupt t :: hs => observedSinceReset (r.handleInterrupt t) seen hs
  | .sample t :: hs => observedSinceReset (r.sample t).1 (seen ++ [r.pulseCount]) hs
  | .reset t :: hs => observedSinceReset (r.reset t) [] hs

end ReedSwitch

/-- A history of the pulse counter with a `reset()`: one counted event and a
`sample()`, the reset, then two counted events with a `sample()` after each. -/
def resetHistory : List CounterCall :=
  [.interrupt 2000, .sample 3000, .reset 5000, .interrupt 5100, .sample 6000,
   .interrupt 6100, .sample 7000]

namespace FeedArmController

/-- The number of calls of `triggerUnstick()` in a sequence of events that
are made in state COOLDOWN: the manual re-triggers of a cycle. -/
def cooldownTriggers (c : FeedArmController) : List Event → Nat
  | [] => 0
  | e :: es =>
    (match e with
      | .trigger _ => if c.state = .COOLDOWN then 1 else 0
      | _ => 0) +
    (match c.step e with
      | none => 0
      | some c1 => cooldownTriggers c1 es)

end FeedArmController

/-- The controller `bench` after a tick at clock 5000, 4000 ms after the
last refresh of the stalled flag, with the arm at rest. -/
def benchRefreshed : FeedArmController := (bench.update (tickAt 5000 2225)).getD bench

/-- The events that follow the jam of `jamTick` in a cycle with one manual
re-trigger: ticks up to COOLDOWN, `triggerUnstick()` at clock 1700, then
ticks until the cooldown of the second pass is over. -/
def retriggerTail : List Event :=
  [.tick (tickAt 1100 2225), .tick (tickAt 1600 2225), .tick (tickAt 1650 2225),
   .trigger 1700, .tick (tickAt 1750 2225), .tick (tickAt 2250 2225),
   .tick (tickAt 2300 2225), .tick (tickAt 4300 2225)]

/-- The controllers after each event of `retriggerTail`, from `cycleStart`. -/
def retriggerTrace : List FeedArmController := (cycleStart.run retriggerTail).getD []

/-- The controller `benchMax`, whose unstick counter is at its largest
value, after the tick `jamTick`. -/
def wrapStart : FeedArmController := (benchMax.update jamTick).getD benchMax

/-! ## More concrete inputs -/

/-- The controller `bench` with the jam angle `35.6f`: the `float` nearest to
35.6, which is 4666163/131072 (35.599998...). -/
def benchJamFloat : FeedArmController :=
  { bench with cfg := { Config.defaults with feedArmJamAngle := f32 (178 / 5) } }

theorem pow2_eq (z : Int) : pow2 z = (2 : ℚ) ^ z := by
  unfold pow2
  split_ifs with h
  · obtain ⟨n, rfl⟩ := Int.eq_ofNat_of_zero_le h
    simp [zpow_natCast]
  · obtain ⟨n, hn⟩ := Int.eq_ofNat_of_zero_le (show (0 : Int) ≤ -z by omega)
    have hz : z = -(n : Int) := by omega
    subst hz
    simp [zpow_neg, zpow_natCast]

theorem pow2_pos (z : Int) : 0 < pow2 z := by
  rw [pow2_eq]; exact zpow_pos (by norm_num) z

theorem pow2_add (a b : Int) : pow2 (a + b) = pow2 a * pow2 b := by
  simp only [pow2_eq]; exact zpow_add₀ (by norm_num) a b

theorem pow2_lt_iff (a b : Int) : pow2 a < pow2 b ↔ a < b := by
  simp only [pow2_eq]; exact zpow_lt_zpow_iff_right₀ (by norm_num)

theorem pow2_le_iff (a b : Int) : pow2 a ≤ pow2 b ↔ a ≤ b := by
  simp only [pow2_eq]; exact zpow_le_zpow_iff_right₀ (by norm_num)

theorem pow2_natCast (n : Nat) : pow2 (n : Int) = ((2 ^ n : Nat) : ℚ) := by
  rw [pow2_eq, zpow_natCast]; push_cast; rfl

theorem pow2_zero : pow2 0 = 1 := by
  rw [pow2_eq]; simp

theorem pow2_sub_mul (a b : Int) : pow2 (a - b) * pow2 b = pow2 a := by
  rw [← pow2_add]; congr 1; omega

theorem log2Aux_eq (fuel : Nat) : ∀ n, n ≤ fuel → log2Aux fuel n = Nat.log2 n := by
  induction fuel with
  | zero =>
    intro n hn
    have : n = 0 := by omega
    subst this
    simp [log2Aux, Nat.log2]
  | succ fuel ih =>
    intro n hn
    unfold log2Aux
    rw [Nat.log2]
    by_cases h : n < 2
    · rw [if_pos h, if_neg (by omega)]
    · rw [if_neg h, if_pos (by omega), ih (n / 2) (by omega)]

theorem ilog2_spec (n : Nat) (h : n ≠ 0) : 2 ^ ilog2 n ≤ n ∧ n < 2 ^ (ilog2 n + 1) := by
  unfold ilog2
  rw [log2Aux_eq n n (le_refl n)]
  exact ⟨Nat.log2_self_le h, Nat.lt_log2_self⟩

theorem binExp_spec (a : ℚ) (ha : 0 < a) : pow2 (binExp a) ≤ a ∧ a < pow2 (binExp a + 1) := by
  have hnum : 0 < a.num := Rat.num_pos.mpr ha
  obtain ⟨n, hn⟩ := Int.eq_ofNat_of_zero_le hnum.le
  obtain ⟨d, hd⟩ : ∃ d : Nat, d = a.den := ⟨_, rfl⟩
  have hn0 : n ≠ 0 := by
    intro h; rw [h] at hn; rw [hn] at hnum; exact lt_irrefl _ hnum
  have hd0 : d ≠ 0 := by rw [hd]; exact a.den_nz
  have hnat : a.num.natAbs = n := by rw [hn]; rfl
  obtain ⟨p1, p2⟩ := ilog2_spec n hn0
  obtain ⟨q1, q2⟩ := ilog2_spec d hd0
  have ha_eq : a = (n : ℚ) / (d : ℚ) := by
    have := Rat.num_div_den a
    rw [hn, ← hd] at this
    rw [← this]; simp
  have hdpos : (0 : ℚ) < (d : ℚ) := by exact_mod_cast Nat.pos_of_ne_zero hd0
  have P1 : (2 : ℚ) ^ (ilog2 n) ≤ (n : ℚ) := by exact_mod_cast p1
  have P2 : (n : ℚ) < (2 : ℚ) ^ (ilog2 n) * 2 := by
    rw [← pow_succ]; exact_mod_cast p2
  have Q1 : (2 : ℚ) ^ (ilog2 d) ≤ (d : ℚ) := by exact_mod_cast q1
  have Q2 : (d : ℚ) < (2 : ℚ) ^ (ilog2 d) * 2 := by
    rw [← pow_succ]; exact_mod_cast q2
  have hp : (0 : ℚ) < (2 : ℚ) ^ (ilog2 n) := by positivity
  have hq : (0 : ℚ) < (2 : ℚ) ^ (ilog2 d) := by positivity
  have hlow : pow2 ((ilog2 n : Int) - (ilog2 d : Int) - 1) < a := by
    rw [pow2_eq, zpow_sub₀ (by norm_num), zpow_sub₀ (by norm_num), zpow_natCast, zpow_natCast,
      zpow_one, ha_eq, div_div, div_lt_div_iff₀ (by positivity) hdpos]
    nlinarith
  have hhigh : a < pow2 ((ilog2 n : Int) - (ilog2 d : Int) + 1) := by
    rw [pow2_eq, zpow_add₀ (by norm_num), zpow_sub₀ (by norm_num), zpow_natCast, zpow_natCast,
      zpow_one, ha_eq, div_mul_eq_mul_div, div_lt_div_iff₀ hdpos hq]
    nlinarith
  unfold binExp
  simp only [hnat, ← hd]
  split_ifs with hk
  · exact ⟨hk, hhigh⟩
  · refine ⟨hlow.le, ?_⟩
    rw [sub_add_cancel]
    exact not_le.mp hk

theorem binExp_unique (a : ℚ) (ha : 0 < a) (e : Int) (h1 : pow2 e ≤ a) (h2 : a < pow2 (e + 1)) :
    binExp a = e := by
  obtain ⟨s1, s2⟩ := binExp_spec a ha
  have k1 : e < binExp a + 1 := (pow2_lt_iff _ _).mp (lt_of_le_of_lt h1 s2)
  have k2 : binExp a < e + 1 := (pow2_lt_iff _ _).mp (lt_of_le_of_lt s1 h2)
  omega

theorem roundHalfEven_bounds (x : ℚ) : ⌊x⌋ ≤ roundHalfEven x ∧ roundHalfEven x ≤ ⌊x⌋ + 1 := by
  unfold roundHalfEven
  split_ifs <;> omega

theorem roundHalfEven_intCast (n : Int) : roundHalfEven (n : ℚ) = n := by
  unfold roundHalfEven
  rw [Int.floor_intCast]
  simp

theorem roundHalfEven_mono {x y : ℚ} (h : x ≤ y) : roundHalfEven x ≤ roundHalfEven y := by
  have hf : ⌊x⌋ ≤ ⌊y⌋ := Int.floor_mono h
  rcases lt_or_eq_of_le hf with hlt | heq
  · have := (roundHalfEven_bounds x).2
    have := (roundHalfEven_bounds y).1
    omega
  · unfold roundHalfEven
    rw [heq]
    split_ifs <;> first | omega | (exfalso; linarith)

theorem roundHalfEven_abs_sub (x : ℚ) : |(roundHalfEven x : ℚ) - x| ≤ 1 / 2 := by
  have h1 : (⌊x⌋ : ℚ) ≤ x := Int.floor_le x
  have h2 : x < (⌊x⌋ : ℚ) + 1 := Int.lt_floor_add_one x
  unfold roundHalfEven
  rw [abs_le]
  split_ifs <;> push_cast <;> constructor <;> linarith

theorem roundHalfEven_le_of_le_int {x : ℚ} {n : Int} (h : x ≤ (n : ℚ)) : roundHalfEven x ≤ n := by
  have := roundHalfEven_mono h
  rwa [roundHalfEven_intCast] at this

theorem le_roundHalfEven_of_int_le {x : ℚ} {n : Int} (h : (n : ℚ) ≤ x) : n ≤ roundHalfEven x := by
  have := roundHalfEven_mono h
  rwa [roundHalfEven_intCast] at this

/-- The significand of a positive rational lies between `2^23` and `2^24`. -/
theorem significand_bounds (a : ℚ) (ha : 0 < a) :
    (8388608 : ℚ) ≤ a / pow2 (binExp a - 23) ∧ a / pow2 (binExp a - 23) < 16777216 := by
  obtain ⟨s1, s2⟩ := binExp_spec a ha
  have hu := pow2_pos (binExp a - 23)
  have e1 : pow2 (binExp a) = 8388608 * pow2 (binExp a - 23) := by
    rw [← pow2_sub_mul (binExp a) (binExp a - 23)]
    have : binExp a - (binExp a - 23) = ((23 : Nat) : Int) := by norm_num
    rw [this, pow2_natCast]; norm_num
  have e2 : pow2 (binExp a + 1) = 16777216 * pow2 (binExp a - 23) := by
    rw [← pow2_sub_mul (binExp a + 1) (binExp a - 23)]
    have : binExp a + 1 - (binExp a - 23) = ((24 : Nat) : Int) := by norm_num
    rw [this, pow2_natCast]; norm_num
  constructor
  · rw [le_div_iff₀ hu, ← e1]; exact s1
  · rw [div_lt_iff₀ hu, ← e2]; exact s2

theorem roundPos_bounds (a : ℚ) (ha : 0 < a) :
    pow2 (binExp a) ≤ roundPos a ∧ roundPos a ≤ pow2 (binExp a + 1) := by
  obtain ⟨m1, m2⟩ := significand_bounds a ha
  have hu := pow2_pos (binExp a - 23)
  have r1 : (8388608 : Int) ≤ roundHalfEven (a / pow2 (binExp a - 23)) :=
    le_roundHalfEven_of_int_le (by push_cast; exact m1)
  have r2 : roundHalfEven (a / pow2 (binExp a - 23)) ≤ (16777216 : Int) :=
    roundHalfEven_le_of_le_int (by push_cast; exact m2.le)
  have R1 : (8388608 : ℚ) ≤ (roundHalfEven (a / pow2 (binExp a - 23)) : ℚ) := by exact_mod_cast r1
  have R2 : (roundHalfEven (a / pow2 (binExp a - 23)) : ℚ) ≤ 16777216 := by exact_mod_cast r2
  have e1 : pow2 (binExp a) = 8388608 * pow2 (binExp a - 23) := by
    rw [← pow2_sub_mul (binExp a) (binExp a - 23)]
    have : binExp a - (binExp a - 23) = ((23 : Nat) : Int) := by norm_num
    rw [this, pow2_natCast]; norm_num
  have e2 : pow2 (binExp a + 1) = 16777216 * pow2 (binExp a - 23) := by
    rw [← pow2_sub_mul (binExp a + 1) (binExp a - 23)]
    have : binExp a + 1 - (binExp a - 23) = ((24 : Nat) : Int) := by norm_num
    rw [this, pow2_natCast]; norm_num
  unfold roundPos
  rw [e1, e2]
  constructor
  · exact mul_le_mul_of_nonneg_right R1 hu.le
  · exact mul_le_mul_of_nonneg_right R2 hu.le

theorem roundPos_pos (a : ℚ) (ha : 0 < a) : 0 < roundPos a :=
  lt_of_lt_of_le (pow2_pos _) (roundPos_bounds a ha).1

theorem roundPos_mono {a b : ℚ} (ha : 0 < a) (hab : a ≤ b) : roundPos a ≤ roundPos b := by
  have hb : 0 < b := lt_of_lt_of_le ha hab
  obtain ⟨a1, a2⟩ := binExp_spec a ha
  obtain ⟨b1, b2⟩ := binExp_spec b hb
  have hle : binExp a < binExp b + 1 :=
    (pow2_lt_iff _ _).mp (lt_of_le_of_lt a1 (lt_of_le_of_lt hab b2))
  rcases lt_or_eq_of_le (show binExp a ≤ binExp b by omega) with hlt | heq
  · calc roundPos a ≤ pow2 (binExp a + 1) := (roundPos_bounds a ha).2
      _ ≤ pow2 (binExp b) := (pow2_le_iff _ _).mpr (by omega)
      _ ≤ roundPos b := (roundPos_bounds b hb).1
  · unfold roundPos
    rw [heq]
    have hu := pow2_pos (binExp b - 23)
    apply mul_le_mul_of_nonneg_right _ hu.le
    have : roundHalfEven (a / pow2 (binExp b - 23)) ≤ roundHalfEven (b / pow2 (binExp b - 23)) :=
      roundHalfEven_mono (div_le_div_of_nonneg_right hab hu.le)
    exact_mod_cast this

/-- A positive integer of at most 24 bits, scaled by a power of two, is a
`float` value. -/
theorem roundPos_exact (N : Nat) (h0 : 0 < N) (h24 : N ≤ 16777216) (k : Int) :
    roundPos ((N : ℚ) * pow2 k) = (N : ℚ) * pow2 k := by
  have hN : (0 : ℚ) < (N : ℚ) := by exact_mod_cast h0
  have hpos : 0 < (N : ℚ) * pow2 k := mul_pos hN (pow2_pos k)
  obtain ⟨p1, p2⟩ := ilog2_spec N (by omega)
  have P1 : ((2 ^ ilog2 N : Nat) : ℚ) ≤ (N : ℚ) := by exact_mod_cast p1
  have P2 : (N : ℚ) < ((2 ^ (ilog2 N + 1) : Nat) : ℚ) := by exact_mod_cast p2
  have hb : ilog2 N ≤ 24 := by
    by_contra hc
    have : 2 ^ 25 ≤ 2 ^ ilog2 N := Nat.pow_le_pow_right (by norm_num) (by omega)
    omega
  have he : binExp ((N : ℚ) * pow2 k) = (ilog2 N : Int) + k := by
    apply binExp_unique _ hpos
    · rw [pow2_add, pow2_natCast]
      exact mul_le_mul_of_nonneg_right P1 (pow2_pos k).le
    · have : (ilog2 N : Int) + k + 1 = ((ilog2 N + 1 : Nat) : Int) + k := by push_cast; ring
      rw [this, pow2_add, pow2_natCast]
      exact mul_lt_mul_of_pos_right P2 (pow2_pos k)
  -- the significand is an integer
  have hint : ∃ z : Int, (N : ℚ) * pow2 k / pow2 ((ilog2 N : Int) + k - 23) = (z : ℚ) := by
    have hu := pow2_pos ((ilog2 N : Int) + k - 23)
    by_cases h23 : ilog2 N ≤ 23
    · refine ⟨((N * 2 ^ (23 - ilog2 N) : Nat) : Int), ?_⟩
      rw [div_eq_iff hu.ne']
      have hk : k = ((23 - ilog2 N : Nat) : Int) + ((ilog2 N : Int) + k - 23) := by
        have : ((23 - ilog2 N : Nat) : Int) = 23 - (ilog2 N : Int) := by omega
        rw [this]; ring
      conv_lhs => rw [hk, pow2_add, pow2_natCast]
      push_cast
      ring
    · have hb24 : ilog2 N = 24 := by omega
      have hN24 : N = 16777216 := by
        rw [hb24] at p1
        have : (2 : Nat) ^ 24 = 16777216 := by norm_num
        omega
      refine ⟨8388608, ?_⟩
      rw [div_eq_iff hu.ne', hb24, hN24]
      have hk : (((24 : Nat) : Int) + k - 23) = k + ((1 : Nat) : Int) := by push_cast; ring
      rw [hk, pow2_add, pow2_natCast]
      push_cast
      ring
  obtain ⟨z, hz⟩ := hint
  unfold roundPos
  rw [he, hz, roundHalfEven_intCast, ← hz]
  exact div_mul_cancel₀ _ (pow2_pos _).ne'

theorem f32_zero : f32 0 = 0 := by
  unfold f32; simp

theorem f32_of_pos {x : ℚ} (h : 0 < x) : f32 x = roundPos x := by
  unfold f32
  rw [if_neg h.ne', if_pos h]

theorem f32_of_neg {x : ℚ} (h : x < 0) : f32 x = -roundPos (-x) := by
  unfold f32
  rw [if_neg h.ne, if_neg (not_lt.mpr h.le)]

theorem f32_neg (x : ℚ) : f32 (-x) = -f32 x := by
  rcases lt_trichotomy x 0 with h | h | h
  · rw [f32_of_neg h, f32_of_pos (by linarith : 0 < -x), neg_neg]
  · subst h; simp [f32_zero]
  · rw [f32_of_pos h, f32_of_neg (by linarith : -x < 0), neg_neg]

theorem f32_pos {x : ℚ} (h : 0 < x) : 0 < f32 x := by
  rw [f32_of_pos h]; exact roundPos_pos x h

theorem f32_nonneg {x : ℚ} (h : 0 ≤ x) : 0 ≤ f32 x := by
  rcases lt_or_eq_of_le h with h1 | h1
  · exact (f32_pos h1).le
  · rw [← h1, f32_zero]

theorem f32_nonpos {x : ℚ} (h : x ≤ 0) : f32 x ≤ 0 := by
  have := f32_nonneg (show 0 ≤ -x by linarith)
  rw [f32_neg] at this
  linarith

/-- Rounding to `float` is monotone. -/
theorem f32_mono {x y : ℚ} (h : x ≤ y) : f32 x ≤ f32 y := by
  rcases lt_trichotomy x 0 with hx | hx | hx
  · rcases lt_or_le y 0 with hy | hy
    · rw [f32_of_neg hx, f32_of_neg hy]
      have := roundPos_mono (show 0 < -y by linarith) (show -y ≤ -x by linarith)
      linarith
    · exact le_trans (f32_nonpos hx.le) (f32_nonneg hy)
  · subst hx
    rw [f32_zero]; exact f32_nonneg h
  · rw [f32_of_pos hx, f32_of_pos (lt_of_lt_of_le hx h)]
    exact roundPos_mono hx h

/-- An integer of magnitude at most `2^24`, scaled by a power of two, is a
`float` value: the operation that produces it is exact. -/
theorem f32_exact (z : Int) (hz : |z| ≤ 16777216) (k : Int) :
    f32 ((z : ℚ) * pow2 k) = (z : ℚ) * pow2 k := by
  rcases lt_trichotomy z 0 with h | h | h
  · obtain ⟨n, hn⟩ := Int.eq_ofNat_of_zero_le (show (0 : Int) ≤ -z by omega)
    have hzn : z = -(n : Int) := by omega
    have hn0 : 0 < n := by omega
    have hn24 : n ≤ 16777216 := by
      rw [hzn, abs_neg] at hz
      have : |(n : Int)| = n := abs_of_nonneg (by omega)
      omega
    rw [hzn]
    push_cast
    rw [neg_mul, f32_neg, f32_of_pos (mul_pos (by exact_mod_cast hn0) (pow2_pos k)),
      roundPos_exact n hn0 hn24 k]
  · subst h; simp [f32_zero]
  · obtain ⟨n, hn⟩ := Int.eq_ofNat_of_zero_le h.le
    have hn0 : 0 < n := by omega
    have hn24 : n ≤ 16777216 := by
      rw [hn] at hz
      have : |(n : Int)| = n := abs_of_nonneg (by omega)
      omega
    rw [hn]
    push_cast
    rw [f32_of_pos (mul_pos (by exact_mod_cast hn0) (pow2_pos k)), roundPos_exact n hn0 hn24 k]

theorem f32_intCast (z : Int) (hz : |z| ≤ 16777216) : f32 (z : ℚ) = (z : ℚ) := by
  have := f32_exact z hz 0
  rwa [pow2_zero, mul_one] at this

theorem f32_natCast (n : Nat) (hn : n ≤ 16777216) : f32 (n : ℚ) = (n : ℚ) := by
  have := f32_intCast (n : Int) (by rw [abs_of_nonneg (by omega)]; exact_mod_cast hn)
  exact_mod_cast this

theorem f32_one : f32 1 = 1 := by
  have := f32_natCast 1 (by norm_num)
  simpa using this

theorem f32_160 : f32 160 = 160 := by
  have := f32_natCast 160 (by norm_num)
  simpa using this

theorem f32_eq_zero_iff (x : ℚ) : f32 x = 0 ↔ x = 0 := by
  constructor
  · intro h
    rcases lt_trichotomy x 0 with hx | hx | hx
    · have := f32_pos (show 0 < -x by linarith)
      rw [f32_neg, h] at this
      simp at this
    · exact hx
    · have := f32_pos hx
      rw [h] at this
      exact absurd this (lt_irrefl _)
  · intro h; rw [h, f32_zero]

/-- The relative error of a rounding to `float` is at most `2^-24`. -/
theorem f32_error (x : ℚ) : |f32 x - x| ≤ |x| / 16777216 := by
  have key : ∀ a : ℚ, 0 < a → |roundPos a - a| ≤ a / 16777216 := by
    intro a ha
    obtain ⟨m1, -⟩ := significand_bounds a ha
    have hu := pow2_pos (binExp a - 23)
    have hr := roundHalfEven_abs_sub (a / pow2 (binExp a - 23))
    have e : roundPos a - a =
        ((roundHalfEven (a / pow2 (binExp a - 23)) : ℚ) - a / pow2 (binExp a - 23)) *
          pow2 (binExp a - 23) := by
      unfold roundPos
      rw [sub_mul, div_mul_cancel₀ _ hu.ne']
    rw [e, abs_mul, abs_of_pos hu]
    have hm : 8388608 * pow2 (binExp a - 23) ≤ a := by
      rwa [le_div_iff₀ hu] at m1
    calc |(roundHalfEven (a / pow2 (binExp a - 23)) : ℚ) - a / pow2 (binExp a - 23)| *
          pow2 (binExp a - 23)
        ≤ 1 / 2 * pow2 (binExp a - 23) := mul_le_mul_of_nonneg_right hr hu.le
      _ ≤ a / 16777216 := by linarith
  rcases lt_trichotomy x 0 with hx | hx | hx
  · rw [f32_of_neg hx, abs_of_neg hx]
    have := key (-x) (by linarith)
    have e : -roundPos (-x) - x = -(roundPos (-x) - -x) := by ring
    rw [e, abs_neg]
    exact this
  · subst hx; simp [f32_zero]
  · rw [f32_of_pos hx, abs_of_pos hx]
    exact key x hx

/-- A rounding to `float` of a non-negative number stays within the relative
error `2^-24`. -/
theorem f32_bracket {x : ℚ} (hx : 0 ≤ x) :
    x * (1 - 1 / 16777216) ≤ f32 x ∧ f32 x ≤ x * (1 + 1 / 16777216) := by
  have h := f32_error x
  rw [abs_of_nonneg hx, abs_le] at h
  constructor <;> linarith

/-- The rate computed by `sample()` in `float`, with its four roundings, is
within the relative error `2^-21` of the exact quotient. -/
theorem rate_error (n d : Nat) (hd : 0 < d) :
    |f32 (f32 (n : ℚ) / f32 (f32 (d : ℚ) / 1000)) - (n : ℚ) / ((d : ℚ) / 1000)| ≤
      (n : ℚ) / ((d : ℚ) / 1000) / 2097152 := by
  have hn0 : (0 : ℚ) ≤ (n : ℚ) := Nat.cast_nonneg n
  have hd0 : (0 : ℚ) < (d : ℚ) := by exact_mod_cast hd
  obtain ⟨a1, a2⟩ := f32_bracket hn0
  obtain ⟨b1, b2⟩ := f32_bracket hd0.le
  have hA0 : 0 ≤ f32 (n : ℚ) := f32_nonneg hn0
  have hB0 : 0 < f32 (d : ℚ) := f32_pos hd0
  have hT00 : 0 < f32 (d : ℚ) / 1000 := by positivity
  obtain ⟨t1, t2⟩ := f32_bracket hT00.le
  have hT0 : 0 < f32 (f32 (d : ℚ) / 1000) := f32_pos hT00
  have hY10 : 0 ≤ f32 (n : ℚ) / f32 (f32 (d : ℚ) / 1000) := div_nonneg hA0 hT0.le
  obtain ⟨r1, r2⟩ := f32_bracket hY10
  have hR0 : 0 ≤ f32 (f32 (n : ℚ) / f32 (f32 (d : ℚ) / 1000)) := f32_nonneg hY10
  -- multiply the bracket of the last rounding by the divisor
  have m1 : f32 (n : ℚ) * (1 - 1 / 16777216) ≤
      f32 (f32 (n : ℚ) / f32 (f32 (d : ℚ) / 1000)) * f32 (f32 (d : ℚ) / 1000) := by
    have := mul_le_mul_of_nonneg_right r1 hT0.le
    rwa [mul_right_comm, div_mul_cancel₀ _ hT0.ne'] at this
  have m2 : f32 (f32 (n : ℚ) / f32 (f32 (d : ℚ) / 1000)) * f32 (f32 (d : ℚ) / 1000) ≤
      f32 (n : ℚ) * (1 + 1 / 16777216) := by
    have := mul_le_mul_of_nonneg_right r2 hT0.le
    rwa [mul_right_comm, div_mul_cancel₀ _ hT0.ne'] at this
  -- bounds on the divisor
  have k1 : f32 (f32 (n : ℚ) / f32 (f32 (d : ℚ) / 1000)) *
      ((d : ℚ) * (1 - 1 / 16777216) / 1000 * (1 - 1 / 16777216)) ≤
      f32 (f32 (n : ℚ) / f32 (f32 (d : ℚ) / 1000)) * f32 (f32 (d : ℚ) / 1000) :=
    mul_le_mul_of_nonneg_left (by linarith) hR0
  have k2 : f32 (f32 (n : ℚ) / f32 (f32 (d : ℚ) / 1000)) * f32 (f32 (d : ℚ) / 1000) ≤
      f32 (f32 (n : ℚ) / f32 (f32 (d : ℚ) / 1000)) *
        ((d : ℚ) * (1 + 1 / 16777216) / 1000 * (1 + 1 / 16777216)) :=
    mul_le_mul_of_nonneg_left (by linarith) hR0
  obtain ⟨Y, hY⟩ : ∃ Y : ℚ, Y = (n : ℚ) / ((d : ℚ) / 1000) := ⟨_, rfl⟩
  have hYd : Y * (d : ℚ) = 1000 * (n : ℚ) := by
    rw [hY]; field_simp; ring
  have hY0 : 0 ≤ Y := by rw [hY]; positivity
  rw [← hY, abs_le]
  constructor
  · -- lower bound
    have : (Y - Y / 2097152) * (d : ℚ) ≤
        f32 (f32 (n : ℚ) / f32 (f32 (d : ℚ) / 1000)) * (d : ℚ) := by
      nlinarith
    have := le_of_mul_le_mul_right this hd0
    linarith
  · have : f32 (f32 (n : ℚ) / f32 (f32 (d : ℚ) / 1000)) * (d : ℚ) ≤
        (Y + Y / 2097152) * (d : ℚ) := by
      nlinarith
    have := le_of_mul_le_mul_right this hd0
    linarith

/-- The `float` subtraction `rest - 15.0f` of `isJamDetected` compares with
an angle in `[0, 160]` as the exact difference does, for every `float` value
`rest`: the subtraction is exact from 15 up to `2^24`, its result is negative
below 15 and above 160 beyond `2^24`. -/
theorem lt_f32_sub_iff (rest a : ℚ) (hr : f32 rest = rest) (h0 : 0 ≤ a) (h160 : a ≤ 160) :
    a < f32 (rest - 15) ↔ a < rest - 15 := by
  rcases lt_or_le rest 15 with h15 | h15
  · have := f32_nonpos (show rest - 15 ≤ 0 by linarith)
    constructor <;> intro h <;> linarith
  rcases le_or_lt 16777216 rest with hbig | hbig
  · have h1 : f32 16777201 ≤ f32 (rest - 15) := f32_mono (by linarith)
    have h2 : f32 (16777201 : ℚ) = 16777201 := by
      have := f32_natCast 16777201 (by norm_num)
      exact_mod_cast this
    rw [h2] at h1
    constructor <;> intro _ <;> linarith
  · have hpos : 0 < rest := by linarith
    obtain ⟨s1, s2⟩ := binExp_spec rest hpos
    have he3 : 3 ≤ binExp rest := by
      have h8 : pow2 3 < pow2 (binExp rest + 1) := by
        have e : pow2 3 = 8 := by
          have := pow2_natCast 3
          norm_num at this
          exact this
        rw [e]; linarith
      have := (pow2_lt_iff _ _).mp h8
      omega
    have he23 : binExp rest ≤ 23 := by
      have h24 : pow2 (binExp rest) < pow2 24 := by
        have e : pow2 24 = 16777216 := by
          have := pow2_natCast 24
          norm_num at this
          exact this
        rw [e]; linarith
      have := (pow2_lt_iff _ _).mp h24
      omega
    obtain ⟨M, hMdef⟩ : ∃ M : Int, M = roundHalfEven (rest / pow2 (binExp rest - 23)) :=
      ⟨_, rfl⟩
    have hM : rest = (M : ℚ) * pow2 (binExp rest - 23) := by
      have := f32_of_pos hpos
      rw [hr] at this
      rw [hMdef]
      exact this
    have hM24 : M ≤ 16777216 := by
      rw [hMdef]
      exact roundHalfEven_le_of_le_int (by push_cast; exact (significand_bounds rest hpos).2.le)
    obtain ⟨n, hn⟩ := Int.eq_ofNat_of_zero_le (show (0 : Int) ≤ 23 - binExp rest by omega)
    have hone : ((2 ^ n : Nat) : ℚ) * pow2 (binExp rest - 23) = 1 := by
      rw [← pow2_natCast, ← hn, ← pow2_add]
      have : 23 - binExp rest + (binExp rest - 23) = 0 := by ring
      rw [this, pow2_zero]
    have hx : rest - 15 =
        ((M - 15 * ((2 ^ n : Nat) : Int) : Int) : ℚ) * pow2 (binExp rest - 23) := by
      push_cast
      rw [sub_mul, ← hM, mul_assoc]
      have := hone
      push_cast at this
      rw [this]
      ring
    have hz0 : 0 ≤ M - 15 * ((2 ^ n : Nat) : Int) := by
      by_contra hneg
      have h1 : ((M - 15 * ((2 ^ n : Nat) : Int) : Int) : ℚ) < 0 := by
        exact_mod_cast not_le.mp hneg
      have h2 := mul_neg_of_neg_of_pos h1 (pow2_pos (binExp rest - 23))
      rw [← hx] at h2
      linarith
    have hP : (0 : Int) ≤ ((2 ^ n : Nat) : Int) := Int.natCast_nonneg _
    have hexact : f32 (rest - 15) = rest - 15 := by
      rw [hx]
      apply f32_exact
      rw [abs_le]
      constructor <;> omega
    rw [hexact]

/-- An angle returned by the mapping, for any calibration, lies in
`[0, 160]`. -/
theorem FeedArmController.mapAngle_mem {raw adcMin adcMax : Nat} {a : ℚ}
    (h : FeedArmController.mapAngle raw adcMin adcMax = some a) : 0 ≤ a ∧ a ≤ 160 := by
  unfold FeedArmController.mapAngle at h
  simp only at h
  split_ifs at h <;> simp only [Option.some.injEq] at h <;> subst h
  · norm_num
  · norm_num
  · unfold constrain
    split_ifs <;> constructor <;> linarith

/-! ## Lemmas on the 32-bit arithmetic and the pulse counter -/

theorem sub32_zero (t : Nat) : sub32 (millis t) 0 = millis t := by
  simp only [sub32, millis, U32]; omega

theorem ReedSwitch.isStalled_eq (r : ReedSwitch) (timeoutMs t : Nat) :
    r.isStalled timeoutMs t = decide (sub32 (millis t) r.lastPulseTimeMs > timeoutMs) := by
  unfold ReedSwitch.isStalled
  split
  · next h => rw [h, sub32_zero]
  · rfl

theorem ReedSwitch.calls_lastPulseTimeMs (ks : List ReedCall) :
    ∀ (r : ReedSwitch) (last : Option Nat), r.lastPulseTimeMs = last.getD 0 →
      (r.calls ks).lastPulseTimeMs = (r.lastAccepted last ks).getD 0 := by
  induction ks with
  | nil => intro r last h; simpa [ReedSwitch.calls, ReedSwitch.lastAccepted] using h
  | cons k ks ih =>
    intro r last h
    cases k with
    | interrupt t =>
      simp only [ReedSwitch.calls, ReedSwitch.lastAccepted, ReedSwitch.call]
      apply ih
      unfold ReedSwitch.handleInterrupt ReedSwitch.accepts
      by_cases hacc : sub32 (millis t) r.lastPulseTimeMs > 50
      · rw [if_pos hacc, if_pos (by simpa using hacc)]; rfl
      · rw [if_neg hacc, if_neg (by simpa using hacc)]; exact h
    | sample t =>
      simp only [ReedSwitch.calls, ReedSwitch.lastAccepted, ReedSwitch.call]
      apply ih
      simpa [ReedSwitch.sample] using h

theorem ReedSwitch.lastAccepted_map (ks : List ReedCall) :
    ∀ (r : ReedSwitch) (last : Option Nat),
      r.lastAccepted (last.map millis) ks = (r.lastAcceptedAt last ks).map millis := by
  induction ks with
  | nil => intro r last; rfl
  | cons k ks ih =>
    intro r last
    cases k with
    | interrupt t =>
      simp only [lastAccepted, lastAcceptedAt]
      rw [← ih]
      congr 1
      split_ifs <;> rfl
    | sample t =>
      simp only [lastAccepted, lastAcceptedAt]
      exact ih _ _

/-! ## Lemmas on `update()` -/

namespace FeedArmController

open FeedArmState

theorem readAngles_prepared {c c1 : FeedArmController} {i : TickInput}
    (h : c.readAngles i = some c1) :
    Prepared c c1 ∧ c1.reed = c.reed ∧ c1.filamentStalled = c.filamentStalled ∧
      c1.lastReedSampleTime = c.lastReedSampleTime ∧
      ∃ raw, c.readPotSmoothed i.feedSamples = some raw ∧
        c1.feedArmAngle = mapAngle raw c.cfg.potFeedMin c.cfg.potFeedMax := by
  unfold readAngles readPotAngle at h
  cases hr : c.readPotSmoothed i.feedSamples with
  | none => simp [hr] at h
  | some raw =>
    simp only [hr] at h
    unfold readPotSmoothed at h
    by_cases hz : c.cfg.potSamples = 0
    · simp [hz] at h
    · simp only [hz, if_true, if_false] at h
      split_ifs at h <;> simp at h <;> subst h <;>
        exact ⟨⟨rfl, rfl, rfl, rfl, rfl, rfl, rfl, rfl, rfl, rfl, rfl, rfl⟩,
          rfl, rfl, rfl, raw, rfl, rfl⟩

theorem sampleReed_prepared (c : FeedArmController) (i : TickInput) :
    Prepared c (c.sampleReed i) ∧ (c.sampleReed i).feedArmAngle = c.feedArmAngle := by
  simp only [sampleReed]
  split_ifs
  · cases hr : c.reed <;>
      exact ⟨⟨rfl, rfl, rfl, rfl, rfl, rfl, rfl, rfl, rfl, rfl, rfl, rfl⟩, rfl⟩
  · exact ⟨⟨rfl, rfl, rfl, rfl, rfl, rfl, rfl, rfl, rfl, rfl, rfl, rfl⟩, rfl⟩

theorem Prepared.trans {a b c : FeedArmController} (h1 : Prepared a b) (h2 : Prepared b c) :
    Prepared a c :=
  ⟨h2.cfg.trans h1.cfg, h2.servoLog.trans h1.servoLog, h2.feedServoPin.trans h1.feedServoPin,
   h2.tensionServoPin.trans h1.tensionServoPin, h2.feedPotPin.trans h1.feedPotPin,
   h2.tensionPotPin.trans h1.tensionPotPin, h2.feedServoAttached.trans h1.feedServoAttached,
   h2.state.trans h1.state, h2.tensionAngle.trans h1.tensionAngle,
   h2.savedTensionAngle.trans h1.savedTensionAngle, h2.stateEnteredAt.trans h1.stateEnteredAt,
   h2.unstickCount.trans h1.unstickCount⟩

theorem sampleReed_congr {c c1 : FeedArmController} (i : TickInput)
    (hc : c1.cfg = c.cfg) (hr : c1.reed = c.reed) (hf : c1.filamentStalled = c.filamentStalled)
    (hl : c1.lastReedSampleTime = c.lastReedSampleTime) :
    (c1.sampleReed i).filamentStalled = (c.sampleReed i).filamentStalled ∧
    (c1.sampleReed i).reed = (c.sampleReed i).reed := by
  simp only [sampleReed]
  rw [hl, hr]
  split_ifs
  · cases hq : c.reed <;> simp [hf, hc, hr, hq]
  · exact ⟨hf, hr⟩

/-- A returning call of `update()` is the `switch` run on a controller that
differs from the one before the call only in the sensor readings. -/
theorem update_some {c c2 : FeedArmController} {i : TickInput} (h : c.update i = some c2) :
    ∃ p, Prepared c p ∧ c2 = p.switchState (sub32 (millis i.now) c.stateEnteredAt) i ∧
      p.filamentStalled = (c.sampleReed i).filamentStalled ∧
      p.reed = (c.sampleReed i).reed ∧
      ∃ raw, c.readPotSmoothed i.feedSamples = some raw ∧
        p.feedArmAngle = mapAngle raw c.cfg.potFeedMin c.cfg.potFeedMax := by
  unfold update at h
  cases h1 : c.readAngles i with
  | none => simp [h1] at h
  | some c1 =>
    simp only [h1, Option.some.injEq] at h
    obtain ⟨hp, hr, hf, hl, raw, hraw, hang⟩ := readAngles_prepared h1
    obtain ⟨hp2, ha2⟩ := sampleReed_prepared c1 i
    obtain ⟨hs1, hs2⟩ := sampleReed_congr i hp.cfg hr hf hl
    exact ⟨c1.sampleReed i, hp.trans hp2, h.symm, hs1, hs2, raw, hraw, ha2.trans hang⟩

theorem update_isSome (c : FeedArmController) (i : TickInput) (h : c.cfg.potSamples ≠ 0) :
    (c.update i).isSome = true := by
  unfold update readAngles readPotAngle readPotSmoothed
  simp only [h, if_false]
  split_ifs <;> simp [h]

theorem switchState_MONITORING {p : FeedArmController} (h : p.state = MONITORING) (e : Nat)
    (i : TickInput) :
    p.switchState e i =
      if p.isJamDetected then p.transitionTo UNSTICKING i.transitionTime else p := by
  simp only [switchState, h]

theorem switchState_UNSTICKING {p : FeedArmController} (h : p.state = UNSTICKING) (e : Nat)
    (i : TickInput) :
    p.switchState e i =
      if p.feedServoAttached = false then
        { p with
          savedTensionAngle := p.tensionAngle
          servoLog := p.servoLog ++
            [(ServoId.tension, ServoCall.write (toInt p.cfg.tensionAngleMin)),
             (ServoId.feed, ServoCall.attach p.feedServoPin 500 2500),
             (ServoId.feed, ServoCall.write (toInt p.cfg.feedArmUnstickAngle))]
          feedServoAttached := true
          state := HOLD_UNSTICK
          stateEnteredAt := millis i.transitionTime }
      else
        { p with
          servoLog := p.servoLog ++
            [(ServoId.feed, ServoCall.write (toInt p.cfg.feedArmUnstickAngle))]
          state := HOLD_UNSTICK
          stateEnteredAt := millis i.transitionTime } := by
  simp only [switchState, h, servo, transitionTo]
  split_ifs <;> simp

theorem switchState_HOLD_UNSTICK {p : FeedArmController} (h : p.state = HOLD_UNSTICK) (e : Nat)
    (i : TickInput) :
    p.switchState e i =
      if e ≥ p.cfg.unstickHoldTimeMs then p.transitionTo RETURNING i.transitionTime else p := by
  simp only [switchState, h]

theorem switchState_RETURNING {p : FeedArmController} (h : p.state = RETURNING) (e : Nat)
    (i : TickInput) :
    p.switchState e i =
      { p with
        servoLog := p.servoLog ++ [(ServoId.feed, ServoCall.write (toInt p.cfg.feedArmRestAngle))]
        unstickCount := inc32 p.unstickCount
        state := COOLDOWN
        stateEnteredAt := millis i.transitionTime } := by
  simp only [switchState, h, servo, transitionTo]

theorem switchState_COOLDOWN {p : FeedArmController} (h : p.state = COOLDOWN) (e : Nat)
    (i : TickInput) :
    p.switchState e i =
      if e ≥ p.cfg.unstickCooldownMs then
        { p with
          servoLog := p.servoLog ++
            ((if p.feedServoAttached = true then [(ServoId.feed, ServoCall.detach)] else []) ++
             [(ServoId.tension, ServoCall.write (toInt p.savedTensionAngle))])
          feedServoAttached := false
          tensionAngle := p.savedTensionAngle
          reed := p.reed.map (fun r => ReedSwitch.reset r i.resetTime)
          state := MONITORING
          stateEnteredAt := millis i.transitionTime }
      else p := by
  simp only [switchState, h, servo, transitionTo]
  split_ifs with h1 h2 <;> simp
  cases hq : p.feedServoAttached <;> simp_all

theorem switchState_state (p : FeedArmController) (e : Nat) (i : TickInput) :
    (p.switchState e i).state = p.state ∨ (p.switchState e i).state = p.state.next := by
  cases hs : p.state
  · rw [switchState_MONITORING hs]; split_ifs <;> simp [transitionTo, hs, FeedArmState.next]
  · rw [switchState_UNSTICKING hs]; split_ifs <;> simp [FeedArmState.next]
  · rw [switchState_HOLD_UNSTICK hs]; split_ifs <;> simp [transitionTo, hs, FeedArmState.next]
  · rw [switchState_RETURNING hs]; simp [FeedArmState.next]
  · rw [switchState_COOLDOWN hs]; split_ifs <;> simp [hs, FeedArmState.next]

theorem update_state {c c2 : FeedArmController} {i : TickInput} (h : c.update i = some c2) :
    c2.state = c.state ∨ c2.state = c.state.next := by
  obtain ⟨p, hp, rfl, -⟩ := update_some h
  rw [← hp.state]
  exact switchState_state p _ i

theorem step_state {c c2 : FeedArmController} {e : Event} (h : c.step e = some c2)
    (he : e.isCommand = false) : c2.state = c.state ∨ c2.state = c.state.next := by
  cases e with
  | tick i => exact update_state h
  | pulse t =>
    simp only [step, Option.some.injEq] at h
    subst h
    exact Or.inl rfl
  | trigger t => simp [Event.isCommand] at he
  | setTension a => simp [Event.isCommand] at he
  | setConfig cfg => simp [Event.isCommand] at he

theorem run_cons {c : FeedArmController} {e : Event} {es : List Event}
    {cs : List FeedArmController} (h : c.run (e :: es) = some cs) :
    ∃ c1 cs1, c.step e = some c1 ∧ c1.run es = some cs1 ∧ cs = c1 :: cs1 := by
  simp only [run] at h
  cases h1 : c.step e with
  | none => simp [h1] at h
  | some c1 =>
    simp only [h1] at h
    cases h2 : c1.run es with
    | none => simp [h2] at h
    | some cs1 =>
      simp only [h2, Option.some.injEq] at h
      exact ⟨c1, cs1, rfl, h2, h.symm⟩

theorem toMonitoring_next {s : FeedArmState} (h : s ≠ MONITORING) :
    s :: s.next.toMonitoring = s.toMonitoring := by
  cases s <;> simp [FeedArmState.next, FeedArmState.toMonitoring] at h ⊢

theorem next_ne (s : FeedArmState) : s ≠ s.next := by
  cases s <;> simp [FeedArmState.next]

theorem run_destutter (evs : List Event) :
    ∀ (c : FeedArmController) (pre : List FeedArmController) (cN : FeedArmController),
      (∀ e ∈ evs, e.isCommand = false) → c.state ≠ MONITORING →
      c.run evs = some (pre ++ [cN]) → (∀ x ∈ pre, x.state ≠ MONITORING) →
      cN.state = MONITORING →
      List.destutter' (· ≠ ·) c.state ((pre ++ [cN]).map (fun x => x.state)) =
        c.state.toMonitoring := by
  induction evs with
  | nil =>
    intro c pre cN _ _ hrun
    simp [run] at hrun
  | cons e es ih =>
    intro c pre cN hcmd hc hrun hpre hN
    obtain ⟨c1, cs1, hstep, hrest, hcs⟩ := run_cons hrun
    have hst := step_state hstep (hcmd e (List.mem_cons_self _ _))
    cases pre with
    | nil =>
      simp only [List.nil_append, List.cons.injEq] at hcs
      obtain ⟨rfl, -⟩ := hcs
      rcases hst with h1 | h1
      · exact absurd (h1.symm.trans hN) hc
      · have : c.state = COOLDOWN := by
          rw [hN] at h1
          cases hs : c.state <;> simp [hs, FeedArmState.next] at h1 hc ⊢
        simp [this, hN, List.destutter', FeedArmState.toMonitoring]
    | cons x pre1 =>
      simp only [List.cons_append, List.cons.injEq] at hcs
      obtain ⟨rfl, rfl⟩ := hcs
      have hx : x.state ≠ MONITORING := hpre x (List.mem_cons_self _ _)
      have := ih x pre1 cN (fun e he => hcmd e (List.mem_cons_of_mem _ he)) hx hrest
        (fun y hy => hpre y (List.mem_cons_of_mem _ hy)) hN
      simp only [List.cons_append, List.map_cons]
      rcases hst with h1 | h1
      · rw [List.destutter'_cons_neg _ (by simp [h1]), ← h1]
        exact this
      · rw [List.destutter'_cons_pos _ (by rw [h1]; exact next_ne _), this, h1]
        exact toMonitoring_next hc

theorem sampleReed_reed_isSome (c : FeedArmController) (i : TickInput) :
    (c.sampleReed i).reed.isSome = c.reed.isSome := by
  simp only [sampleReed]
  split_ifs
  · cases hq : c.reed <;> simp [hq]
  · rfl

theorem cycleInv_update {c0 c c2 : FeedArmController} {i : TickInput}
    (hinv : CycleInv c0 c) (hc : c.state ≠ MONITORING) (h : c.update i = some c2) :
    CycleInv c0 c2 := by
  obtain ⟨p, hp, rfl, -, hreed, -⟩ := update_some h
  obtain ⟨hcfg, hpin, hsome, hT, hcase⟩ := hinv
  have hsome2 : p.reed.isSome = c0.reed.isSome := by
    rw [hreed, sampleReed_reed_isSome, hsome]
  generalize sub32 (millis i.now) c.stateEnteredAt = e
  cases hs : c.state with
  | MONITORING => exact absurd hs hc
  | UNSTICKING =>
    rw [hs] at hcase
    obtain ⟨ha, hlog, hn⟩ := hcase
    rw [switchState_UNSTICKING (hp.state.trans hs), if_pos (hp.feedServoAttached.trans ha)]
    refine ⟨hp.cfg.trans hcfg, hp.feedServoPin.trans hpin, hsome2,
      hp.tensionAngle.trans hT, ?_⟩
    refine ⟨rfl, hp.tensionAngle.trans hT, ?_, hp.unstickCount.trans hn⟩
    simp only [relaxCalls, hp.servoLog, hlog, hp.cfg, hcfg, hp.feedServoPin, hpin]
  | HOLD_UNSTICK =>
    rw [hs] at hcase
    obtain ⟨ha, hsv, hlog, hn⟩ := hcase
    rw [switchState_HOLD_UNSTICK (hp.state.trans hs)]
    split_ifs
    · refine ⟨hp.cfg.trans hcfg, hp.feedServoPin.trans hpin, hsome2,
        hp.tensionAngle.trans hT, ?_⟩
      simp only [transitionTo]
      exact ⟨hp.feedServoAttached.trans ha, hp.savedTensionAngle.trans hsv,
        hp.servoLog.trans hlog, hp.unstickCount.trans hn⟩
    · refine ⟨hp.cfg.trans hcfg, hp.feedServoPin.trans hpin, hsome2,
        hp.tensionAngle.trans hT, ?_⟩
      rw [hp.state.trans hs]
      exact ⟨hp.feedServoAttached.trans ha, hp.savedTensionAngle.trans hsv,
        hp.servoLog.trans hlog, hp.unstickCount.trans hn⟩
  | RETURNING =>
    rw [hs] at hcase
    obtain ⟨ha, hsv, hlog, hn⟩ := hcase
    rw [switchState_RETURNING (hp.state.trans hs)]
    refine ⟨hp.cfg.trans hcfg, hp.feedServoPin.trans hpin, hsome2,
      hp.tensionAngle.trans hT, ?_⟩
    refine ⟨hp.feedServoAttached.trans ha, hp.savedTensionAngle.trans hsv, ?_, ?_⟩
    · simp only [hp.servoLog, hlog, hp.cfg, hcfg]
    · simp only [hp.unstickCount, hn]
  | COOLDOWN =>
    rw [hs] at hcase
    obtain ⟨ha, hsv, hlog, hn⟩ := hcase
    rw [switchState_COOLDOWN (hp.state.trans hs)]
    by_cases hge : e ≥ p.cfg.unstickCooldownMs
    · rw [if_pos hge]
      refine ⟨hp.cfg.trans hcfg, hp.feedServoPin.trans hpin, ?_, ?_, ?_⟩
      · simpa using hsome2
      · exact hp.savedTensionAngle.trans hsv
      · refine ⟨rfl, ?_, hp.unstickCount.trans hn, ?_⟩
        · simp only [hp.servoLog, hlog, hp.feedServoAttached, ha, hp.savedTensionAngle, hsv,
            if_true, List.append_assoc, List.cons_append, List.nil_append]
        · intro r hr
          simp only [Option.map_eq_some'] at hr
          obtain ⟨r0, -, rfl⟩ := hr
          exact ⟨rfl, rfl, rfl, rfl⟩
    · rw [if_neg hge]
      refine ⟨hp.cfg.trans hcfg, hp.feedServoPin.trans hpin, hsome2,
        hp.tensionAngle.trans hT, ?_⟩
      rw [hp.state.trans hs]
      exact ⟨hp.feedServoAttached.trans ha, hp.savedTensionAngle.trans hsv,
        hp.servoLog.trans hlog, hp.unstickCount.trans hn⟩

theorem cycleInv_step {c0 c c2 : FeedArmController} {e : Event}
    (hinv : CycleInv c0 c) (hc : c.state ≠ MONITORING) (he : e.isCommand = false)
    (h : c.step e = some c2) : CycleInv c0 c2 := by
  cases e with
  | tick i => exact cycleInv_update hinv hc h
  | pulse t =>
    simp only [step, Option.some.injEq] at h
    subst h
    obtain ⟨hcfg, hpin, hsome, hT, hcase⟩ := hinv
    refine ⟨hcfg, hpin, ?_, hT, ?_⟩
    · simpa [pulse] using hsome
    · cases hs : c.state with
      | MONITORING => exact absurd hs hc
      | UNSTICKING => rw [hs] at hcase; simpa [pulse, hs] using hcase
      | HOLD_UNSTICK => rw [hs] at hcase; simpa [pulse, hs] using hcase
      | RETURNING => rw [hs] at hcase; simpa [pulse, hs] using hcase
      | COOLDOWN => rw [hs] at hcase; simpa [pulse, hs] using hcase
  | trigger t => simp [Event.isCommand] at he
  | setTension a => simp [Event.isCommand] at he
  | setConfig cfg => simp [Event.isCommand] at he

theorem cycleInv_run (evs : List Event) :
    ∀ (c0 c : FeedArmController) (pre : List FeedArmController) (cN : FeedArmController),
      (∀ e ∈ evs, e.isCommand = false) → CycleInv c0 c → c.state ≠ MONITORING →
      c.run evs = some (pre ++ [cN]) → (∀ x ∈ pre, x.state ≠ MONITORING) →
      CycleInv c0 cN := by
  induction evs with
  | nil =>
    intro c0 c pre cN _ _ _ hrun
    simp [run] at hrun
  | cons e es ih =>
    intro c0 c pre cN hcmd hinv hc hrun hpre
    obtain ⟨c1, cs1, hstep, hrest, hcs⟩ := run_cons hrun
    have hinv1 := cycleInv_step hinv hc (hcmd e (List.mem_cons_self _ _)) hstep
    cases pre with
    | nil =>
      simp only [List.nil_append, List.cons.injEq] at hcs
      obtain ⟨rfl, -⟩ := hcs
      exact hinv1
    | cons x pre1 =>
      simp only [List.cons_append, List.cons.injEq] at hcs
      obtain ⟨rfl, rfl⟩ := hcs
      exact ih c0 x pre1 cN (fun e he => hcmd e (List.mem_cons_of_mem _ he)) hinv1
        (hpre x (List.mem_cons_self _ _)) hrest
        (fun y hy => hpre y (List.mem_cons_of_mem _ hy))

theorem update_unstickCount {c c2 : FeedArmController} {i : TickInput}
    (h : c.update i = some c2) :
    (c.state = RETURNING → c2.unstickCount = (c.unstickCount + 1) % 4294967296) ∧
    (c.state ≠ RETURNING → c2.unstickCount = c.unstickCount) := by
  obtain ⟨p, hp, rfl, -⟩ := update_some h
  rw [← hp.state, ← hp.unstickCount]
  generalize sub32 (millis i.now) c.stateEnteredAt = e
  cases hs : p.state
  · rw [switchState_MONITORING hs]; split_ifs <;> simp [transitionTo]
  · rw [switchState_UNSTICKING hs]; split_ifs <;> simp
  · rw [switchState_HOLD_UNSTICK hs]; split_ifs <;> simp [transitionTo]
  · rw [switchState_RETURNING hs]; simp [inc32, U32]
  · rw [switchState_COOLDOWN hs]; split_ifs <;> simp

theorem step_unstickCount {c c2 : FeedArmController} {e : Event} (h : c.step e = some c2)
    (hlt : c.unstickCount < 4294967296) :
    c2.unstickCount = (c.unstickCount + c.returningTicks [e]) % 4294967296 := by
  cases e with
  | tick i =>
    have := update_unstickCount h
    simp only [returningTicks, step] at h ⊢
    by_cases hs : c.state = RETURNING
    · simp [hs, this.1 hs, h]
    · simp [hs, this.2 hs, h, Nat.mod_eq_of_lt hlt]
  | pulse t =>
    simp only [step, Option.some.injEq] at h
    subst h
    simp [returningTicks, pulse, step, Nat.mod_eq_of_lt hlt]
  | trigger t =>
    simp only [step, Option.some.injEq] at h
    subst h
    simp only [returningTicks, step, triggerUnstick, transitionTo]
    split_ifs <;> simp [Nat.mod_eq_of_lt hlt]
  | setTension a =>
    simp only [step, Option.some.injEq] at h
    subst h
    simp [returningTicks, step, setTensionAngle, servo, Nat.mod_eq_of_lt hlt]
  | setConfig cfg =>
    simp only [step, Option.some.injEq] at h
    subst h
    simp [returningTicks, step, updateConfig, Nat.mod_eq_of_lt hlt]

theorem returningTicks_cons {c c1 : FeedArmController} {e : Event} (es : List Event)
    (h : c.step e = some c1) :
    c.returningTicks (e :: es) = c.returningTicks [e] + c1.returningTicks es := by
  simp [returningTicks, h]

theorem run_unstickCount (evs : List Event) :
    ∀ (c : FeedArmController) (cs : List FeedArmController),
      c.unstickCount < 4294967296 → c.run evs = some cs →
      (cs.getLastD c).unstickCount = (c.unstickCount + c.returningTicks evs) % 4294967296 := by
  induction evs with
  | nil =>
    intro c cs hlt hrun
    simp only [run, Option.some.injEq] at hrun
    subst hrun
    simp [returningTicks, Nat.mod_eq_of_lt hlt]
  | cons e es ih =>
    intro c cs hlt hrun
    obtain ⟨c1, cs1, hstep, hrest, rfl⟩ := run_cons hrun
    have h1 := step_unstickCount hstep hlt
    have hlt1 : c1.unstickCount < 4294967296 := by
      rw [h1]; exact Nat.mod_lt _ (by norm_num)
    have h2 := ih c1 cs1 hlt1 hrest
    rw [returningTicks_cons es hstep]
    have : (c1 :: cs1).getLastD c = cs1.getLastD c1 := by
      cases cs1 <;> simp [List.getLastD]
    rw [this, h2, h1]
    omega

end FeedArmController

/-! ## Facts on the concrete inputs -/

open FeedArmState FeedArmController

/-- The controller `bench` is what `begin()` builds. -/
theorem begin_eq_bench :
    FeedArmController.init.begin Config.defaults 13 14 6 7 (some (ReedSwitch.init.begin 4 1000))
      { enteredTime := 1000, reedSampleTime := 1000,
        feedSamples := fun _ => 2225, tensionSamples := fun _ => 2000 } = some bench := by
  decide!

theorem benchStalled_update_stallTick : benchStalled.update stallTick = some stallStart := by
  decide!

theorem bench_update_jamTick : bench.update jamTick = some cycleStart := by
  decide!

theorem cycleStart_state : cycleStart.state = UNSTICKING := by
  decide!

theorem cycleStart_run :
    cycleStart.run cycleTail = some (cycleTrace.dropLast ++ [cycleTrace.getLastD bench]) := by
  decide!

theorem cycleTail_ticks : ∀ e ∈ cycleTail, e.isCommand = false := by
  simp [cycleTail, Event.isCommand]

theorem cycleTrace_dropLast : ∀ x ∈ cycleTrace.dropLast, x.state ≠ MONITORING := by
  decide!

theorem cycleTrace_last : (cycleTrace.getLastD bench).state = MONITORING := by
  decide!

/-! ## The claims -/

/-- Claim C1. A call of `update()` that returns leaves the FSM state
unchanged or moves it to its successor in the cycle MONITORING, UNSTICKING,
HOLD_UNSTICK, RETURNING, COOLDOWN, MONITORING. Hence, when a manual trigger
or a jam tick in MONITORING is followed by ticks and reed-switch interrupts
only, up to the first return to MONITORING, the states visited, consecutive
repetitions removed, are exactly that sequence. -/
theorem update_follows_cycle :
    (∀ (c c2 : FeedArmController) (i : TickInput), c.update i = some c2 →
      c2.state = c.state ∨ c2.state = c.state.next) ∧
    (∀ (c0 c1 cN : FeedArmController) (evs : List Event) (pre : List FeedArmController),
      c0.state = MONITORING →
      ((∃ t, c1 = c0.triggerUnstick t) ∨
        (∃ i, c0.update i = some c1 ∧ c1.state = UNSTICKING)) →
      (∀ e ∈ evs, e.isCommand = false) →
      c1.run evs = some (pre ++ [cN]) →
      (∀ x ∈ pre, x.state ≠ MONITORING) →
      cN.state = MONITORING →
      List.destutter (· ≠ ·) (c0.state :: c1.state :: (pre ++ [cN]).map (fun x => x.state)) =
        [MONITORING, UNSTICKING, HOLD_UNSTICK, RETURNING, COOLDOWN, MONITORING]) := by
  refine ⟨fun c c2 i h => update_state h, ?_⟩
  intro c0 c1 cN evs pre h0 hstart hcmd hrun hpre hN
  have h1 : c1.state = UNSTICKING := by
    rcases hstart with ⟨t, rfl⟩ | ⟨i, -, h⟩
    · simp [triggerUnstick, h0, transitionTo]
    · exact h
  have := run_destutter evs c1 pre cN hcmd (by simp [h1]) hrun hpre hN
  rw [List.destutter_cons', List.destutter'_cons_pos _ (by simp [h0, h1]), this, h0, h1]
  rfl

/-- Claim C1 at the cycle of `bench`: the jam tick moves MONITORING to its
successor, and the states of the whole cycle are the sequence of the claim. -/
theorem update_follows_cycle_witness :
    (cycleStart.state = bench.state ∨ cycleStart.state = bench.state.next) ∧
    List.destutter (· ≠ ·)
        (bench.state :: cycleStart.state ::
          (cycleTrace.dropLast ++ [cycleTrace.getLastD bench]).map (fun x => x.state)) =
      [MONITORING, UNSTICKING, HOLD_UNSTICK, RETURNING, COOLDOWN, MONITORING] :=
  ⟨update_follows_cycle.1 bench cycleStart jamTick bench_update_jamTick,
   update_follows_cycle.2 bench cycleStart (cycleTrace.getLastD bench) cycleTail
     cycleTrace.dropLast rfl (Or.inr ⟨jamTick, bench_update_jamTick, cycleStart_state⟩)
     cycleTail_ticks cycleStart_run cycleTrace_dropLast cycleTrace_last⟩

/-- Claim C2, refuted: in the cycle of `bench` the call of `update()` that
detects the jam returns with the state UNSTICKING, and the call that ends
the hold returns with the state RETURNING. -/
theorem update_returns_in_UNSTICKING_and_in_RETURNING :
    (bench.run cycleEvents).map (List.map (fun c => c.state)) =
      some [UNSTICKING, HOLD_UNSTICK, HOLD_UNSTICK, RETURNING, COOLDOWN, COOLDOWN,
            MONITORING] := by
  decide!

/-- Claim C2, amended. A tick that begins in UNSTICKING always ends in
HOLD_UNSTICK and a tick that begins in RETURNING always ends in COOLDOWN;
a tick that ends in UNSTICKING began in MONITORING and a tick that ends in
RETURNING began in HOLD_UNSTICK. So each of the two states is entered by
one call of `update()` and left by the next. -/
theorem update_leaves_UNSTICKING_and_RETURNING (c c2 : FeedArmController) (i : TickInput)
    (h : c.update i = some c2) :
    (c.state = UNSTICKING → c2.state = HOLD_UNSTICK) ∧
    (c.state = RETURNING → c2.state = COOLDOWN) ∧
    (c2.state = UNSTICKING → c.state = MONITORING) ∧
    (c2.state = RETURNING → c.state = HOLD_UNSTICK) := by
  obtain ⟨p, hp, rfl, -⟩ := update_some h
  rw [← hp.state]
  generalize sub32 (millis i.now) c.stateEnteredAt = e
  cases hs : p.state
  · rw [switchState_MONITORING hs]; split_ifs <;> simp [transitionTo, hs]
  · rw [switchState_UNSTICKING hs]; split_ifs <;> simp
  · rw [switchState_HOLD_UNSTICK hs]; split_ifs <;> simp [transitionTo, hs]
  · rw [switchState_RETURNING hs]; simp
  · rw [switchState_COOLDOWN hs]; split_ifs <;> simp [hs]

/-- Claim C2, amended, at the jam tick of `bench`: the tick ends in
UNSTICKING, so it began in MONITORING. -/
theorem update_leaves_UNSTICKING_and_RETURNING_witness :
    bench.update jamTick = some cycleStart ∧ bench.state = MONITORING :=
  ⟨bench_update_jamTick,
   (update_leaves_UNSTICKING_and_RETURNING bench cycleStart jamTick
      bench_update_jamTick).2.2.1 cycleStart_state⟩

/-- Claim C3. A tick that begins in MONITORING ends in UNSTICKING exactly
when the feed-arm angle read in this tick is a number `a` with
`a <= feedArmJamAngle`, or with the stalled flag set and
`a < feedArmRestAngle - 15`; otherwise it ends in MONITORING. The angle is
the mapping of this tick's smoothed samples, computed in `float`, and the
stalled flag is the one in force after the refresh of this tick. The code
compares with the `float` difference `feedArmRestAngle - 15.0f`, which
decides as the exact difference does whenever `feedArmRestAngle` is a
`float` value. -/
theorem update_MONITORING_jam (c c2 : FeedArmController) (i : TickInput)
    (hM : c.state = MONITORING) (h : c.update i = some c2) :
    (∃ raw, c.readPotSmoothed i.feedSamples = some raw ∧
      c2.feedArmAngle = mapAngle raw c.cfg.potFeedMin c.cfg.potFeedMax) ∧
    c2.filamentStalled = (c.sampleReed i).filamentStalled ∧
    (c2.state = UNSTICKING ↔
      ∃ a, c2.feedArmAngle = some a ∧
        (a ≤ c.cfg.feedArmJamAngle ∨
          (c2.filamentStalled = true ∧ a < f32 (c.cfg.feedArmRestAngle - 15)))) ∧
    (f32 c.cfg.feedArmRestAngle = c.cfg.feedArmRestAngle →
      (c2.state = UNSTICKING ↔
        ∃ a, c2.feedArmAngle = some a ∧
          (a ≤ c.cfg.feedArmJamAngle ∨
            (c2.filamentStalled = true ∧ a < c.cfg.feedArmRestAngle - 15)))) ∧
    (c2.state ≠ UNSTICKING → c2.state = MONITORING) := by
  obtain ⟨p, hp, rfl, hst, -, raw, hraw, hang⟩ := update_some h
  have hs : p.state = MONITORING := hp.state.trans hM
  rw [switchState_MONITORING hs]
  have hjam : p.isJamDetected = true ↔
      ∃ a, p.feedArmAngle = some a ∧
        (a ≤ c.cfg.feedArmJamAngle ∨
          (p.filamentStalled = true ∧ a < f32 (c.cfg.feedArmRestAngle - 15))) := by
    unfold isJamDetected
    rw [hp.cfg]
    cases ha : p.feedArmAngle with
    | none => simp [angleLe, angleLt]
    | some a =>
      simp only [angleLe, angleLt, Option.some.injEq, exists_eq_left']
      by_cases h1 : a ≤ c.cfg.feedArmJamAngle
      · simp [h1]
      · simp [h1]
  have hexact : f32 c.cfg.feedArmRestAngle = c.cfg.feedArmRestAngle →
      ((∃ a, p.feedArmAngle = some a ∧
        (a ≤ c.cfg.feedArmJamAngle ∨
          (p.filamentStalled = true ∧ a < f32 (c.cfg.feedArmRestAngle - 15)))) ↔
      ∃ a, p.feedArmAngle = some a ∧
        (a ≤ c.cfg.feedArmJamAngle ∨
          (p.filamentStalled = true ∧ a < c.cfg.feedArmRestAngle - 15))) := by
    intro hr
    constructor
    · rintro ⟨a, ha, hor⟩
      obtain ⟨h0, h160⟩ := mapAngle_mem (hang.symm.trans ha)
      refine ⟨a, ha, hor.imp_right (fun hh => ⟨hh.1, ?_⟩)⟩
      exact (lt_f32_sub_iff _ a hr h0 h160).mp hh.2
    · rintro ⟨a, ha, hor⟩
      obtain ⟨h0, h160⟩ := mapAngle_mem (hang.symm.trans ha)
      refine ⟨a, ha, hor.imp_right (fun hh => ⟨hh.1, ?_⟩)⟩
      exact (lt_f32_sub_iff _ a hr h0 h160).mpr hh.2
  by_cases hj : p.isJamDetected = true
  · rw [if_pos hj]
    have h1 := hjam.mp hj
    refine ⟨⟨raw, hraw, hang⟩, hst, ?_, ?_, ?_⟩
    · simpa [transitionTo] using h1
    · intro hr
      simpa [transitionTo] using (hexact hr).mp h1
    · simp [transitionTo]
  · rw [if_neg hj]
    refine ⟨⟨raw, hraw, hang⟩, hst, ?_, ?_, ?_⟩
    · rw [← hjam]; simp [hs, hj]
    · intro hr
      rw [← hexact hr, ← hjam]; simp [hs, hj]
    · intro _; exact hs

/-- Claim C3 on the examples of the claim, with jam angle 45 and rest angle
90: an angle of 40 with no stall is a jam; an angle of 70 with a stall is a
jam although 70 > 45 (derived from the theorem); an angle of 70 with no
stall is no jam. And with the jam angle `35.6f`, the `float` next to 35.6,
the raw value 1001 gives exactly that `float` as angle: a jam, although the
exact interpolation 35.6 is above the threshold. -/
theorem update_MONITORING_jam_witness :
    (bench.update jamTick).map (fun c => (c.feedArmAngle, c.filamentStalled, c.state))
      = some (some 40, false, UNSTICKING) ∧
    (benchStalled.update stallTick).map (fun c => (c.feedArmAngle, c.filamentStalled, c.state))
      = some (some 70, true, UNSTICKING) ∧
    (bench.update stallTick).map (fun c => (c.feedArmAngle, c.filamentStalled, c.state))
      = some (some 70, false, MONITORING) ∧
    benchJamFloat.cfg.feedArmJamAngle = 4666163 / 131072 ∧
    (benchJamFloat.update (tickAt 1050 1001)).map (fun c => (c.feedArmAngle, c.state))
      = some (some (4666163 / 131072), UNSTICKING) := by
  refine ⟨by decide!, ?_, by decide!, by decide!, by decide!⟩
  obtain ⟨-, -, -, hiff, -⟩ :=
    update_MONITORING_jam benchStalled stallStart stallTick rfl benchStalled_update_stallTick
  have hang : stallStart.feedArmAngle = some 70 := by decide!
  have hst : stallStart.filamentStalled = true := by decide!
  have hstate : stallStart.state = UNSTICKING :=
    (hiff (by decide!)).mpr ⟨70, hang, Or.inr ⟨hst, by decide!⟩⟩
  rw [benchStalled_update_stallTick, Option.map_some', hang, hst, hstate]

/-- Claim C4, refuted: the cycle of `benchHalf`, which starts in MONITORING
with the feed servo detached, the commanded tension angle 80.5 and the
unstick count 4294967295, ends in MONITORING with the unstick count 0, not
4294967296, and the value written to the tension servo at the end is 80, not
80.5. -/
theorem cycle_wraps_count_and_truncates_angle :
    benchHalf.state = MONITORING ∧ benchHalf.feedServoAttached = false ∧
    benchHalf.tensionAngle = 161 / 2 ∧ benchHalf.unstickCount = 4294967295 ∧
    (benchHalf.run cycleEvents).map
        (fun cs => (cs.map (fun c => (c.state, c.unstickCount)),
          (cs.getLastD benchHalf).tensionAngle,
          (cs.getLastD benchHalf).servoLog.drop benchHalf.servoLog.length)) =
      some ([(UNSTICKING, 4294967295), (HOLD_UNSTICK, 4294967295),
             (HOLD_UNSTICK, 4294967295), (RETURNING, 4294967295), (COOLDOWN, 0),
             (COOLDOWN, 0), (MONITORING, 0)],
            161 / 2,
            [(ServoId.tension, ServoCall.write 30), (ServoId.feed, ServoCall.attach 13 500 2500),
             (ServoId.feed, ServoCall.write 140), (ServoId.feed, ServoCall.write 90),
             (ServoId.feed, ServoCall.detach), (ServoId.tension, ServoCall.write 80)]) := by
  decide!

/-- Claim C4, amended. Let a tick in MONITORING, with the feed servo
detached, the commanded tension angle `T` and the unstick count `n`, detect
a jam, and let ticks and reed-switch interrupts follow, with no external
command, up to the first return to MONITORING. Then the servo calls of the
cycle are, in order: tension write `(int)tensionAngleMin`, feed attach,
feed write `(int)feedArmUnstickAngle`, feed write `(int)feedArmRestAngle`,
feed detach, tension write `(int)T`, where `(int)` truncates the angle to an
integer. At the end the feed servo is detached, the commanded tension angle
is `T`, the pulse counter is in the state that `reset()` leaves, and the
unstick count is `n + 1` modulo `2^32`. -/
theorem unstick_cycle_postcondition (c0 c1 cN : FeedArmController) (i : TickInput)
    (evs : List Event) (pre : List FeedArmController)
    (h0 : c0.state = MONITORING) (hdet : c0.feedServoAttached = false)
    (hjam : c0.update i = some c1) (h1 : c1.state = UNSTICKING)
    (hcmd : ∀ e ∈ evs, e.isCommand = false)
    (hrun : c1.run evs = some (pre ++ [cN]))
    (hpre : ∀ x ∈ pre, x.state ≠ MONITORING)
    (hN : cN.state = MONITORING) :
    cN.servoLog = c0.servoLog ++
      [(ServoId.tension, ServoCall.write (toInt c0.cfg.tensionAngleMin)),
       (ServoId.feed, ServoCall.attach c0.feedServoPin 500 2500),
       (ServoId.feed, ServoCall.write (toInt c0.cfg.feedArmUnstickAngle)),
       (ServoId.feed, ServoCall.write (toInt c0.cfg.feedArmRestAngle)),
       (ServoId.feed, ServoCall.detach),
       (ServoId.tension, ServoCall.write (toInt c0.tensionAngle))] ∧
    cN.feedServoAttached = false ∧
    cN.tensionAngle = c0.tensionAngle ∧
    cN.unstickCount = (c0.unstickCount + 1) % 4294967296 ∧
    cN.reed.isSome = c0.reed.isSome ∧
    (∀ r, cN.reed = some r →
      r.pulseCount = 0 ∧ r.lastPulseTimeMs = 0 ∧ r.lastSampleCount = 0 ∧
        r.pulsesPerSec = 0) := by
  have hinv1 : CycleInv c0 c1 := by
    obtain ⟨p, hp, rfl, -, hreed, -⟩ := update_some hjam
    rw [switchState_MONITORING (hp.state.trans h0)] at h1 ⊢
    have hsome : p.reed.isSome = c0.reed.isSome := by
      rw [hreed, sampleReed_reed_isSome]
    split_ifs at h1 ⊢ with hj
    · refine ⟨hp.cfg, hp.feedServoPin, hsome, hp.tensionAngle, ?_⟩
      simp only [transitionTo]
      exact ⟨hp.feedServoAttached.trans hdet, hp.servoLog, hp.unstickCount⟩
    · rw [hp.state.trans h0] at h1
      simp at h1
  have hinvN := cycleInv_run evs c0 c1 pre cN hcmd hinv1 (by simp [h1]) hrun hpre
  obtain ⟨-, -, hsome, hT, hcase⟩ := hinvN
  rw [hN] at hcase
  obtain ⟨ha, hlog, hn, hreed⟩ := hcase
  refine ⟨?_, ha, hT, ?_, hsome, hreed⟩
  · simpa [relaxCalls] using hlog
  · simpa [inc32, U32] using hn

/-- Claim C4, amended, at the cycle of `bench`: commanded tension angle 80,
unstick count 0 before and 1 after. -/
theorem unstick_cycle_postcondition_witness :
    (cycleTrace.getLastD bench).servoLog = bench.servoLog ++
      [(ServoId.tension, ServoCall.write (toInt bench.cfg.tensionAngleMin)),
       (ServoId.feed, ServoCall.attach bench.feedServoPin 500 2500),
       (ServoId.feed, ServoCall.write (toInt bench.cfg.feedArmUnstickAngle)),
       (ServoId.feed, ServoCall.write (toInt bench.cfg.feedArmRestAngle)),
       (ServoId.feed, ServoCall.detach),
       (ServoId.tension, ServoCall.write (toInt bench.tensionAngle))] ∧
    (cycleTrace.getLastD bench).feedServoAttached = false ∧
    (cycleTrace.getLastD bench).tensionAngle = bench.tensionAngle ∧
    (cycleTrace.getLastD bench).unstickCount = (bench.unstickCount + 1) % 4294967296 ∧
    (cycleTrace.getLastD bench).reed.isSome = bench.reed.isSome ∧
    (∀ r, (cycleTrace.getLastD bench).reed = some r →
      r.pulseCount = 0 ∧ r.lastPulseTimeMs = 0 ∧ r.lastSampleCount = 0 ∧
        r.pulsesPerSec = 0) :=
  unstick_cycle_postcondition bench cycleStart (cycleTrace.getLastD bench) jamTick cycleTail
    cycleTrace.dropLast rfl rfl bench_update_jamTick cycleStart_state cycleTail_ticks
    cycleStart_run cycleTrace_dropLast cycleTrace_last

/-- Claim C5, refuted: a tick that begins in RETURNING with the unstick
count 4294967295 ends with the unstick count 0, not 4294967296. -/
theorem unstickCount_wraps :
    (({ benchMax with state := RETURNING, feedServoAttached := true } :
        FeedArmController).update (tickAt 1650 2225)).map (fun c => c.unstickCount) =
      some 0 := by
  decide!

/-- Claim C5, amended. A tick that begins in RETURNING adds 1 to the unstick
count modulo `2^32` (4294967295 wraps to 0); a tick that begins in any other
state leaves the count unchanged; `triggerUnstick()`, `setTensionAngle()` and
`updateConfig()` never change it. So over any run of events the count is the
initial count plus the number of ticks that began in RETURNING, modulo
`2^32`. -/
theorem unstickCount_changes_only_in_RETURNING :
    (∀ (c c2 : FeedArmController) (i : TickInput), c.update i = some c2 →
      (c.state = RETURNING → c2.unstickCount = (c.unstickCount + 1) % 4294967296) ∧
      (c.state ≠ RETURNING → c2.unstickCount = c.unstickCount)) ∧
    (∀ (c : FeedArmController) (t : Nat), (c.triggerUnstick t).unstickCount = c.unstickCount) ∧
    (∀ (c : FeedArmController) (a : ℚ), (c.setTensionAngle a).unstickCount = c.unstickCount) ∧
    (∀ (c : FeedArmController) (cfg : Config),
      (c.updateConfig cfg).unstickCount = c.unstickCount) ∧
    (∀ (c : FeedArmController) (evs : List Event) (cs : List FeedArmController),
      c.unstickCount < 4294967296 → c.run evs = some cs →
      (cs.getLastD c).unstickCount =
        (c.unstickCount + c.returningTicks evs) % 4294967296) := by
  refine ⟨fun c c2 i h => update_unstickCount h, ?_, ?_, ?_, ?_⟩
  · intro c t
    simp only [triggerUnstick, transitionTo]
    split_ifs <;> rfl
  · intro c a; rfl
  · intro c cfg; rfl
  · intro c evs cs hlt hrun
    exact run_unstickCount evs c cs hlt hrun

/-- Claim C5, amended, at the cycle of `bench`: the count after the cycle is
0 plus the one tick that began in RETURNING; and the jam tick, which begins
in MONITORING, leaves the count unchanged. -/
theorem unstickCount_changes_only_in_RETURNING_witness :
    (cycleTrace.getLastD cycleStart).unstickCount =
      (cycleStart.unstickCount + cycleStart.returningTicks cycleTail) % 4294967296 ∧
    cycleStart.unstickCount = bench.unstickCount :=
  ⟨unstickCount_changes_only_in_RETURNING.2.2.2.2 cycleStart cycleTail cycleTrace
     (by decide!) (by decide!),
   (unstickCount_changes_only_in_RETURNING.1 bench cycleStart jamTick
     bench_update_jamTick).2 (by decide!)⟩

/-- Claim C6. `triggerUnstick()` called in MONITORING or COOLDOWN sets the
state to UNSTICKING and the state-entry timestamp to the clock, and changes
nothing else; called in UNSTICKING, HOLD_UNSTICK or RETURNING it leaves the
whole controller unchanged. -/
theorem triggerUnstick_accepted_only_when_idle (c : FeedArmController) (t : Nat) :
    ((c.state = MONITORING ∨ c.state = COOLDOWN) →
      c.triggerUnstick t = { c with state := UNSTICKING, stateEnteredAt := millis t }) ∧
    ((c.state = UNSTICKING ∨ c.state = HOLD_UNSTICK ∨ c.state = RETURNING) →
      c.triggerUnstick t = c) := by
  constructor
  · intro h
    simp [triggerUnstick, transitionTo, h]
  · intro h
    rcases h with h | h | h <;> simp [triggerUnstick, h]

/-- Claim C6 on two controllers: a trigger at clock 1200 in MONITORING is
accepted, a trigger in HOLD_UNSTICK is ignored. -/
theorem triggerUnstick_accepted_only_when_idle_witness :
    bench.triggerUnstick 1200 = { bench with state := UNSTICKING, stateEnteredAt := 1200 } ∧
    ({ bench with state := HOLD_UNSTICK } : FeedArmController).triggerUnstick 1200 =
      { bench with state := HOLD_UNSTICK } :=
  ⟨(triggerUnstick_accepted_only_when_idle bench 1200).1 (Or.inl rfl),
   (triggerUnstick_accepted_only_when_idle { bench with state := HOLD_UNSTICK } 1200).2
     (Or.inr (Or.inl rfl))⟩

/-- Claim C7, the code at the failing input. After `reset()`, `isStalled`
compares the clock itself with the timeout: it is `millis() > timeoutMs`.
So after a `reset()` at clock 10000, `isStalled(3000)` at the same clock is
true, whatever the pulse counter was before. -/
theorem isStalled_after_reset :
    (∀ (r : ReedSwitch) (t timeoutMs now : Nat),
      (r.reset t).isStalled timeoutMs now = decide (millis now > timeoutMs)) ∧
    (∀ r : ReedSwitch, (r.reset 10000).isStalled 3000 10000 = true) := by
  constructor
  · intro r t timeoutMs now
    simp [ReedSwitch.isStalled, ReedSwitch.reset]
  · intro r
    simp [ReedSwitch.isStalled, ReedSwitch.reset, millis, U32]

/-- Claim C8, refuted: `isStalled()` reads the 32-bit clock, so elapsed times
are seen modulo `2^32`. After `begin()` at clock 0 with no event, at clock
`2^32 + 5` more than 3000 ms have elapsed since system start, yet
`isStalled(3000)` is false, the 32-bit clock reading 5. And with one event
counted at clock 1000, at clock `2^32 + 1100` more than 3000 ms have elapsed
since that event, yet `isStalled(3000)` is false. -/
theorem isStalled_false_after_clock_wrap :
    (ReedSwitch.init.begin 4 0).lastAccepted none [] = none ∧
    ((ReedSwitch.init.begin 4 0).calls []).isStalled 3000 4294967301 = false ∧
    (ReedSwitch.init.begin 4 0).lastAcceptedAt none [.interrupt 1000] = some 1000 ∧
    ((ReedSwitch.init.begin 4 0).calls [.interrupt 1000]).isStalled 3000 4294968396 =
      false := by
  decide

/-- Claim C8, amended. After `begin()` and any sequence of interrupts and
`sample()` calls, `isStalled(timeoutMs)` is true exactly when either no event
has been counted and the 32-bit clock reads more than `timeoutMs`, or an
event has been counted and the 32-bit difference between the clock and the
time of the last counted one is above `timeoutMs`. With no event counted it
is false at every clock reading up to `timeoutMs`. These 32-bit values are
the times elapsed since system start and since the last counted event as
long as those are below `2^32` ms: with no event counted and the clock below
`2^32`, it is true exactly when the clock is above `timeoutMs`; with the
last event counted at clock `tl` less than `2^32` ms ago, exactly when more
than `timeoutMs` have passed since `tl`. -/
theorem isStalled_iff (r0 : ReedSwitch) (pin t0 : Nat) (ks : List ReedCall)
    (timeoutMs now : Nat) :
    (((r0.begin pin t0).calls ks).isStalled timeoutMs now = true ↔
      ((r0.begin pin t0).lastAccepted none ks = none ∧ millis now > timeoutMs) ∨
      (∃ tl, (r0.begin pin t0).lastAccepted none ks = some tl ∧
        sub32 (millis now) tl > timeoutMs)) ∧
    ((r0.begin pin t0).lastAccepted none ks = none → millis now ≤ timeoutMs →
      ((r0.begin pin t0).calls ks).isStalled timeoutMs now = false) ∧
    ((r0.begin pin t0).lastAcceptedAt none ks = none → now < 4294967296 →
      (((r0.begin pin t0).calls ks).isStalled timeoutMs now = true ↔ now > timeoutMs)) ∧
    (∀ tl, (r0.begin pin t0).lastAcceptedAt none ks = some tl → tl ≤ now →
      now - tl < 4294967296 →
      (((r0.begin pin t0).calls ks).isStalled timeoutMs now = true ↔
        now - tl > timeoutMs)) := by
  have hinv := ReedSwitch.calls_lastPulseTimeMs ks (r0.begin pin t0) none rfl
  have hmap := ReedSwitch.lastAccepted_map ks (r0.begin pin t0) none
  rw [Option.map_none'] at hmap
  rw [ReedSwitch.isStalled_eq, hinv]
  refine ⟨?_, ?_, ?_, ?_⟩
  · cases hl : (r0.begin pin t0).lastAccepted none ks with
    | none => simp [sub32_zero]
    | some tl => simp
  · cases hl : (r0.begin pin t0).lastAccepted none ks with
    | none => simp [sub32_zero]
    | some tl => simp
  · intro hnone hlt
    rw [hmap, hnone]
    simp only [Option.map_none', Option.getD_none, sub32_zero, decide_eq_true_eq]
    simp only [millis, U32, Nat.mod_eq_of_lt hlt]
  · intro tl hsome h1 h2
    rw [hmap, hsome]
    simp only [Option.map_some', Option.getD_some, decide_eq_true_eq]
    have : sub32 (millis now) (millis tl) = now - tl := by
      simp only [sub32, millis, U32]
      omega
    rw [this]

/-- Claim C8, amended, at a pulse counter begun at clock 1000: with no
event, not stalled at clock 3000 for a timeout of 3000; with one event
counted at clock 2000, stalled at clock 5001. -/
theorem isStalled_iff_witness :
    ((ReedSwitch.init.begin 4 1000).calls []).isStalled 3000 3000 = false ∧
    ((ReedSwitch.init.begin 4 1000).calls [.interrupt 2000]).isStalled 3000 5001 = true :=
  ⟨(isStalled_iff ReedSwitch.init 4 1000 [] 3000 3000).2.1 rfl (by decide),
   (isStalled_iff ReedSwitch.init 4 1000 [.interrupt 2000] 3000 5001).1.mpr
     (Or.inr ⟨2000, by decide, by decide⟩)⟩

/-- Claim C9. Two interrupts at clocks `t1 <= t2` less than 50 ms apart raise
the pulse count by at most one, whatever the pulse counter was before. -/
theorem debounce (r : ReedSwitch) (t1 t2 : Nat) (h1 : t1 ≤ t2) (h2 : t2 - t1 < 50) :
    ((r.handleInterrupt t1).handleInterrupt t2).pulseCount ≤ r.pulseCount + 1 := by
  unfold ReedSwitch.handleInterrupt
  simp only [sub32, millis, inc32, U32]
  split_ifs with ha hb hb <;> (try dsimp only at *) <;> omega

/-- Claim C9 at a pulse counter begun at clock 1000 and interrupts at clocks
2000 and 2030. -/
theorem debounce_witness :
    (((ReedSwitch.init.begin 4 1000).handleInterrupt 2000).handleInterrupt 2030).pulseCount ≤
      (ReedSwitch.init.begin 4 1000).pulseCount + 1 :=
  debounce (ReedSwitch.init.begin 4 1000) 2000 2030 (by decide) (by decide)

/-- Claim C10, the code at the failing input. The first interrupt after
`begin()` is counted only when the clock is above 50: `handleInterrupt()`
measures from the timestamp 0 that `begin()` and `reset()` store. So the
first interrupt after `begin()` at clock 0 is rejected at clock 20, and so
is the first interrupt after a `reset()` when the 32-bit clock has wrapped
to 20. -/
theorem first_event_needs_clock_above_50 :
    (∀ (r : ReedSwitch) (pin t0 t : Nat),
      ((r.begin pin t0).handleInterrupt t).pulseCount = if millis t > 50 then 1 else 0) ∧
    (ReedSwitch.init.begin 4 0).handleInterrupt 20 = ReedSwitch.init.begin 4 0 ∧
    ((ReedSwitch.init.begin 4 1000).reset 4294967300).handleInterrupt 4294967316 =
      (ReedSwitch.init.begin 4 1000).reset 4294967300 := by
  refine ⟨?_, by decide, by decide⟩
  intro r pin t0 t
  simp only [ReedSwitch.handleInterrupt, ReedSwitch.begin, sub32_zero]
  split_ifs <;> simp [inc32, U32]

/-! ## Lemmas on sequences of calls on the pulse counter -/

theorem inc32_lt (a : Nat) : inc32 a < 4294967296 := by
  simp only [inc32, U32]; omega

namespace ReedSwitch

theorem calls_append (ks1 : List ReedCall) :
    ∀ (r : ReedSwitch) (ks2 : List ReedCall),
      r.calls (ks1 ++ ks2) = (r.calls ks1).calls ks2 := by
  induction ks1 with
  | nil => intro r ks2; rfl
  | cons k ks ih => intro r ks2; simp only [List.cons_append, calls]; exact ih _ _

theorem sampleSum_append (ks1 : List ReedCall) :
    ∀ (r : ReedSwitch) (ks2 : List ReedCall),
      r.sampleSum (ks1 ++ ks2) = r.sampleSum ks1 + (r.calls ks1).sampleSum ks2 := by
  induction ks1 with
  | nil => intro r ks2; simp [sampleSum, calls]
  | cons k ks ih =>
    intro r ks2
    cases k with
    | interrupt t =>
      simp only [List.cons_append, sampleSum, calls, call]
      exact ih _ _
    | sample t =>
      simp only [List.cons_append, sampleSum, calls, call]
      rw [Nat.add_assoc]
      exact congrArg _ (ih _ _)

theorem calls_lastSampleCount (ks : List ReedCall) :
    ∀ (r : ReedSwitch), (r.calls ks).lastSampleCount = r.countAtLastSample r.lastSampleCount ks := by
  induction ks with
  | nil => intro r; rfl
  | cons k ks ih =>
    intro r
    cases k with
    | interrupt t =>
      simp only [calls, call, countAtLastSample, ih]
      simp only [handleInterrupt]
      split_ifs <;> rfl
    | sample t =>
      simp only [calls, call, countAtLastSample, ih]
      rfl

theorem handleInterrupt_pulseCount (r : ReedSwitch) (t : Nat) :
    (r.handleInterrupt t).pulseCount =
      if r.accepts t then inc32 r.pulseCount else r.pulseCount := by
  unfold handleInterrupt accepts
  by_cases h : sub32 (millis t) r.lastPulseTimeMs > 50
  · rw [if_pos h, if_pos (by simpa using h)]
  · rw [if_neg h, if_neg (by simpa using h)]

theorem handleInterrupt_lastSampleCount (r : ReedSwitch) (t : Nat) :
    (r.handleInterrupt t).lastSampleCount = r.lastSampleCount := by
  simp only [handleInterrupt]
  split_ifs <;> rfl

/-- The sum of the returned values and the baseline, modulo `2^32`. -/
theorem sampleSum_mod (ks : List ReedCall) :
    ∀ (r : ReedSwitch),
      (r.sampleSum ks + r.lastSampleCount) % 4294967296 =
        (r.calls ks).lastSampleCount % 4294967296 := by
  induction ks with
  | nil => intro r; simp [sampleSum, calls]
  | cons k ks ih =>
    intro r
    cases k with
    | interrupt t =>
      simp only [sampleSum, calls, call]
      rw [← handleInterrupt_lastSampleCount r t]
      exact ih _
    | sample t =>
      simp only [sampleSum, calls, call]
      have h := ih (r.sample t).1
      have h1 : (r.sample t).1.lastSampleCount = r.pulseCount := rfl
      have h2 : (r.sample t).2 = sub32 r.pulseCount r.lastSampleCount := rfl
      rw [h1] at h
      rw [h2]
      simp only [sub32, U32] at h ⊢
      omega

theorem calls_pulseCount_lt (ks : List ReedCall) :
    ∀ (r : ReedSwitch), r.pulseCount < 4294967296 → (r.calls ks).pulseCount < 4294967296 := by
  induction ks with
  | nil => intro r h; exact h
  | cons k ks ih =>
    intro r h
    cases k with
    | interrupt t =>
      simp only [calls, call]
      apply ih
      rw [handleInterrupt_pulseCount]
      split_ifs
      · exact inc32_lt _
      · exact h
    | sample t =>
      simp only [calls, call]
      exact ih _ h

theorem calls_pulseCount (ks : List ReedCall) :
    ∀ (r : ReedSwitch), r.pulseCount < 4294967296 →
      (r.calls ks).pulseCount = (r.pulseCount + r.acceptedCount ks) % 4294967296 := by
  induction ks with
  | nil => intro r h; simp [calls, acceptedCount, Nat.mod_eq_of_lt h]
  | cons k ks ih =>
    intro r h
    cases k with
    | interrupt t =>
      simp only [calls, call, acceptedCount]
      have hlt : (r.handleInterrupt t).pulseCount < 4294967296 := by
        rw [handleInterrupt_pulseCount]
        split_ifs
        · exact inc32_lt _
        · exact h
      rw [ih _ hlt, handleInterrupt_pulseCount]
      split_ifs
      · simp only [inc32, U32]; omega
      · simp
    | sample t =>
      simp only [calls, call, acceptedCount]
      exact ih _ h

/-- Without wrap-around the returned values add up exactly. -/
theorem sampleSum_exact (ks : List ReedCall) :
    ∀ (r : ReedSwitch), r.lastSampleCount ≤ r.pulseCount →
      r.pulseCount + r.acceptedCount ks < 4294967296 →
      r.sampleSum ks + r.lastSampleCount = (r.calls ks).lastSampleCount ∧
      (r.calls ks).lastSampleCount ≤ (r.calls ks).pulseCount ∧
      (r.calls ks).pulseCount = r.pulseCount + r.acceptedCount ks := by
  induction ks with
  | nil => intro r h1 _; simp [sampleSum, calls, acceptedCount, h1]
  | cons k ks ih =>
    intro r h1 h2
    cases k with
    | interrupt t =>
      simp only [sampleSum, calls, call, acceptedCount] at h2 ⊢
      have hpc := handleInterrupt_pulseCount r t
      have hls := handleInterrupt_lastSampleCount r t
      by_cases ha : r.accepts t = true
      · rw [if_pos ha] at hpc h2
        have hpc2 : (r.handleInterrupt t).pulseCount = r.pulseCount + 1 := by
          rw [hpc]; simp only [inc32, U32]; omega
        obtain ⟨i1, i2, i3⟩ := ih (r.handleInterrupt t) (by omega) (by omega)
        refine ⟨by omega, i2, ?_⟩
        rw [if_pos ha]; omega
      · rw [if_neg ha] at hpc h2
        obtain ⟨i1, i2, i3⟩ := ih (r.handleInterrupt t) (by omega) (by omega)
        refine ⟨by omega, i2, ?_⟩
        rw [if_neg ha]; omega
    | sample t =>
      simp only [sampleSum, calls, call, acceptedCount] at h2 ⊢
      have e1 : (r.sample t).1.lastSampleCount = r.pulseCount := rfl
      have e2 : (r.sample t).1.pulseCount = r.pulseCount := rfl
      have e3 : (r.sample t).2 = r.pulseCount - r.lastSampleCount := by
        show sub32 r.pulseCount r.lastSampleCount = _
        simp only [sub32, U32]; omega
      obtain ⟨i1, i2, i3⟩ := ih (r.sample t).1 (by omega) (by omega)
      refine ⟨by omega, i2, by omega⟩

theorem calls_pulseTrain (n : Nat) :
    ∀ (r : ReedSwitch) (t : Nat), r.lastPulseTimeMs = millis t → r.pulseCount < 4294967296 →
      r.calls (pulseTrain t n) =
        { r with pulseCount := (r.pulseCount + n) % 4294967296,
                 lastPulseTimeMs := millis (t + 51 * n) } := by
  induction n with
  | zero =>
    intro r t h1 h2
    simp only [pulseTrain, calls, Nat.add_zero, Nat.mul_zero, Nat.mod_eq_of_lt h2, ← h1]
  | succ n ih =>
    intro r t h1 h2
    have hacc : sub32 (millis (t + 51)) r.lastPulseTimeMs > 50 := by
      rw [h1]; simp only [sub32, millis, U32]; omega
    have hstep : r.handleInterrupt (t + 51) =
        { r with pulseCount := inc32 r.pulseCount, lastPulseTimeMs := millis (t + 51) } := by
      unfold handleInterrupt
      rw [if_pos hacc]
    simp only [pulseTrain, calls, call]
    rw [hstep, ih _ (t + 51) rfl (inc32_lt _)]
    have e1 : (inc32 r.pulseCount + n) % 4294967296 = (r.pulseCount + (n + 1)) % 4294967296 := by
      simp only [inc32, U32]; omega
    have e2 : t + 51 + 51 * n = t + 51 * (n + 1) := by ring
    simp only [e1, e2]

theorem sampleSum_pulseTrain (n : Nat) :
    ∀ (r : ReedSwitch) (t : Nat), r.sampleSum (pulseTrain t n) = 0 := by
  induction n with
  | zero => intro r t; rfl
  | succ n ih => intro r t; simp only [pulseTrain, sampleSum, ih]

end ReedSwitch

namespace ReedSwitch

theorem acceptedCount_append (ks1 : List ReedCall) :
    ∀ (r : ReedSwitch) (ks2 : List ReedCall),
      r.acceptedCount (ks1 ++ ks2) = r.acceptedCount ks1 + (r.calls ks1).acceptedCount ks2 := by
  induction ks1 with
  | nil => intro r ks2; simp [acceptedCount, calls]
  | cons k ks ih =>
    intro r ks2
    cases k with
    | interrupt t =>
      simp only [List.cons_append, acceptedCount, calls, call]
      rw [Nat.add_assoc]
      exact congrArg _ (ih _ _)
    | sample t =>
      simp only [List.cons_append, acceptedCount, calls, call]
      exact ih _ _

theorem acceptedCount_pulseTrain (n : Nat) :
    ∀ (r : ReedSwitch) (t : Nat), r.lastPulseTimeMs = millis t →
      r.acceptedCount (pulseTrain t n) = n := by
  induction n with
  | zero => intro r t _; rfl
  | succ n ih =>
    intro r t h1
    have hacc : sub32 (millis (t + 51)) r.lastPulseTimeMs > 50 := by
      rw [h1]; simp only [sub32, millis, U32]; omega
    have hstep : (r.handleInterrupt (t + 51)).lastPulseTimeMs = millis (t + 51) := by
      unfold handleInterrupt
      rw [if_pos hacc]
    have ha : r.accepts (t + 51) = true := by
      unfold accepts; simpa using hacc
    simp only [pulseTrain, acceptedCount, ha, if_true]
    rw [ih _ (t + 51) hstep]
    omega

end ReedSwitch

namespace ReedSwitch

theorem calls_interrupts_lastSampleCount (js : List ReedCall) :
    ∀ (r : ReedSwitch), (∀ k ∈ js, k.isInterrupt = true) →
      (r.calls js).lastSampleCount = r.lastSampleCount := by
  induction js with
  | nil => intro r _; rfl
  | cons k ks ih =>
    intro r h
    cases k with
    | interrupt t =>
      simp only [calls, call]
      rw [ih _ (fun k hk => h k (List.mem_cons_of_mem _ hk)), handleInterrupt_lastSampleCount]
    | sample t =>
      have := h (.sample t) (List.mem_cons_self _ _)
      simp [ReedCall.isInterrupt] at this

theorem calls_lastSampleCount_lt (ks : List ReedCall) :
    ∀ (r : ReedSwitch), r.pulseCount < 4294967296 → r.lastSampleCount < 4294967296 →
      (r.calls ks).lastSampleCount < 4294967296 := by
  induction ks with
  | nil => intro r _ h; exact h
  | cons k ks ih =>
    intro r h1 h2
    cases k with
    | interrupt t =>
      simp only [calls, call]
      refine ih _ ?_ ?_
      · rw [handleInterrupt_pulseCount]
        split_ifs
        · exact inc32_lt _
        · exact h1
      · rw [handleInterrupt_lastSampleCount]; exact h2
    | sample t =>
      simp only [calls, call]
      exact ih _ h1 h1

/-- The value returned by a `sample()` that follows interrupts only, on a
pulse counter whose baseline equals its count. -/
theorem sample_after_interrupts (r : ReedSwitch) (js : List ReedCall) (t : Nat)
    (hjs : ∀ k ∈ js, k.isInterrupt = true) (hpc : r.pulseCount < 4294967296)
    (hbase : r.lastSampleCount = r.pulseCount) :
    ((r.calls js).sample t).2 = r.acceptedCount js % 4294967296 ∧
    ((r.calls js).sample t).2 = sub32 (r.calls js).pulseCount r.pulseCount := by
  have h1 := calls_pulseCount js r hpc
  have h2 := calls_interrupts_lastSampleCount js r hjs
  have h3 : ((r.calls js).sample t).2 =
      sub32 (r.calls js).pulseCount (r.calls js).lastSampleCount := rfl
  rw [h3, h2, hbase, h1]
  constructor
  · simp only [sub32, U32]; omega
  · rfl

end ReedSwitch

namespace ReedSwitch

/-- What two trains of `n` counted interrupts and their two `sample()` calls
do to a pulse counter begun at clock 0. -/
theorem twoTrains_effect (r0 : ReedSwitch) (pin n : Nat) (hn : n < 4294967296) :
    (r0.begin pin 0).sampleSum (twoTrains n) = n + sub32 ((n + n) % 4294967296) n ∧
    ((r0.begin pin 0).calls (twoTrains n)).lastSampleCount = (n + n) % 4294967296 ∧
    (r0.begin pin 0).acceptedCount (twoTrains n) = n + n := by
  have hA := calls_pulseTrain n (r0.begin pin 0) 0 rfl (by show (0 : Nat) < _; norm_num)
  have hpcA : ((r0.begin pin 0).calls (pulseTrain 0 n)).pulseCount = n := by
    rw [hA]; show (0 + n) % 4294967296 = n; omega
  have hlastA : ((r0.begin pin 0).calls (pulseTrain 0 n)).lastPulseTimeMs = millis (51 * n) := by
    rw [hA]; show millis (0 + 51 * n) = _; rw [Nat.zero_add]
  have hbaseA : ((r0.begin pin 0).calls (pulseTrain 0 n)).lastSampleCount = 0 := by
    rw [hA]; rfl
  have hS1 : ∀ r : ReedSwitch, ∀ t, ((r.sample t).1.pulseCount = r.pulseCount ∧
      (r.sample t).1.lastPulseTimeMs = r.lastPulseTimeMs ∧
      (r.sample t).1.lastSampleCount = r.pulseCount ∧
      (r.sample t).2 = sub32 r.pulseCount r.lastSampleCount) := fun r t => ⟨rfl, rfl, rfl, rfl⟩
  obtain ⟨s1, s2, s3, s4⟩ := hS1 ((r0.begin pin 0).calls (pulseTrain 0 n)) (51 * n)
  have hB := calls_pulseTrain n (((r0.begin pin 0).calls (pulseTrain 0 n)).sample (51 * n)).1
    (51 * n) (s2.trans hlastA) (by rw [s1, hpcA]; exact hn)
  have hpcB : ((((r0.begin pin 0).calls (pulseTrain 0 n)).sample (51 * n)).1.calls
      (pulseTrain (51 * n) n)).pulseCount = (n + n) % 4294967296 := by
    rw [hB]; show (_ + n) % 4294967296 = _; rw [s1, hpcA]
  have hbaseB : ((((r0.begin pin 0).calls (pulseTrain 0 n)).sample (51 * n)).1.calls
      (pulseTrain (51 * n) n)).lastSampleCount = n := by
    rw [hB]; show (((r0.begin pin 0).calls (pulseTrain 0 n)).sample (51 * n)).1.lastSampleCount = n
    rw [s3, hpcA]
  obtain ⟨u1, u2, u3, u4⟩ := hS1 ((((r0.begin pin 0).calls (pulseTrain 0 n)).sample (51 * n)).1.calls
      (pulseTrain (51 * n) n)) (102 * n)
  refine ⟨?_, ?_, ?_⟩
  · simp only [twoTrains, sampleSum_append, calls_append, sampleSum_pulseTrain, sampleSum,
      calls, call, s4, u4, hpcA, hbaseA, hpcB, hbaseB]
    simp only [sub32, U32]
    omega
  · simp only [twoTrains, calls_append, calls, call, u3, hpcB]
  · simp only [twoTrains, acceptedCount_append, calls_append, acceptedCount, calls, call]
    rw [acceptedCount_pulseTrain n _ 0 rfl, acceptedCount_pulseTrain n _ (51 * n) (s2.trans hlastA)]
    omega
end ReedSwitch

/-! ## The claims on the pulse counter and the angle sensor -/

open ReedSwitch

/-- Claim C11, refuted: from `begin()` at clock 0, two trains of `2^31`
counted interrupts, each followed by a `sample()`: the two calls return
`2^31` each, so the returned values add up to `2^32`, while the pulse count
read by the last `sample()` has wrapped to 0. -/
theorem sample_sum_exceeds_wrapped_count :
    (ReedSwitch.init.begin 4 0).sampleSum wrapCalls = 4294967296 ∧
    (ReedSwitch.init.begin 4 0).countAtLastSample 0 wrapCalls = 0 ∧
    (ReedSwitch.init.begin 4 0).acceptedCount wrapCalls = 4294967296 := by
  obtain ⟨h1, h2, h3⟩ := twoTrains_effect ReedSwitch.init 4 2147483648 (by norm_num)
  have hcount : (ReedSwitch.init.begin 4 0).countAtLastSample 0 wrapCalls =
      ((ReedSwitch.init.begin 4 0).calls wrapCalls).lastSampleCount :=
    (calls_lastSampleCount wrapCalls (ReedSwitch.init.begin 4 0)).symm
  rw [hcount]
  unfold wrapCalls
  rw [h1, h2, h3]
  simp only [sub32, U32]
  norm_num

/-- Claim C11, amended. From `begin()`, over any sequence of interrupts and
`sample()` calls, the values returned by the `sample()` calls add up, modulo
`2^32`, to the pulse count read by the last `sample()`; the two are equal
when fewer than `2^32` events have been counted. A `sample()` that follows
`begin()` or another `sample()` with only interrupts in between returns the
number of events counted in between modulo `2^32`, so 0 when none was
counted. -/
theorem sample_returns_count_mod (r0 : ReedSwitch) (pin t0 : Nat) (ks : List ReedCall) :
    (r0.begin pin t0).sampleSum ks % 4294967296 =
      (r0.begin pin t0).countAtLastSample 0 ks ∧
    ((r0.begin pin t0).acceptedCount ks < 4294967296 →
      (r0.begin pin t0).sampleSum ks = (r0.begin pin t0).countAtLastSample 0 ks) ∧
    (∀ (js : List ReedCall) (t : Nat), (∀ k ∈ js, k.isInterrupt = true) →
      (((r0.begin pin t0).calls js).sample t).2 =
        (r0.begin pin t0).acceptedCount js % 4294967296) ∧
    (∀ (js : List ReedCall) (t t2 : Nat), (∀ k ∈ js, k.isInterrupt = true) →
      (((((r0.begin pin t0).calls ks).sample t).1.calls js).sample t2).2 =
        (((r0.begin pin t0).calls ks).sample t).1.acceptedCount js % 4294967296 ∧
      ((((r0.begin pin t0).calls ks).sample t).1.acceptedCount js = 0 →
        (((((r0.begin pin t0).calls ks).sample t).1.calls js).sample t2).2 = 0)) := by
  have hlast : (r0.begin pin t0).countAtLastSample 0 ks =
      ((r0.begin pin t0).calls ks).lastSampleCount :=
    (calls_lastSampleCount ks (r0.begin pin t0)).symm
  have hpc0 : (r0.begin pin t0).pulseCount < 4294967296 := by
    show (0 : Nat) < 4294967296
    norm_num
  refine ⟨?_, ?_, ?_, ?_⟩
  · have h := sampleSum_mod ks (r0.begin pin t0)
    have hz : (r0.begin pin t0).lastSampleCount = 0 := rfl
    rw [hz, Nat.add_zero] at h
    rw [hlast, h]
    exact Nat.mod_eq_of_lt (calls_lastSampleCount_lt ks _ hpc0 hpc0)
  · intro hlt
    have h := sampleSum_exact ks (r0.begin pin t0) (Nat.le_refl 0) (by
      show 0 + _ < _
      omega)
    have hz : (r0.begin pin t0).lastSampleCount = 0 := rfl
    rw [hz, Nat.add_zero] at h
    rw [hlast]
    exact h.1
  · intro js t hjs
    exact (sample_after_interrupts (r0.begin pin t0) js t hjs hpc0 rfl).1
  · intro js t t2 hjs
    have hpc : (((r0.begin pin t0).calls ks).sample t).1.pulseCount < 4294967296 :=
      calls_pulseCount_lt ks _ hpc0
    have h := (sample_after_interrupts (((r0.begin pin t0).calls ks).sample t).1 js t2 hjs
      hpc rfl).1
    refine ⟨h, fun h0 => ?_⟩
    rw [h, h0]

/-- Claim C11, amended, on the history `shortCalls` after `begin()` at clock
1000: two events are counted, the two `sample()` calls return 1 and 1, and
the pulse count read by the last one is 2. -/
theorem sample_returns_count_mod_witness :
    (ReedSwitch.init.begin 4 1000).sampleSum shortCalls =
      (ReedSwitch.init.begin 4 1000).countAtLastSample 0 shortCalls ∧
    (ReedSwitch.init.begin 4 1000).sampleSum shortCalls = 2 :=
  ⟨(sample_returns_count_mod ReedSwitch.init 4 1000 shortCalls).2.1 (by decide!), by decide!⟩

/-- Claim C12. For every prior state, after `reset()` the pulse count, the
rate, the last-pulse timestamp and the sampling baseline are 0, and 0 is the
value that `timeSinceLastPulseMs()` reads as never pulsed. The next
`sample()`, after any interrupts, returns the pulse count, which the events
counted after the reset have raised from 0 (their number modulo `2^32`). -/
theorem reset_clears_counter (r : ReedSwitch) (t0 : Nat) :
    (r.reset t0).pulseCount = 0 ∧ (r.reset t0).pulsesPerSec = 0 ∧
    (r.reset t0).lastPulseTimeMs = 0 ∧ (r.reset t0).lastSampleCount = 0 ∧
    (r.reset t0).lastSampleTimeMs = millis t0 ∧
    (∀ t, (r.reset t0).timeSinceLastPulseMs t = millis t) ∧
    (∀ (js : List ReedCall) (t : Nat), (∀ k ∈ js, k.isInterrupt = true) →
      (((r.reset t0).calls js).sample t).2 = ((r.reset t0).calls js).pulseCount ∧
      (((r.reset t0).calls js).sample t).2 = (r.reset t0).acceptedCount js % 4294967296) := by
  refine ⟨rfl, rfl, rfl, rfl, rfl, fun t => rfl, ?_⟩
  intro js t hjs
  have hpc : (r.reset t0).pulseCount < 4294967296 := by
    show (0 : Nat) < 4294967296
    norm_num
  obtain ⟨h1, h2⟩ := sample_after_interrupts (r.reset t0) js t hjs hpc rfl
  refine ⟨?_, h1⟩
  rw [h2]
  have hlt := calls_pulseCount_lt js (r.reset t0) hpc
  have hz : (r.reset t0).pulseCount = 0 := rfl
  rw [hz]
  simp only [sub32, U32]
  omega

/-- Claim C12 on a pulse counter that has counted two events before a
`reset()` at clock 5000: after the reset and one more counted event the next
`sample()` returns 1. -/
theorem reset_clears_counter_witness :
    (((((ReedSwitch.init.begin 4 1000).calls shortCalls).reset 5000).calls
        [.interrupt 5100, .interrupt 5120]).sample 6000).2 = 1 ∧
    ((ReedSwitch.init.begin 4 1000).calls shortCalls).pulseCount = 2 :=
  ⟨((reset_clears_counter ((ReedSwitch.init.begin 4 1000).calls shortCalls) 5000).2.2.2.2.2.2
      [.interrupt 5100, .interrupt 5120] 6000 (by decide)).2.trans (by decide!),
   by decide!⟩

/-! ## Lemmas on the angle sensor -/

theorem constrain_eq_max_min (x lo hi : ℚ) (h : lo ≤ hi) :
    constrain x lo hi = max lo (min x hi) := by
  unfold constrain
  split_ifs with h1 h2
  · rw [min_eq_left (le_trans (le_of_lt h1) h), max_eq_left (le_of_lt h1)]
  · rw [min_eq_right (le_of_lt h2), max_eq_right h]
  · rw [min_eq_left (not_lt.mp h2), max_eq_right (not_lt.mp h1)]

theorem constrain_mono {x y : ℚ} (lo hi : ℚ) (h : lo ≤ hi) (hxy : x ≤ y) :
    constrain x lo hi ≤ constrain y lo hi := by
  rw [constrain_eq_max_min x lo hi h, constrain_eq_max_min y lo hi h]
  exact max_le_max (le_refl lo) (min_le_min hxy (le_refl hi))

theorem constrain_mem (x lo hi : ℚ) (h : lo ≤ hi) :
    lo ≤ constrain x lo hi ∧ constrain x lo hi ≤ hi := by
  rw [constrain_eq_max_min x lo hi h]
  exact ⟨le_max_left _ _, max_le h (min_le_right _ _)⟩

namespace FeedArmController

/-- With `adcMin < adcMax` the mapping is the clamped linear interpolation,
each operation rounded to `float`. -/
theorem mapAngle_of_lt (raw adcMin adcMax : Nat) (h : adcMin < adcMax) :
    mapAngle raw adcMin adcMax =
      some (constrain (f32 (f32 (f32 ((raw : ℚ) - (adcMin : ℚ)) /
        f32 ((adcMax : ℚ) - (adcMin : ℚ))) * 160)) 0 160) := by
  unfold mapAngle
  have hden : ((adcMax : Int) - (adcMin : Int)) ≠ 0 := by omega
  simp only [hden, if_false]
  push_cast
  rfl

/-- The rounded interpolation is 0 up to the lower calibration bound. -/
theorem floatAngle_low (raw adcMin adcMax : Nat) (h : adcMin < adcMax) (hr : raw ≤ adcMin) :
    constrain (f32 (f32 (f32 ((raw : ℚ) - (adcMin : ℚ)) /
      f32 ((adcMax : ℚ) - (adcMin : ℚ))) * 160)) 0 160 = 0 := by
  have hd : (0 : ℚ) < f32 ((adcMax : ℚ) - (adcMin : ℚ)) := by
    apply f32_pos
    have : (adcMin : ℚ) < (adcMax : ℚ) := by exact_mod_cast h
    linarith
  have h1 : f32 ((raw : ℚ) - (adcMin : ℚ)) ≤ 0 := by
    apply f32_nonpos
    have : (raw : ℚ) ≤ (adcMin : ℚ) := by exact_mod_cast hr
    linarith
  have h2 : f32 (f32 ((raw : ℚ) - (adcMin : ℚ)) / f32 ((adcMax : ℚ) - (adcMin : ℚ))) ≤ 0 :=
    f32_nonpos (div_nonpos_of_nonpos_of_nonneg h1 hd.le)
  have h3 : f32 (f32 (f32 ((raw : ℚ) - (adcMin : ℚ)) /
      f32 ((adcMax : ℚ) - (adcMin : ℚ))) * 160) ≤ 0 :=
    f32_nonpos (mul_nonpos_of_nonpos_of_nonneg h2 (by norm_num))
  rw [constrain_eq_max_min _ 0 160 (by norm_num), min_eq_left (by linarith), max_eq_left h3]

/-- The rounded interpolation is 160 from the upper calibration bound on. -/
theorem floatAngle_high (raw adcMin adcMax : Nat) (h : adcMin < adcMax) (hr : adcMax ≤ raw) :
    constrain (f32 (f32 (f32 ((raw : ℚ) - (adcMin : ℚ)) /
      f32 ((adcMax : ℚ) - (adcMin : ℚ))) * 160)) 0 160 = 160 := by
  have hd : (0 : ℚ) < f32 ((adcMax : ℚ) - (adcMin : ℚ)) := by
    apply f32_pos
    have : (adcMin : ℚ) < (adcMax : ℚ) := by exact_mod_cast h
    linarith
  have h1 : f32 ((adcMax : ℚ) - (adcMin : ℚ)) ≤ f32 ((raw : ℚ) - (adcMin : ℚ)) := by
    apply f32_mono
    have : (adcMax : ℚ) ≤ (raw : ℚ) := by exact_mod_cast hr
    linarith
  have h2 : 1 ≤ f32 (f32 ((raw : ℚ) - (adcMin : ℚ)) / f32 ((adcMax : ℚ) - (adcMin : ℚ))) := by
    rw [← f32_one]
    apply f32_mono
    rw [le_div_iff₀ hd]
    linarith
  have h3 : 160 ≤ f32 (f32 (f32 ((raw : ℚ) - (adcMin : ℚ)) /
      f32 ((adcMax : ℚ) - (adcMin : ℚ))) * 160) := by
    rw [← f32_160]
    apply f32_mono
    rw [f32_160]
    linarith
  rw [constrain_eq_max_min _ 0 160 (by norm_num), min_eq_right h3]
  exact max_eq_right (by norm_num)

/-- The rounded interpolation is monotone in the raw value. -/
theorem floatAngle_mono (adcMin adcMax : Nat) (h : adcMin < adcMax) {r1 r2 : Nat}
    (hr : r1 ≤ r2) :
    constrain (f32 (f32 (f32 ((r1 : ℚ) - (adcMin : ℚ)) /
      f32 ((adcMax : ℚ) - (adcMin : ℚ))) * 160)) 0 160 ≤
    constrain (f32 (f32 (f32 ((r2 : ℚ) - (adcMin : ℚ)) /
      f32 ((adcMax : ℚ) - (adcMin : ℚ))) * 160)) 0 160 := by
  have hd : (0 : ℚ) < f32 ((adcMax : ℚ) - (adcMin : ℚ)) := by
    apply f32_pos
    have : (adcMin : ℚ) < (adcMax : ℚ) := by exact_mod_cast h
    linarith
  apply constrain_mono 0 160 (by norm_num)
  apply f32_mono
  apply mul_le_mul_of_nonneg_right _ (by norm_num)
  apply f32_mono
  apply div_le_div_of_nonneg_right _ hd.le
  apply f32_mono
  have : (r1 : ℚ) ≤ (r2 : ℚ) := by exact_mod_cast hr
  linarith

theorem readPotAngle_some {c c2 : FeedArmController} {pin adcMin adcMax : Nat}
    {samples : Nat → Nat} {ang : Option ℚ}
    (h : c.readPotAngle pin adcMin adcMax samples = some (c2, ang)) :
    ∃ raw, c.readPotSmoothed samples = some raw ∧ ang = mapAngle raw adcMin adcMax ∧
      c2 = (if pin = c.feedPotPin then { c with rawFeedPot := raw }
            else if pin = c.tensionPotPin then { c with rawTensionPot := raw }
            else c) := by
  unfold readPotAngle at h
  cases hr : c.readPotSmoothed samples with
  | none => simp [hr] at h
  | some raw =>
    simp only [hr, Option.some.injEq, Prod.mk.injEq] at h
    exact ⟨raw, rfl, h.2.symm, h.1.symm⟩

theorem sumSamples_eq (samples : Nat → Nat) :
    ∀ n, n ≤ 255 → (∀ k, k < n → samples k ≤ 4095) →
      sumSamples samples n = ∑ k ∈ Finset.range n, samples k ∧
      ∑ k ∈ Finset.range n, samples k ≤ 4095 * n := by
  intro n
  induction n with
  | zero => intro _ _; simp [sumSamples]
  | succ n ih =>
    intro hn hs
    obtain ⟨h1, h2⟩ := ih (by omega) (fun k hk => hs k (by omega))
    have h3 := hs n (by omega)
    rw [Finset.sum_range_succ]
    constructor
    · simp only [sumSamples, h1, U32]
      omega
    · omega

theorem sum_range_ge (samples : Nat → Nat) (lo : Nat) :
    ∀ n, (∀ k, k < n → lo ≤ samples k) → lo * n ≤ ∑ k ∈ Finset.range n, samples k := by
  intro n
  induction n with
  | zero => intro _; simp
  | succ n ih =>
    intro hs
    have h1 := ih (fun k hk => hs k (by omega))
    have h2 := hs n (by omega)
    rw [Finset.sum_range_succ, Nat.mul_succ]
    omega

theorem sum_range_le (samples : Nat → Nat) (hi : Nat) :
    ∀ n, (∀ k, k < n → samples k ≤ hi) → ∑ k ∈ Finset.range n, samples k ≤ hi * n := by
  intro n
  induction n with
  | zero => intro _; simp
  | succ n ih =>
    intro hs
    have h1 := ih (fun k hk => hs k (by omega))
    have h2 := hs n (by omega)
    rw [Finset.sum_range_succ, Nat.mul_succ]
    omega

end FeedArmController

/-- Claim C14. For every calibration pair with `calibrationMin <
calibrationMax` the mapping of `readPotAngle` is a function of the raw value
that is monotonically non-decreasing, maps `calibrationMin` to 0 and
`calibrationMax` to 160, maps every raw value `<= calibrationMin` to 0 and
every raw value `>= calibrationMax` to 160. -/
theorem mapAngle_monotone_saturating (adcMin adcMax : Nat) (h : adcMin < adcMax) :
    ∃ f : Nat → ℚ, (∀ raw, mapAngle raw adcMin adcMax = some (f raw)) ∧
      (∀ r1 r2, r1 ≤ r2 → f r1 ≤ f r2) ∧
      f adcMin = 0 ∧ f adcMax = 160 ∧
      (∀ raw, raw ≤ adcMin → f raw = 0) ∧
      (∀ raw, adcMax ≤ raw → f raw = 160) :=
  ⟨fun raw => constrain (f32 (f32 (f32 ((raw : ℚ) - (adcMin : ℚ)) /
      f32 ((adcMax : ℚ) - (adcMin : ℚ))) * 160)) 0 160,
    fun raw => mapAngle_of_lt raw adcMin adcMax h,
    fun _ _ hr => floatAngle_mono adcMin adcMax h hr,
    floatAngle_low adcMin adcMin adcMax h (le_refl _),
    floatAngle_high adcMax adcMin adcMax h (le_refl _),
    fun raw hr => floatAngle_low raw adcMin adcMax h hr,
    fun raw hr => floatAngle_high raw adcMin adcMax h hr⟩

/-- Claim C14 with the default calibration 200..3800: the raw values 0, 200,
3800 and 4095 map to 0, 0, 160 and 160. -/
theorem mapAngle_monotone_saturating_witness :
    mapAngle 0 200 3800 = some 0 ∧ mapAngle 200 200 3800 = some 0 ∧
    mapAngle 3800 200 3800 = some 160 ∧ mapAngle 4095 200 3800 = some 160 := by
  obtain ⟨f, hf, -, h1, h2, h3, h4⟩ := mapAngle_monotone_saturating 200 3800 (by decide)
  refine ⟨?_, ?_, ?_, ?_⟩
  · rw [hf, h3 0 (by decide)]
  · rw [hf, h1]
  · rw [hf, h2]
  · rw [hf, h4 4095 (by decide)]

/-! ## Lemmas on the states reachable from `begin()` -/

namespace FeedArmController

/-- What a returning `begin()` leaves. -/
theorem begin_some {c b : FeedArmController} {cfg : Config}
    {feedServoPin tensionServoPin feedPotPin tensionPotPin : Nat}
    {reed : Option ReedSwitch} {i : BeginInput}
    (h : c.begin cfg feedServoPin tensionServoPin feedPotPin tensionPotPin reed i = some b) :
    b.state = MONITORING ∧ b.feedServoAttached = false ∧
    b.tensionAngle = cfg.tensionServoAngle ∧ b.cfg = cfg ∧ b.reed = reed ∧
    b.unstickCount = 0 ∧
    b.servoLog = c.servoLog ++
      [(ServoId.tension, ServoCall.setPeriodHertz 50),
       (ServoId.tension, ServoCall.attach tensionServoPin 500 2500),
       (ServoId.tension, ServoCall.write (toInt cfg.tensionServoAngle)),
       (ServoId.feed, ServoCall.setPeriodHertz 50)] := by
  unfold begin readPotAngle readPotSmoothed at h
  by_cases hz : cfg.potSamples = 0
  · simp [hz, servo] at h
  · simp only [servo, hz, if_true, if_false] at h
    split_ifs at h <;> simp only [Option.some.injEq] at h <;> subst h <;>
      simp

theorem owned_update {c c2 : FeedArmController} {i : TickInput} (ho : c.Owned)
    (h : c.update i = some c2) : c2.Owned := by
  obtain ⟨p, hp, rfl, -⟩ := update_some h
  obtain ⟨o1, o2⟩ := ho
  rw [← hp.state, ← hp.feedServoAttached] at o1 o2
  generalize sub32 (millis i.now) c.stateEnteredAt = e
  cases hs : p.state
  · rw [switchState_MONITORING hs]
    split_ifs
    · constructor <;> simp [transitionTo]
    · exact ⟨o1, o2⟩
  · rw [switchState_UNSTICKING hs]
    split_ifs <;> constructor <;> simp_all
  · rw [switchState_HOLD_UNSTICK hs]
    split_ifs
    · constructor
      · simp [transitionTo]
      · intro _; exact o2 (Or.inl hs)
    · exact ⟨o1, o2⟩
  · rw [switchState_RETURNING hs]
    constructor
    · simp
    · intro _; exact o2 (Or.inr (Or.inl hs))
  · rw [switchState_COOLDOWN hs]
    by_cases hge : e ≥ p.cfg.unstickCooldownMs
    · rw [if_pos hge]
      constructor <;> simp
    · rw [if_neg hge]; exact ⟨o1, o2⟩

theorem owned_step {c c2 : FeedArmController} {e : Event} (ho : c.Owned)
    (h : c.step e = some c2) : c2.Owned := by
  cases e with
  | tick i => exact owned_update ho h
  | pulse t =>
    simp only [step, Option.some.injEq] at h
    subst h
    exact ho
  | trigger t =>
    simp only [step, Option.some.injEq] at h
    subst h
    unfold triggerUnstick
    split_ifs
    · constructor <;> simp [transitionTo]
    · exact ho
  | setTension a =>
    simp only [step, Option.some.injEq] at h
    subst h
    exact ho
  | setConfig cfg =>
    simp only [step, Option.some.injEq] at h
    subst h
    exact ho

/-- A property that every event preserves holds after every event of a run. -/
theorem run_invariant (P : FeedArmController → Prop) (evs : List Event) :
    ∀ (c : FeedArmController) (cs : List FeedArmController),
      (∀ e ∈ evs, ∀ x x2 : FeedArmController, P x → x.step e = some x2 → P x2) →
      P c → c.run evs = some cs → ∀ x ∈ cs, P x := by
  induction evs with
  | nil =>
    intro c cs _ _ hrun
    simp only [run, Option.some.injEq] at hrun
    subst hrun
    simp
  | cons e es ih =>
    intro c cs hstep hc hrun
    obtain ⟨c1, cs1, h1, hrest, rfl⟩ := run_cons hrun
    have hc1 := hstep e (List.mem_cons_self _ _) c c1 hc h1
    intro x hx
    rcases List.mem_cons.mp hx with rfl | hx
    · exact hc1
    · exact ih c1 cs1 (fun e he => hstep e (List.mem_cons_of_mem _ he)) hc1 hrest x hx

end FeedArmController

namespace FeedArmController

theorem tensionWritesIn_append {lo hi : ℚ} {n : Nat} {log more : List (ServoId × ServoCall)}
    (hn : n ≤ log.length) (h : TensionWritesIn lo hi (log.drop n))
    (hm : TensionWritesIn lo hi more) :
    n ≤ (log ++ more).length ∧ TensionWritesIn lo hi ((log ++ more).drop n) := by
  constructor
  · rw [List.length_append]; omega
  · rw [List.drop_append_of_le_length hn]
    intro v hv
    rcases List.mem_append.mp hv with hv | hv
    · exact h v hv
    · exact hm v hv

theorem tensionWritesIn_feed (lo hi : ℚ) (k : ServoCall) :
    TensionWritesIn lo hi [(ServoId.feed, k)] := by
  intro v hv
  simp at hv

theorem tensionWritesIn_write {lo hi a : ℚ} (h1 : lo ≤ a) (h2 : a ≤ hi) :
    TensionWritesIn lo hi [(ServoId.tension, ServoCall.write (toInt a))] := by
  intro v hv
  simp only [List.mem_singleton, Prod.mk.injEq, ServoCall.write.injEq, true_and] at hv
  exact ⟨a, h1, h2, hv⟩

theorem tensionWritesIn_cons_feed {lo hi : ℚ} (k : ServoCall) {l : List (ServoId × ServoCall)}
    (h : TensionWritesIn lo hi l) : TensionWritesIn lo hi ((ServoId.feed, k) :: l) := by
  intro v hv
  rcases List.mem_cons.mp hv with hv | hv
  · simp at hv
  · exact h v hv

theorem tensionWritesIn_cons_write {lo hi a : ℚ} (h1 : lo ≤ a) (h2 : a ≤ hi)
    {l : List (ServoId × ServoCall)} (h : TensionWritesIn lo hi l) :
    TensionWritesIn lo hi ((ServoId.tension, ServoCall.write (toInt a)) :: l) := by
  intro v hv
  rcases List.mem_cons.mp hv with hv | hv
  · simp only [Prod.mk.injEq, ServoCall.write.injEq, true_and] at hv
    exact ⟨a, h1, h2, hv⟩
  · exact h v hv

theorem tensionWritesIn_nil (lo hi : ℚ) : TensionWritesIn lo hi [] := by
  intro v hv
  simp at hv

theorem tensionInv_update {lo hi : ℚ} {n : Nat} {c c2 : FeedArmController} {i : TickInput}
    (hinv : TensionInv lo hi n c) (h : c.update i = some c2) : TensionInv lo hi n c2 := by
  have hown2 := owned_update hinv.2.2.2.2.2.1 h
  obtain ⟨p, hp, rfl, -⟩ := update_some h
  obtain ⟨hlo, hhi, h1, h2, hsv, hown, hn, hlog⟩ := hinv
  have hle : lo ≤ hi := le_trans h1 h2
  rw [← hp.cfg] at hlo hhi
  rw [← hp.tensionAngle] at h1 h2
  rw [← hp.feedServoAttached, ← hp.savedTensionAngle] at hsv
  rw [← hp.servoLog] at hn hlog
  have hownp : p.Owned := by
    obtain ⟨o1, o2⟩ := hown
    rw [← hp.state, ← hp.feedServoAttached] at o1 o2
    exact ⟨o1, o2⟩
  generalize sub32 (millis i.now) c.stateEnteredAt = e at hown2 ⊢
  cases hs : p.state
  · rw [switchState_MONITORING hs] at hown2 ⊢
    split_ifs at hown2 ⊢
    · exact ⟨hlo, hhi, h1, h2, hsv, hown2, hn, hlog⟩
    · exact ⟨hlo, hhi, h1, h2, hsv, hown2, hn, hlog⟩
  · rw [switchState_UNSTICKING hs] at hown2 ⊢
    by_cases ha : p.feedServoAttached = false
    · rw [if_pos ha] at hown2 ⊢
      have hmin1 : lo ≤ p.cfg.tensionAngleMin := by rw [hlo]
      have hmin2 : p.cfg.tensionAngleMin ≤ hi := by rw [hlo]; exact hle
      obtain ⟨g1, g2⟩ := tensionWritesIn_append hn hlog
        (tensionWritesIn_cons_write hmin1 hmin2
          (tensionWritesIn_cons_feed (ServoCall.attach p.feedServoPin 500 2500)
            (tensionWritesIn_feed lo hi (ServoCall.write (toInt p.cfg.feedArmUnstickAngle)))))
      exact ⟨hlo, hhi, h1, h2, fun _ => ⟨h1, h2⟩, hown2, g1, g2⟩
    · rw [if_neg ha] at hown2 ⊢
      obtain ⟨g1, g2⟩ := tensionWritesIn_append hn hlog
        (tensionWritesIn_feed lo hi (ServoCall.write (toInt p.cfg.feedArmUnstickAngle)))
      exact ⟨hlo, hhi, h1, h2, hsv, hown2, g1, g2⟩
  · rw [switchState_HOLD_UNSTICK hs] at hown2 ⊢
    split_ifs at hown2 ⊢
    · exact ⟨hlo, hhi, h1, h2, hsv, hown2, hn, hlog⟩
    · exact ⟨hlo, hhi, h1, h2, hsv, hown2, hn, hlog⟩
  · rw [switchState_RETURNING hs] at hown2 ⊢
    obtain ⟨g1, g2⟩ := tensionWritesIn_append hn hlog
      (tensionWritesIn_feed lo hi (ServoCall.write (toInt p.cfg.feedArmRestAngle)))
    exact ⟨hlo, hhi, h1, h2, hsv, hown2, g1, g2⟩
  · rw [switchState_COOLDOWN hs] at hown2 ⊢
    by_cases hge : e ≥ p.cfg.unstickCooldownMs
    · rw [if_pos hge] at hown2 ⊢
      have hatt : p.feedServoAttached = true := hownp.2 (Or.inr (Or.inr hs))
      obtain ⟨s1, s2⟩ := hsv hatt
      obtain ⟨g1, g2⟩ := tensionWritesIn_append hn hlog
        (show TensionWritesIn lo hi
            ((if p.feedServoAttached = true then [(ServoId.feed, ServoCall.detach)] else []) ++
              [(ServoId.tension, ServoCall.write (toInt p.savedTensionAngle))]) by
          rw [if_pos hatt]
          exact tensionWritesIn_cons_feed ServoCall.detach (tensionWritesIn_write s1 s2))
      exact ⟨hlo, hhi, s1, s2, fun hf => by simp at hf, hown2, g1, g2⟩
    · rw [if_neg hge] at hown2 ⊢
      exact ⟨hlo, hhi, h1, h2, hsv, hown2, hn, hlog⟩

theorem tensionInv_step {lo hi : ℚ} {n : Nat} {c c2 : FeedArmController} {e : Event}
    (hinv : TensionInv lo hi n c) (he : e.keepsTensionRange lo hi)
    (h : c.step e = some c2) : TensionInv lo hi n c2 := by
  have hown2 := owned_step hinv.2.2.2.2.2.1 h
  cases e with
  | tick i => exact tensionInv_update hinv h
  | pulse t =>
    simp only [step, Option.some.injEq] at h
    subst h
    exact hinv
  | trigger t =>
    simp only [step, Option.some.injEq] at h
    subst h
    obtain ⟨hlo, hhi, h1, h2, hsv, hown, hn, hlog⟩ := hinv
    unfold triggerUnstick at hown2 ⊢
    split_ifs at hown2 ⊢
    · exact ⟨hlo, hhi, h1, h2, hsv, hown2, hn, hlog⟩
    · exact ⟨hlo, hhi, h1, h2, hsv, hown2, hn, hlog⟩
  | setTension a =>
    simp only [step, Option.some.injEq] at h
    subst h
    obtain ⟨hlo, hhi, h1, h2, hsv, hown, hn, hlog⟩ := hinv
    have hle : lo ≤ hi := le_trans h1 h2
    obtain ⟨m1, m2⟩ := constrain_mem a lo hi hle
    obtain ⟨g1, g2⟩ := tensionWritesIn_append hn hlog (tensionWritesIn_write m1 m2)
    refine ⟨hlo, hhi, ?_, ?_, hsv, hown2, ?_, ?_⟩
    · show lo ≤ constrain a c.cfg.tensionAngleMin c.cfg.tensionAngleMax
      rw [hlo, hhi]; exact m1
    · show constrain a c.cfg.tensionAngleMin c.cfg.tensionAngleMax ≤ hi
      rw [hlo, hhi]; exact m2
    · show n ≤ (c.servoLog ++ [(ServoId.tension, ServoCall.write
        (toInt (constrain a c.cfg.tensionAngleMin c.cfg.tensionAngleMax)))]).length
      rw [hlo, hhi]; exact g1
    · show TensionWritesIn lo hi ((c.servoLog ++ [(ServoId.tension, ServoCall.write
        (toInt (constrain a c.cfg.tensionAngleMin c.cfg.tensionAngleMax)))]).drop n)
      rw [hlo, hhi]; exact g2
  | setConfig cfg =>
    simp only [step, Option.some.injEq] at h
    subst h
    obtain ⟨hlo, hhi, h1, h2, hsv, hown, hn, hlog⟩ := hinv
    exact ⟨he.1, he.2, h1, h2, hsv, hown2, hn, hlog⟩

end FeedArmController

namespace FeedArmController

theorem saved_update {T : ℚ} {c c2 : FeedArmController} {i : TickInput}
    (hs : Saved T c) (hc : c.state ≠ MONITORING) (h : c.update i = some c2) :
    (c2.state ≠ MONITORING → Saved T c2) ∧
    (c2.state = MONITORING → c2.tensionAngle = T ∧
      c2.servoLog.getLast? = some (ServoId.tension, ServoCall.write (toInt T))) := by
  obtain ⟨p, hp, rfl, -⟩ := update_some h
  have hsp : Saved T p := by
    unfold Saved at hs ⊢
    rw [hp.feedServoAttached, hp.savedTensionAngle, hp.state, hp.tensionAngle]
    exact hs
  have hcp : p.state ≠ MONITORING := by rw [hp.state]; exact hc
  generalize sub32 (millis i.now) c.stateEnteredAt = e
  cases hst : p.state
  · exact absurd hst hcp
  · rw [switchState_UNSTICKING hst]
    by_cases ha : p.feedServoAttached = false
    · rw [if_pos ha]
      refine ⟨fun _ => Or.inl ⟨rfl, ?_⟩, fun hm => by simp at hm⟩
      rcases hsp with ⟨h1, -⟩ | ⟨-, -, h3⟩
      · rw [ha] at h1; simp at h1
      · exact h3
    · rw [if_neg ha]
      refine ⟨fun _ => Or.inl ?_, fun hm => by simp at hm⟩
      rcases hsp with ⟨h1, h2⟩ | ⟨-, h2, -⟩
      · exact ⟨h1, h2⟩
      · exact absurd h2 ha
  · have hatt : p.feedServoAttached = true ∧ p.savedTensionAngle = T := by
      rcases hsp with h1 | ⟨h1, -, -⟩
      · exact h1
      · rw [hst] at h1; simp at h1
    rw [switchState_HOLD_UNSTICK hst]
    split_ifs
    · exact ⟨fun _ => Or.inl hatt, fun hm => by simp [transitionTo] at hm⟩
    · exact ⟨fun _ => Or.inl hatt, fun hm => absurd hm hcp⟩
  · have hatt : p.feedServoAttached = true ∧ p.savedTensionAngle = T := by
      rcases hsp with h1 | ⟨h1, -, -⟩
      · exact h1
      · rw [hst] at h1; simp at h1
    rw [switchState_RETURNING hst]
    exact ⟨fun _ => Or.inl hatt, fun hm => by simp at hm⟩
  · have hatt : p.feedServoAttached = true ∧ p.savedTensionAngle = T := by
      rcases hsp with h1 | ⟨h1, -, -⟩
      · exact h1
      · rw [hst] at h1; simp at h1
    rw [switchState_COOLDOWN hst]
    by_cases hge : e ≥ p.cfg.unstickCooldownMs
    · rw [if_pos hge]
      refine ⟨fun hm => by simp at hm, fun _ => ⟨hatt.2, ?_⟩⟩
      simp [hatt.2]
    · rw [if_neg hge]
      exact ⟨fun _ => Or.inl hatt, fun hm => absurd hm hcp⟩

theorem saved_step {T : ℚ} {c c2 : FeedArmController} {e : Event}
    (hs : Saved T c) (hc : c.state ≠ MONITORING) (h : c.step e = some c2)
    (hno : (e.isSetTension && decide (c.state = UNSTICKING) && !c.feedServoAttached) = false) :
    (c2.state ≠ MONITORING → Saved T c2) ∧
    (c2.state = MONITORING → c2.tensionAngle = T ∧
      c2.servoLog.getLast? = some (ServoId.tension, ServoCall.write (toInt T))) := by
  cases e with
  | tick i => exact saved_update hs hc h
  | pulse t =>
    simp only [step, Option.some.injEq] at h
    subst h
    exact ⟨fun _ => hs, fun hm => absurd hm hc⟩
  | trigger t =>
    simp only [step, Option.some.injEq] at h
    subst h
    unfold triggerUnstick
    by_cases hq : c.state = MONITORING ∨ c.state = COOLDOWN
    · rw [if_pos hq]
      rcases hq with hq | hq
      · exact absurd hq hc
      · refine ⟨fun _ => Or.inl ?_, fun hm => by simp [transitionTo] at hm⟩
        rcases hs with h1 | ⟨h1, -, -⟩
        · exact h1
        · rw [hq] at h1; simp at h1
    · rw [if_neg hq]
      exact ⟨fun _ => hs, fun hm => absurd hm hc⟩
  | setTension a =>
    simp only [step, Option.some.injEq] at h
    subst h
    refine ⟨fun _ => Or.inl ?_, fun hm => absurd hm hc⟩
    rcases hs with h1 | ⟨h1, h2, -⟩
    · exact h1
    · simp [Event.isSetTension, h1, h2] at hno
  | setConfig cfg =>
    simp only [step, Option.some.injEq] at h
    subst h
    exact ⟨fun _ => hs, fun hm => absurd hm hc⟩

theorem saved_run {T : ℚ} (evs : List Event) :
    ∀ (c : FeedArmController) (pre : List FeedArmController) (cN : FeedArmController),
      Saved T c → c.state ≠ MONITORING → c.run evs = some (pre ++ [cN]) →
      (∀ x ∈ pre, x.state ≠ MONITORING) → cN.state = MONITORING →
      c.setsTensionBeforeSave evs = false →
      cN.tensionAngle = T ∧
      cN.servoLog.getLast? = some (ServoId.tension, ServoCall.write (toInt T)) := by
  induction evs with
  | nil =>
    intro c pre cN _ _ hrun
    simp [run] at hrun
  | cons e es ih =>
    intro c pre cN hs hc hrun hpre hN hno
    obtain ⟨c1, cs1, hstep, hrest, hcs⟩ := run_cons hrun
    simp only [setsTensionBeforeSave, hstep, Bool.or_eq_false_iff] at hno
    obtain ⟨k1, k2⟩ := saved_step hs hc hstep hno.1
    cases pre with
    | nil =>
      simp only [List.nil_append, List.cons.injEq] at hcs
      obtain ⟨rfl, -⟩ := hcs
      exact k2 hN
    | cons x pre1 =>
      simp only [List.cons_append, List.cons.injEq] at hcs
      obtain ⟨rfl, rfl⟩ := hcs
      have hx := hpre x (List.mem_cons_self _ _)
      exact ih x pre1 cN (k1 hx) hx hrest (fun y hy => hpre y (List.mem_cons_of_mem _ hy)) hN
        hno.2

end FeedArmController

namespace FeedArmController

theorem sampleReed_raw (c : FeedArmController) (i : TickInput) :
    (c.sampleReed i).rawFeedPot = c.rawFeedPot ∧
    (c.sampleReed i).rawTensionPot = c.rawTensionPot := by
  simp only [sampleReed]
  split_ifs
  · cases hr : c.reed <;> exact ⟨rfl, rfl⟩
  · exact ⟨rfl, rfl⟩

theorem switchState_raw (p : FeedArmController) (e : Nat) (i : TickInput) :
    (p.switchState e i).rawFeedPot = p.rawFeedPot ∧
    (p.switchState e i).rawTensionPot = p.rawTensionPot := by
  cases hs : p.state
  · rw [switchState_MONITORING hs]; split_ifs <;> exact ⟨rfl, rfl⟩
  · rw [switchState_UNSTICKING hs]; split_ifs <;> exact ⟨rfl, rfl⟩
  · rw [switchState_HOLD_UNSTICK hs]; split_ifs <;> exact ⟨rfl, rfl⟩
  · rw [switchState_RETURNING hs]; exact ⟨rfl, rfl⟩
  · rw [switchState_COOLDOWN hs]
    by_cases h : e ≥ p.cfg.unstickCooldownMs
    · rw [if_pos h]; exact ⟨rfl, rfl⟩
    · rw [if_neg h]; exact ⟨rfl, rfl⟩

theorem readAngles_raw {c c1 : FeedArmController} {i : TickInput}
    (h : c.readAngles i = some c1) (hpins : c.feedPotPin ≠ c.tensionPotPin) :
    c.readPotSmoothed i.feedSamples = some c1.rawFeedPot ∧
    c.readPotSmoothed i.tensionSamples = some c1.rawTensionPot := by
  unfold readAngles readPotAngle readPotSmoothed at h
  unfold readPotSmoothed
  by_cases hz : c.cfg.potSamples = 0
  · simp [hz] at h
  · have hne : ¬ c.tensionPotPin = c.feedPotPin := fun hq => hpins hq.symm
    simp only [hz, if_true, if_false, hne, Option.some.injEq] at h
    subst h
    rw [if_neg hz, if_neg hz]
    exact ⟨rfl, rfl⟩

theorem update_raw {c c2 : FeedArmController} {i : TickInput}
    (h : c.update i = some c2) (hpins : c.feedPotPin ≠ c.tensionPotPin) :
    c.readPotSmoothed i.feedSamples = some c2.rawFeedPot ∧
    c.readPotSmoothed i.tensionSamples = some c2.rawTensionPot := by
  unfold update at h
  cases h1 : c.readAngles i with
  | none => simp [h1] at h
  | some c1 =>
    simp only [h1, Option.some.injEq] at h
    subst h
    obtain ⟨a1, a2⟩ := readAngles_raw h1 hpins
    obtain ⟨b1, b2⟩ := sampleReed_raw c1 i
    obtain ⟨d1, d2⟩ := switchState_raw (c1.sampleReed i) (sub32 (millis i.now) c.stateEnteredAt) i
    rw [d1, d2, b1, b2]
    exact ⟨a1, a2⟩

end FeedArmController

/-! ## Lemmas on the servo calls -/

namespace FeedArmController

end FeedArmController

namespace FeedArmController

/-- With `1 <= N <= 255` samples of at most 4095, `readPotSmoothed` returns
the floor of their exact average. -/
theorem readPotSmoothed_eq (c : FeedArmController) (samples : Nat → Nat)
    (h1 : 1 ≤ c.cfg.potSamples) (h2 : c.cfg.potSamples ≤ 255)
    (hs : ∀ k, k < c.cfg.potSamples → samples k ≤ 4095) :
    c.readPotSmoothed samples =
      some ((∑ k ∈ Finset.range c.cfg.potSamples, samples k) / c.cfg.potSamples) := by
  have hsum := sumSamples_eq samples c.cfg.potSamples h2 hs
  have h4095 : (∑ k ∈ Finset.range c.cfg.potSamples, samples k) / c.cfg.potSamples ≤ 4095 :=
    Nat.div_le_of_le_mul (by rw [Nat.mul_comm]; exact hsum.2)
  unfold readPotSmoothed
  rw [if_neg (by omega), hsum.1, Nat.mod_eq_of_lt (by omega)]

/-- A call of `readPotAngle` returns when `readPotSmoothed` does. -/
theorem readPotAngle_of_smoothed (c : FeedArmController) (pin adcMin adcMax : Nat)
    (samples : Nat → Nat) (raw : Nat) (h : c.readPotSmoothed samples = some raw) :
    c.readPotAngle pin adcMin adcMax samples =
      some ((if pin = c.feedPotPin then { c with rawFeedPot := raw }
             else if pin = c.tensionPotPin then { c with rawTensionPot := raw }
             else c), mapAngle raw adcMin adcMax) := by
  unfold readPotAngle
  rw [h]

end FeedArmController

/-! ## The claims on the commands, the invariants, the timing and the smoothing -/

/-- Claim C15, refuted: with the default range 30..130, `setTensionAngle(80.5)`
records the commanded tension angle 80.5 and writes 80 to the tension
servo. -/
theorem setTensionAngle_writes_truncated :
    (bench.setTensionAngle (161 / 2)).tensionAngle = 161 / 2 ∧
    (bench.setTensionAngle (161 / 2)).servoLog.getLast? =
      some (ServoId.tension, ServoCall.write 80) := by
  decide!

/-- Claim C15, amended. With `tensionAngleMin <= tensionAngleMax`,
`setTensionAngle(a)` sets the commanded tension angle to `a` clamped into
the range (`a` itself when in range, the nearer bound otherwise), writes the
`(int)` conversion of that value to the tension servo, and changes nothing
else. Called again with the resulting value it leaves the commanded angle
and all other members as they are and writes the same value again. -/
theorem setTensionAngle_clamps (c : FeedArmController) (a : ℚ)
    (h : c.cfg.tensionAngleMin ≤ c.cfg.tensionAngleMax) :
    c.setTensionAngle a =
      { c with
        tensionAngle := (c.setTensionAngle a).tensionAngle
        servoLog := c.servoLog ++
          [(ServoId.tension, ServoCall.write (toInt (c.setTensionAngle a).tensionAngle))] } ∧
    (c.setTensionAngle a).tensionAngle =
      max c.cfg.tensionAngleMin (min a c.cfg.tensionAngleMax) ∧
    c.cfg.tensionAngleMin ≤ (c.setTensionAngle a).tensionAngle ∧
    (c.setTensionAngle a).tensionAngle ≤ c.cfg.tensionAngleMax ∧
    (c.cfg.tensionAngleMin ≤ a → a ≤ c.cfg.tensionAngleMax →
      (c.setTensionAngle a).tensionAngle = a) ∧
    (a < c.cfg.tensionAngleMin → (c.setTensionAngle a).tensionAngle = c.cfg.tensionAngleMin) ∧
    (c.cfg.tensionAngleMax < a → (c.setTensionAngle a).tensionAngle = c.cfg.tensionAngleMax) ∧
    (c.setTensionAngle a).setTensionAngle (c.setTensionAngle a).tensionAngle =
      { c.setTensionAngle a with
        servoLog := (c.setTensionAngle a).servoLog ++
          [(ServoId.tension, ServoCall.write (toInt (c.setTensionAngle a).tensionAngle))] } := by
  have hval : (c.setTensionAngle a).tensionAngle =
      constrain a c.cfg.tensionAngleMin c.cfg.tensionAngleMax := rfl
  obtain ⟨m1, m2⟩ := constrain_mem a _ _ h
  have hin : ∀ x : ℚ, c.cfg.tensionAngleMin ≤ x → x ≤ c.cfg.tensionAngleMax →
      constrain x c.cfg.tensionAngleMin c.cfg.tensionAngleMax = x := by
    intro x h1 h2
    unfold constrain
    rw [if_neg (not_lt.mpr h1), if_neg (not_lt.mpr h2)]
  refine ⟨rfl, ?_, ?_, ?_, ?_, ?_, ?_, ?_⟩
  · rw [hval]; exact constrain_eq_max_min _ _ _ h
  · rw [hval]; exact m1
  · rw [hval]; exact m2
  · intro h1 h2; rw [hval]; exact hin a h1 h2
  · intro h1; rw [hval]; unfold constrain; rw [if_pos h1]
  · intro h1
    rw [hval]; unfold constrain
    rw [if_neg (not_lt.mpr (le_trans h (le_of_lt h1))), if_pos h1]
  · have hagain : ((c.setTensionAngle a).setTensionAngle (c.setTensionAngle a).tensionAngle).tensionAngle
        = (c.setTensionAngle a).tensionAngle := by
      show constrain (constrain a _ _) c.cfg.tensionAngleMin c.cfg.tensionAngleMax = _
      rw [hval]
      exact hin _ m1 m2
    show ({ c.setTensionAngle a with
        tensionAngle := ((c.setTensionAngle a).setTensionAngle
          (c.setTensionAngle a).tensionAngle).tensionAngle
        servoLog := (c.setTensionAngle a).servoLog ++
          [(ServoId.tension, ServoCall.write (toInt ((c.setTensionAngle a).setTensionAngle
            (c.setTensionAngle a).tensionAngle).tensionAngle))] } : FeedArmController) = _
    rw [hagain]

/-- Claim C15, amended, at `bench` (range 30..130): the angle 200 is clamped
to 130. -/
theorem setTensionAngle_clamps_witness :
    (bench.setTensionAngle 200).tensionAngle = bench.cfg.tensionAngleMax :=
  (setTensionAngle_clamps bench 200 (by decide)).2.2.2.2.2.2.1 (by decide)

/-- Claim C16, refuted: in the cycle of `bench` (commanded tension angle 80),
`setTensionAngle(100)` called in UNSTICKING, right after the tick that
detected the jam, is what the cycle ends with: at the COOLDOWN exit the
commanded tension angle is 100 and 100 is written to the tension servo. -/
theorem tension_set_in_UNSTICKING_is_restored :
    bench.tensionAngle = 80 ∧ cycleStart.state = UNSTICKING ∧
    ((cycleStart.setTensionAngle 100).run cycleTail).map
        (fun cs => ((cs.getLastD bench).state, (cs.getLastD bench).tensionAngle,
          (cs.getLastD bench).servoLog.getLast?)) =
      some (MONITORING, 100, some (ServoId.tension, ServoCall.write 100)) := by
  decide!

/-- Claim C16, amended. Let an unstick cycle start in MONITORING with the
feed servo detached and the commanded tension angle `T`, by a manual trigger
or a jam tick, and run to the first return to MONITORING under any events.
If no `setTensionAngle()` is called in UNSTICKING while the feed servo is
still detached (before the tick that saves the tension angle), then at the
COOLDOWN exit the commanded tension angle is `T` and the last servo call is
the write of `(int)T` to the tension servo, whatever `setTensionAngle()`
calls were made later in the cycle. If `setTensionAngle(a)` is called in
that first UNSTICKING state, and not again before the save, the cycle ends
with `a` clamped into the tension range instead. -/
theorem restore_overrides_later_tension_set (c0 c1 cN : FeedArmController)
    (evs : List Event) (pre : List FeedArmController)
    (h0 : c0.state = MONITORING) (hdet : c0.feedServoAttached = false)
    (hstart : (∃ t, c1 = c0.triggerUnstick t) ∨
      (∃ i, c0.update i = some c1 ∧ c1.state = UNSTICKING))
    (hrun : c1.run evs = some (pre ++ [cN]))
    (hpre : ∀ x ∈ pre, x.state ≠ MONITORING)
    (hN : cN.state = MONITORING)
    (hno : c1.setsTensionBeforeSave evs = false) :
    (cN.tensionAngle = c0.tensionAngle ∧
      cN.servoLog.getLast? =
        some (ServoId.tension, ServoCall.write (toInt c0.tensionAngle))) ∧
    (∀ (a : ℚ) (evs2 : List Event) (pre2 : List FeedArmController) (cN2 : FeedArmController),
      (c1.setTensionAngle a).run evs2 = some (pre2 ++ [cN2]) →
      (∀ x ∈ pre2, x.state ≠ MONITORING) → cN2.state = MONITORING →
      (c1.setTensionAngle a).setsTensionBeforeSave evs2 = false →
      cN2.tensionAngle = constrain a c1.cfg.tensionAngleMin c1.cfg.tensionAngleMax ∧
      cN2.servoLog.getLast? = some (ServoId.tension, ServoCall.write
        (toInt (constrain a c1.cfg.tensionAngleMin c1.cfg.tensionAngleMax)))) := by
  have hc1 : c1.state = UNSTICKING ∧ c1.feedServoAttached = false ∧
      c1.tensionAngle = c0.tensionAngle := by
    rcases hstart with ⟨t, rfl⟩ | ⟨i, hu, hs⟩
    · simp [triggerUnstick, transitionTo, h0, hdet]
    · obtain ⟨p, hp, rfl, -⟩ := update_some hu
      rw [switchState_MONITORING (hp.state.trans h0)] at hs ⊢
      split_ifs at hs ⊢ with hj
      · exact ⟨rfl, hp.feedServoAttached.trans hdet, hp.tensionAngle⟩
      · rw [hp.state.trans h0] at hs; simp at hs
  constructor
  · exact saved_run evs c1 pre cN (Or.inr hc1) (by rw [hc1.1]; simp) hrun hpre hN hno
  · intro a evs2 pre2 cN2 hrun2 hpre2 hN2 hno2
    have hs2 : Saved (constrain a c1.cfg.tensionAngleMin c1.cfg.tensionAngleMax)
        (c1.setTensionAngle a) := Or.inr ⟨hc1.1, hc1.2.1, rfl⟩
    exact saved_run evs2 (c1.setTensionAngle a) pre2 cN2 hs2
      (by show c1.state ≠ MONITORING; rw [hc1.1]; simp) hrun2 hpre2 hN2 hno2

/-- Claim C16, amended, at the cycle of `bench` with `setTensionAngle(100)`
called during the hold: the cycle ends with the commanded tension angle 80
and the write of 80. -/
theorem restore_overrides_later_tension_set_witness :
    (cycleTraceWithSet.getLastD bench).tensionAngle = bench.tensionAngle ∧
    (cycleTraceWithSet.getLastD bench).servoLog.getLast? =
      some (ServoId.tension, ServoCall.write (toInt bench.tensionAngle)) :=
  (restore_overrides_later_tension_set bench cycleStart (cycleTraceWithSet.getLastD bench)
    cycleTailWithSet cycleTraceWithSet.dropLast rfl rfl
    (Or.inr ⟨jamTick, bench_update_jamTick, cycleStart_state⟩)
    (by decide!) (by decide!) (by decide!) (by decide!)).1

/-- Claim C17, refuted on three inputs. `begin()` with the initial tension
angle 200 and the range 30..130 records and writes 200. `updateConfig()`
with the lower bound raised to 100 leaves the commanded angle 80 below the
range of the current configuration. With the lower bound 30.5,
`setTensionAngle(0)` records 30.5 and writes 30, below the range. -/
theorem tension_angle_leaves_range :
    (FeedArmController.init.begin cfgTensionHigh 13 14 6 7 none benchBegin).map
        (fun b => (b.tensionAngle, b.cfg.tensionAngleMax, b.servoLog)) =
      some (200, 130,
        [(ServoId.tension, ServoCall.setPeriodHertz 50),
         (ServoId.tension, ServoCall.attach 14 500 2500),
         (ServoId.tension, ServoCall.write 200), (ServoId.feed, ServoCall.setPeriodHertz 50)]) ∧
    (bench.updateConfig cfgRangeRaised).tensionAngle = 80 ∧
    (bench.updateConfig cfgRangeRaised).cfg.tensionAngleMin = 100 ∧
    (FeedArmController.init.begin cfgMinHalf 13 14 6 7 none benchBegin).map
        (fun b => ((b.setTensionAngle 0).tensionAngle, (b.setTensionAngle 0).cfg.tensionAngleMin,
          (b.setTensionAngle 0).servoLog.getLast?)) =
      some (61 / 2, 61 / 2, some (ServoId.tension, ServoCall.write 30)) := by
  decide!

/-- Claim C17, amended. Let `begin(cfg)` be called with `tensionAngleMin <=
tensionServoAngle <= tensionAngleMax`, and let ticks, reed-switch
interrupts, `triggerUnstick()`, `setTensionAngle()` and `updateConfig()`
calls follow, where every `updateConfig()` keeps `tensionAngleMin` and
`tensionAngleMax`. Then in every state reached, `begin()` included, the
commanded tension angle lies in `[tensionAngleMin, tensionAngleMax]` of the
current configuration, and every value written to the tension servo since
`begin()` is the `(int)` conversion of an angle in that range. -/
theorem tension_range_invariant (c b : FeedArmController) (cfg : Config)
    (feedServoPin tensionServoPin feedPotPin tensionPotPin : Nat)
    (reed : Option ReedSwitch) (i : BeginInput) (evs : List Event)
    (cs : List FeedArmController)
    (hmin : cfg.tensionAngleMin ≤ cfg.tensionServoAngle)
    (hmax : cfg.tensionServoAngle ≤ cfg.tensionAngleMax)
    (hb : c.begin cfg feedServoPin tensionServoPin feedPotPin tensionPotPin reed i = some b)
    (hev : ∀ e ∈ evs, e.keepsTensionRange cfg.tensionAngleMin cfg.tensionAngleMax)
    (hrun : b.run evs = some cs) :
    ∀ x ∈ b :: cs,
      x.cfg.tensionAngleMin = cfg.tensionAngleMin ∧
      x.cfg.tensionAngleMax = cfg.tensionAngleMax ∧
      x.cfg.tensionAngleMin ≤ x.tensionAngle ∧ x.tensionAngle ≤ x.cfg.tensionAngleMax ∧
      (∀ v : Int, (ServoId.tension, ServoCall.write v) ∈ x.servoLog.drop c.servoLog.length →
        ∃ a : ℚ, x.cfg.tensionAngleMin ≤ a ∧ a ≤ x.cfg.tensionAngleMax ∧ v = toInt a) := by
  obtain ⟨b1, b2, b3, b4, -, -, b7⟩ := begin_some hb
  have hinv : TensionInv cfg.tensionAngleMin cfg.tensionAngleMax c.servoLog.length b := by
    refine ⟨by rw [b4], by rw [b4], by rw [b3]; exact hmin, by rw [b3]; exact hmax,
      fun hf => by rw [b2] at hf; simp at hf,
      ⟨fun _ => b2, fun hs => by rw [b1] at hs; simp at hs⟩, ?_, ?_⟩
    · rw [b7, List.length_append]; omega
    · rw [b7, List.drop_left]
      intro v hv
      simp only [List.mem_cons, Prod.mk.injEq, ServoCall.write.injEq, true_and, false_and,
        and_false, false_or, or_false, List.mem_singleton, reduceCtorEq, List.not_mem_nil] at hv
      exact ⟨cfg.tensionServoAngle, hmin, hmax, hv⟩
  have hall : ∀ x ∈ b :: cs,
      TensionInv cfg.tensionAngleMin cfg.tensionAngleMax c.servoLog.length x := by
    intro x hx
    rcases List.mem_cons.mp hx with rfl | hx
    · exact hinv
    · exact run_invariant (TensionInv cfg.tensionAngleMin cfg.tensionAngleMax c.servoLog.length)
        evs b cs (fun e he x x2 hx hs => tensionInv_step hx (hev e he) hs) hinv hrun x hx
  intro x hx
  obtain ⟨i1, i2, i3, i4, -, -, -, i8⟩ := hall x hx
  refine ⟨i1, i2, by rw [i1]; exact i3, by rw [i2]; exact i4, ?_⟩
  rw [i1, i2]
  exact i8

/-- Claim C17, amended, at `bench` (default configuration, range 30..130,
initial angle 80) and the last state of its unstick cycle. -/
theorem tension_range_invariant_witness :
    (cycleTrace.getLastD bench).cfg.tensionAngleMin = Config.defaults.tensionAngleMin ∧
    (cycleTrace.getLastD bench).cfg.tensionAngleMax = Config.defaults.tensionAngleMax ∧
    (cycleTrace.getLastD bench).cfg.tensionAngleMin ≤ (cycleTrace.getLastD bench).tensionAngle ∧
    (cycleTrace.getLastD bench).tensionAngle ≤ (cycleTrace.getLastD bench).cfg.tensionAngleMax ∧
    (∀ v : Int, (ServoId.tension, ServoCall.write v) ∈
        (cycleTrace.getLastD bench).servoLog.drop FeedArmController.init.servoLog.length →
      ∃ a : ℚ, (cycleTrace.getLastD bench).cfg.tensionAngleMin ≤ a ∧
        a ≤ (cycleTrace.getLastD bench).cfg.tensionAngleMax ∧ v = toInt a) :=
  tension_range_invariant FeedArmController.init bench Config.defaults 13 14 6 7
    (some (ReedSwitch.init.begin 4 1000)) benchBegin cycleEvents (cycleStart :: cycleTrace)
    (by decide) (by decide) begin_eq_bench
    (by simp [cycleEvents, cycleTail, Event.keepsTensionRange]) (by decide!)
    (cycleTrace.getLastD bench) (by decide!)

/-- Claim C20. For a sample count `N` with `1 <= N <= 255` and `N` samples
each at most 4095, the accumulator of `readPotSmoothed` is the exact sum at
every iteration and stays below `2^32`; the function returns the floor of
the sum divided by `N`, untruncated by the 16-bit return type; the result
lies between any lower and any upper bound of the samples, so it is at most
4095 and equals the sample when all samples are equal. `readPotAngle` then
returns, having stored this value in `rawFeedPot` when called on the feed
pin and in `rawTensionPot` when called on the tension pin, and it maps this
value to the angle. A call of `update()` whose samples are at most 4095
returns, and after it, with the two pins distinct, `rawFeedPot` and
`rawTensionPot` hold the averages of the feed samples and of the tension
samples of the tick. -/
theorem readPotSmoothed_average (c : FeedArmController) (samples : Nat → Nat)
    (h1 : 1 ≤ c.cfg.potSamples) (h2 : c.cfg.potSamples ≤ 255)
    (hs : ∀ k, k < c.cfg.potSamples → samples k ≤ 4095) :
    (∀ n, n ≤ c.cfg.potSamples →
      sumSamples samples n = ∑ k ∈ Finset.range n, samples k ∧
      ∑ k ∈ Finset.range n, samples k < 4294967296) ∧
    c.readPotSmoothed samples =
      some ((∑ k ∈ Finset.range c.cfg.potSamples, samples k) / c.cfg.potSamples) ∧
    (∑ k ∈ Finset.range c.cfg.potSamples, samples k) / c.cfg.potSamples < 65536 ∧
    (∑ k ∈ Finset.range c.cfg.potSamples, samples k) / c.cfg.potSamples ≤ 4095 ∧
    (∀ lo, (∀ k, k < c.cfg.potSamples → lo ≤ samples k) →
      lo ≤ (∑ k ∈ Finset.range c.cfg.potSamples, samples k) / c.cfg.potSamples) ∧
    (∀ hi, (∀ k, k < c.cfg.potSamples → samples k ≤ hi) →
      (∑ k ∈ Finset.range c.cfg.potSamples, samples k) / c.cfg.potSamples ≤ hi) ∧
    (∀ v, (∀ k, k < c.cfg.potSamples → samples k = v) →
      (∑ k ∈ Finset.range c.cfg.potSamples, samples k) / c.cfg.potSamples = v) ∧
    (∀ (pin adcMin adcMax : Nat) (c2 : FeedArmController) (ang : Option ℚ),
      c.readPotAngle pin adcMin adcMax samples = some (c2, ang) →
      (pin = c.feedPotPin → c2.rawFeedPot =
        (∑ k ∈ Finset.range c.cfg.potSamples, samples k) / c.cfg.potSamples) ∧
      (pin ≠ c.feedPotPin → pin = c.tensionPotPin → c2.rawTensionPot =
        (∑ k ∈ Finset.range c.cfg.potSamples, samples k) / c.cfg.potSamples)) ∧
    (∀ (i : TickInput) (c2 : FeedArmController), c.update i = some c2 →
      c.feedPotPin ≠ c.tensionPotPin →
      c.readPotSmoothed i.feedSamples = some c2.rawFeedPot ∧
      c.readPotSmoothed i.tensionSamples = some c2.rawTensionPot) ∧
    (∀ (pin adcMin adcMax : Nat),
      ∃ (c2 : FeedArmController),
        c.readPotAngle pin adcMin adcMax samples =
          some (c2, mapAngle ((∑ k ∈ Finset.range c.cfg.potSamples, samples k) /
            c.cfg.potSamples) adcMin adcMax) ∧
        (pin = c.feedPotPin → c2.rawFeedPot =
          (∑ k ∈ Finset.range c.cfg.potSamples, samples k) / c.cfg.potSamples) ∧
        (pin ≠ c.feedPotPin → pin = c.tensionPotPin → c2.rawTensionPot =
          (∑ k ∈ Finset.range c.cfg.potSamples, samples k) / c.cfg.potSamples)) ∧
    (∀ (i : TickInput), (∀ k, k < c.cfg.potSamples → i.feedSamples k ≤ 4095) →
      (∀ k, k < c.cfg.potSamples → i.tensionSamples k ≤ 4095) →
      c.feedPotPin ≠ c.tensionPotPin →
      ∃ c2 : FeedArmController, c.update i = some c2 ∧
        c2.rawFeedPot =
          (∑ k ∈ Finset.range c.cfg.potSamples, i.feedSamples k) / c.cfg.potSamples ∧
        c2.rawTensionPot =
          (∑ k ∈ Finset.range c.cfg.potSamples, i.tensionSamples k) / c.cfg.potSamples) := by
  have hpos : 0 < c.cfg.potSamples := h1
  have hsum := sumSamples_eq samples c.cfg.potSamples h2 hs
  have hlo : ∀ lo, (∀ k, k < c.cfg.potSamples → lo ≤ samples k) →
      lo ≤ (∑ k ∈ Finset.range c.cfg.potSamples, samples k) / c.cfg.potSamples := by
    intro lo hl
    exact (Nat.le_div_iff_mul_le hpos).mpr (sum_range_ge samples lo _ hl)
  have hhi : ∀ hi, (∀ k, k < c.cfg.potSamples → samples k ≤ hi) →
      (∑ k ∈ Finset.range c.cfg.potSamples, samples k) / c.cfg.potSamples ≤ hi := by
    intro hi hh
    have := sum_range_le samples hi _ hh
    exact Nat.div_le_of_le_mul (by rw [Nat.mul_comm]; exact this)
  have h4095 := hhi 4095 hs
  have hread := readPotSmoothed_eq c samples h1 h2 hs
  have hexp : ∀ (pin adcMin adcMax : Nat) (c2 : FeedArmController) (ang : Option ℚ),
      c.readPotAngle pin adcMin adcMax samples = some (c2, ang) →
      (pin = c.feedPotPin → c2.rawFeedPot =
        (∑ k ∈ Finset.range c.cfg.potSamples, samples k) / c.cfg.potSamples) ∧
      (pin ≠ c.feedPotPin → pin = c.tensionPotPin → c2.rawTensionPot =
        (∑ k ∈ Finset.range c.cfg.potSamples, samples k) / c.cfg.potSamples) := by
    intro pin adcMin adcMax c2 ang hr
    obtain ⟨raw, hraw, -, hc2⟩ := readPotAngle_some hr
    rw [hread] at hraw
    have hraw2 := Option.some.inj hraw
    constructor
    · intro hp
      rw [hc2, if_pos hp, ← hraw2]
    · intro hp1 hp2
      rw [hc2, if_neg hp1, if_pos hp2, ← hraw2]
  refine ⟨?_, hread, by omega, h4095, hlo, hhi, ?_, hexp, ?_, ?_, ?_⟩
  · intro n hn
    obtain ⟨e1, e2⟩ := sumSamples_eq samples n (by omega) (fun k hk => hs k (by omega))
    exact ⟨e1, by omega⟩
  · intro v hv
    exact Nat.le_antisymm (hhi v (fun k hk => (hv k hk).le)) (hlo v (fun k hk => (hv k hk).ge))
  · intro i c2 hu hpins
    exact update_raw hu hpins
  · intro pin adcMin adcMax
    have hr := readPotAngle_of_smoothed c pin adcMin adcMax samples _ hread
    obtain ⟨k1, k2⟩ := hexp pin adcMin adcMax _ _ hr
    exact ⟨_, hr, k1, k2⟩
  · intro i hf ht hpins
    have hsome := update_isSome c i (by omega)
    obtain ⟨c2, hc2⟩ := Option.isSome_iff_exists.mp hsome
    obtain ⟨r1, r2⟩ := update_raw hc2 hpins
    rw [readPotSmoothed_eq c i.feedSamples h1 h2 hf] at r1
    rw [readPotSmoothed_eq c i.tensionSamples h1 h2 ht] at r2
    exact ⟨c2, hc2, (Option.some.inj r1).symm, (Option.some.inj r2).symm⟩

/-- Claim C20 for the controller `bench` (8 samples per reading): eight
samples equal to 1100 are averaged to 1100; `readPotAngle` on the feed pin
returns and stores 1100 in `rawFeedPot`; and the tick `jamTick`, whose feed
samples are 1100 and whose tension samples are 2000, returns and leaves 1100
in `rawFeedPot` and 2000 in `rawTensionPot`. -/
theorem readPotSmoothed_average_witness :
    bench.readPotSmoothed (fun _ => 1100) = some 1100 ∧
    (∃ c2 : FeedArmController,
      bench.readPotAngle 6 200 3800 (fun _ => 1100) = some (c2, some 40) ∧
      c2.rawFeedPot = 1100) ∧
    (∃ c2 : FeedArmController, bench.update jamTick = some c2 ∧
      c2.rawFeedPot = 1100 ∧ c2.rawTensionPot = 2000) := by
  have h := (readPotSmoothed_average bench (fun _ => 1100) (by decide) (by decide)
    (fun _ _ => (by decide : (1100 : Nat) ≤ 4095)))
  have havg : (∑ k ∈ Finset.range bench.cfg.potSamples, (fun _ => 1100 : Nat → Nat) k) /
      bench.cfg.potSamples = 1100 := h.2.2.2.2.2.2.1 1100 (fun _ _ => rfl)
  refine ⟨by rw [h.2.1, havg], ?_, ?_⟩
  · obtain ⟨c2, k1, k2, -⟩ := h.2.2.2.2.2.2.2.2.2.1 6 200 3800
    rw [havg] at k1
    refine ⟨c2, ?_, ?_⟩
    · rw [k1]
      have : mapAngle 1100 200 3800 = some 40 := by decide!
      rw [this]
    · rw [k2 rfl, havg]
  · obtain ⟨c2, k1, k2, k3⟩ := h.2.2.2.2.2.2.2.2.2.2 jamTick
      (fun _ _ => (by decide : (1100 : Nat) ≤ 4095))
      (fun _ _ => (by decide : (2000 : Nat) ≤ 4095)) (by decide)
    refine ⟨c2, k1, ?_, ?_⟩
    · rw [k2]; exact havg
    · rw [k3]
      show (∑ k ∈ Finset.range 8, (fun _ => 2000 : Nat → Nat) k) / 8 = 2000
      simp

/-! ## Lemmas on the rate estimate and on histories with `reset()` -/

namespace ReedSwitch

theorem handleInterrupt_sampling (r : ReedSwitch) (t : Nat) :
    (r.handleInterrupt t).lastSampleTimeMs = r.lastSampleTimeMs ∧
    (r.handleInterrupt t).pulsesPerSec = r.pulsesPerSec := by
  simp only [handleInterrupt]
  split_ifs <;> exact ⟨rfl, rfl⟩

theorem calls_interrupts_sampling (js : List ReedCall) :
    ∀ (r : ReedSwitch), (∀ k ∈ js, k.isInterrupt = true) →
      (r.calls js).lastSampleTimeMs = r.lastSampleTimeMs ∧
      (r.calls js).pulsesPerSec = r.pulsesPerSec := by
  induction js with
  | nil => intro r _; exact ⟨rfl, rfl⟩
  | cons k ks ih =>
    intro r h
    cases k with
    | interrupt t =>
      simp only [calls, call]
      obtain ⟨h1, h2⟩ := ih (r.handleInterrupt t) (fun k hk => h k (List.mem_cons_of_mem _ hk))
      obtain ⟨h3, h4⟩ := handleInterrupt_sampling r t
      exact ⟨h1.trans h3, h2.trans h4⟩
    | sample t =>
      have := h (.sample t) (List.mem_cons_self _ _)
      simp [ReedCall.isInterrupt] at this

theorem acceptedTotal_append (hs1 : List CounterCall) :
    ∀ (r : ReedSwitch) (hs2 : List CounterCall),
      r.acceptedTotal (hs1 ++ hs2) = r.acceptedTotal hs1 + (r.history hs1).acceptedTotal hs2 := by
  induction hs1 with
  | nil => intro r hs2; simp [acceptedTotal, history]
  | cons k ks ih =>
    intro r hs2
    cases k with
    | interrupt t =>
      simp only [List.cons_append, acceptedTotal, history, applyCall]
      rw [Nat.add_assoc]
      exact congrArg _ (ih _ _)
    | sample t =>
      simp only [List.cons_append, acceptedTotal, history, applyCall]
      exact ih _ _
    | reset t =>
      simp only [List.cons_append, acceptedTotal, history, applyCall]
      exact ih _ _

/-- The invariant of the pulse counter over a history with fewer than `2^32`
counted events. -/
theorem history_invariant (hs : List CounterCall) :
    ∀ (r : ReedSwitch) (seen : List Nat), r.lastSampleCount ≤ r.pulseCount →
      r.pulseCount + r.acceptedTotal hs < 4294967296 →
      seen.Pairwise (· ≤ ·) → (∀ x ∈ seen, x ≤ r.pulseCount) →
      (r.history hs).lastSampleCount ≤ (r.history hs).pulseCount ∧
      (r.history hs).pulseCount ≤ r.pulseCount + r.acceptedTotal hs ∧
      (r.observedSinceReset seen hs).Pairwise (· ≤ ·) ∧
      (∀ x ∈ r.observedSinceReset seen hs, x ≤ (r.history hs).pulseCount) := by
  induction hs with
  | nil =>
    intro r seen h1 _ h3 h4
    exact ⟨h1, Nat.le_refl _, h3, h4⟩
  | cons k ks ih =>
    intro r seen h1 h2 h3 h4
    cases k with
    | interrupt t =>
      simp only [history, applyCall, acceptedTotal, observedSinceReset] at h2 ⊢
      have hpc := handleInterrupt_pulseCount r t
      have hls := handleInterrupt_lastSampleCount r t
      by_cases ha : r.accepts t = true
      · rw [if_pos ha] at hpc h2
        have hpc2 : (r.handleInterrupt t).pulseCount = r.pulseCount + 1 := by
          rw [hpc]; simp only [inc32, U32]; omega
        obtain ⟨i1, i2, i3, i4⟩ := ih (r.handleInterrupt t) seen (by omega) (by omega) h3
          (fun x hx => by have := h4 x hx; omega)
        refine ⟨i1, ?_, i3, i4⟩
        rw [if_pos ha]; omega
      · rw [if_neg ha] at hpc h2
        obtain ⟨i1, i2, i3, i4⟩ := ih (r.handleInterrupt t) seen (by omega) (by omega) h3
          (fun x hx => by have := h4 x hx; omega)
        refine ⟨i1, ?_, i3, i4⟩
        rw [if_neg ha]; omega
    | sample t =>
      simp only [history, applyCall, acceptedTotal, observedSinceReset] at h2 ⊢
      have e1 : (r.sample t).1.lastSampleCount = r.pulseCount := rfl
      have e2 : (r.sample t).1.pulseCount = r.pulseCount := rfl
      have hseen : (seen ++ [r.pulseCount]).Pairwise (· ≤ ·) := by
        rw [List.pairwise_append]
        refine ⟨h3, List.pairwise_singleton _ _, ?_⟩
        intro a ha b hb
        rw [List.mem_singleton] at hb
        rw [hb]; exact h4 a ha
      obtain ⟨i1, i2, i3, i4⟩ := ih (r.sample t).1 (seen ++ [r.pulseCount]) (by omega)
        (by omega) hseen (by
          intro x hx
          rw [List.mem_append, List.mem_singleton] at hx
          rcases hx with hx | hx
          · rw [e2]; exact h4 x hx
          · rw [e2, hx])
      exact ⟨i1, by omega, i3, i4⟩
    | reset t =>
      simp only [history, applyCall, acceptedTotal, observedSinceReset] at h2 ⊢
      have e1 : (r.reset t).lastSampleCount = 0 := rfl
      have e2 : (r.reset t).pulseCount = 0 := rfl
      obtain ⟨i1, i2, i3, i4⟩ := ih (r.reset t) [] (by omega) (by omega) List.Pairwise.nil
        (fun x hx => by simp at hx)
      exact ⟨i1, by omega, i3, i4⟩

end ReedSwitch

/-! ## Lemmas on the refresh of the stalled flag and on re-triggered cycles -/

namespace FeedArmController

open FeedArmState

theorem sampleReed_lastReedSampleTime {c c1 : FeedArmController} (i : TickInput)
    (hr : c1.reed = c.reed) (hl : c1.lastReedSampleTime = c.lastReedSampleTime) :
    (c1.sampleReed i).lastReedSampleTime = (c.sampleReed i).lastReedSampleTime := by
  simp only [sampleReed]
  rw [hl, hr]
  split_ifs
  · cases hq : c.reed <;> rfl
  · exact hl

/-- The second block of `update()` on the controller as the call finds it. -/
theorem update_refresh {c c2 : FeedArmController} {i : TickInput} (h : c.update i = some c2) :
    ∃ p, Prepared c p ∧ c2 = p.switchState (sub32 (millis i.now) c.stateEnteredAt) i ∧
      p.filamentStalled = (c.sampleReed i).filamentStalled ∧
      p.reed = (c.sampleReed i).reed ∧
      p.lastReedSampleTime = (c.sampleReed i).lastReedSampleTime := by
  unfold update at h
  cases h1 : c.readAngles i with
  | none => simp [h1] at h
  | some c1 =>
    simp only [h1, Option.some.injEq] at h
    obtain ⟨hp, hr, hf, hl, -⟩ := readAngles_prepared h1
    obtain ⟨hp2, -⟩ := sampleReed_prepared c1 i
    obtain ⟨hs1, hs2⟩ := sampleReed_congr i hp.cfg hr hf hl
    exact ⟨c1.sampleReed i, hp.trans hp2, h.symm, hs1, hs2,
      sampleReed_lastReedSampleTime i hr hl⟩

/-- The `switch` of `update()` leaves the stalled flag and the time of its
last refresh alone, and touches the pulse counter only to reset it when it
leaves COOLDOWN. -/
theorem switchState_refresh (p : FeedArmController) (e : Nat) (i : TickInput) :
    (p.switchState e i).filamentStalled = p.filamentStalled ∧
    (p.switchState e i).lastReedSampleTime = p.lastReedSampleTime ∧
    (¬(p.state = COOLDOWN ∧ (p.switchState e i).state = MONITORING) →
      (p.switchState e i).reed = p.reed) ∧
    (p.state = COOLDOWN → (p.switchState e i).state = MONITORING →
      (p.switchState e i).reed = p.reed.map (fun r => ReedSwitch.reset r i.resetTime)) := by
  cases hs : p.state
  · rw [switchState_MONITORING hs]; split_ifs <;> simp [transitionTo]
  · rw [switchState_UNSTICKING hs]; split_ifs <;> simp
  · rw [switchState_HOLD_UNSTICK hs]; split_ifs <;> simp [transitionTo]
  · rw [switchState_RETURNING hs]; simp
  · rw [switchState_COOLDOWN hs]; split_ifs <;> simp [hs]

theorem setsTensionBeforeSave_eq_false (evs : List Event) :
    ∀ (c : FeedArmController), (∀ e ∈ evs, e.isSetTension = false) →
      c.setsTensionBeforeSave evs = false := by
  induction evs with
  | nil => intro c _; rfl
  | cons e es ih =>
    intro c h
    have he := h e (List.mem_cons_self _ _)
    simp only [setsTensionBeforeSave, he, Bool.false_and, Bool.false_or]
    cases hst : c.step e with
    | none => rfl
    | some c1 => exact ih c1 (fun x hx => h x (List.mem_cons_of_mem _ hx))

theorem cooldownTriggers_cons {c c1 : FeedArmController} {e : Event} (es : List Event)
    (h : c.step e = some c1) :
    c.cooldownTriggers (e :: es) = c.cooldownTriggers [e] + c1.cooldownTriggers es := by
  simp [cooldownTriggers, h]

/-- One event of a cycle: a pass through RETURNING is matched by the entry
into COOLDOWN, which only a re-trigger or the end of the cycle undoes. -/
theorem step_passes {c c1 : FeedArmController} {e : Event} (h : c.step e = some c1)
    (hc : c.state ≠ MONITORING) :
    (c1.state ≠ MONITORING →
      c.returningTicks [e] + (if c.state = COOLDOWN then 1 else 0) =
        c.cooldownTriggers [e] + (if c1.state = COOLDOWN then 1 else 0)) ∧
    (c1.state = MONITORING →
      c.state = COOLDOWN ∧ c.returningTicks [e] = 0 ∧ c.cooldownTriggers [e] = 0) := by
  cases e with
  | tick i =>
    have hrt : c.returningTicks [Event.tick i] = if c.state = RETURNING then 1 else 0 := by
      simp [returningTicks, h]
    have hct : c.cooldownTriggers [Event.tick i] = 0 := by
      simp [cooldownTriggers, h]
    rw [hrt, hct]
    obtain ⟨p, hp, rfl, -⟩ := update_some h
    rw [← hp.state] at hc ⊢
    generalize sub32 (millis i.now) c.stateEnteredAt = el
    cases hs : p.state
    · exact absurd hs hc
    · rw [switchState_UNSTICKING hs]
      by_cases ha : p.feedServoAttached = false
      · rw [if_pos ha]; simp
      · rw [if_neg ha]; simp
    · rw [switchState_HOLD_UNSTICK hs]
      by_cases hge : el ≥ p.cfg.unstickHoldTimeMs
      · rw [if_pos hge]; simp [transitionTo]
      · rw [if_neg hge]; simp [hs]
    · rw [switchState_RETURNING hs]; simp
    · rw [switchState_COOLDOWN hs]
      by_cases hge : el ≥ p.cfg.unstickCooldownMs
      · rw [if_pos hge]; simp
      · rw [if_neg hge]; simp [hs]
  | pulse t =>
    simp only [step, Option.some.injEq] at h
    subst h
    have hrt : c.returningTicks [Event.pulse t] = 0 := by simp [returningTicks, step]
    have hct : c.cooldownTriggers [Event.pulse t] = 0 := by simp [cooldownTriggers, step]
    rw [hrt, hct]
    exact ⟨fun _ => by simp [pulse], fun hm => absurd hm hc⟩
  | trigger t =>
    simp only [step, Option.some.injEq] at h
    subst h
    have hrt : c.returningTicks [Event.trigger t] = 0 := by simp [returningTicks, step]
    have hct : c.cooldownTriggers [Event.trigger t] = if c.state = COOLDOWN then 1 else 0 := by
      simp [cooldownTriggers, step]
    rw [hrt, hct]
    unfold triggerUnstick
    by_cases hq : c.state = COOLDOWN
    · rw [if_pos (Or.inr hq)]
      simp [transitionTo, hq]
    · rw [if_neg (by simp [hc, hq])]
      exact ⟨fun _ => by simp [hq], fun hm => absurd hm hc⟩
  | setTension a =>
    simp only [step, Option.some.injEq] at h
    subst h
    have hrt : c.returningTicks [Event.setTension a] = 0 := by simp [returningTicks, step]
    have hct : c.cooldownTriggers [Event.setTension a] = 0 := by simp [cooldownTriggers, step]
    rw [hrt, hct]
    exact ⟨fun _ => by simp [setTensionAngle, servo], fun hm => absurd hm hc⟩
  | setConfig cfg =>
    simp only [step, Option.some.injEq] at h
    subst h
    have hrt : c.returningTicks [Event.setConfig cfg] = 0 := by simp [returningTicks, step]
    have hct : c.cooldownTriggers [Event.setConfig cfg] = 0 := by simp [cooldownTriggers, step]
    rw [hrt, hct]
    exact ⟨fun _ => by simp [updateConfig], fun hm => absurd hm hc⟩

/-- Over a cycle run to the first return to MONITORING, the passes through
RETURNING still to come are one more than the re-triggers still to come, one
less when the controller is already in COOLDOWN. -/
theorem run_passes (evs : List Event) :
    ∀ (c : FeedArmController) (pre : List FeedArmController) (cN : FeedArmController),
      c.state ≠ MONITORING → c.run evs = some (pre ++ [cN]) →
      (∀ x ∈ pre, x.state ≠ MONITORING) → cN.state = MONITORING →
      c.returningTicks evs + (if c.state = COOLDOWN then 1 else 0) =
        c.cooldownTriggers evs + 1 := by
  induction evs with
  | nil =>
    intro c pre cN _ hrun
    simp [run] at hrun
  | cons e es ih =>
    intro c pre cN hc hrun hpre hN
    obtain ⟨c1, cs1, hstep, hrest, hcs⟩ := run_cons hrun
    obtain ⟨k1, k2⟩ := step_passes hstep hc
    rw [returningTicks_cons es hstep, cooldownTriggers_cons es hstep]
    cases pre with
    | nil =>
      simp only [List.nil_append, List.cons.injEq] at hcs
      obtain ⟨rfl, hnil⟩ := hcs
      obtain ⟨q1, q2, q3⟩ := k2 hN
      have hes : es = [] := by
        cases es with
        | nil => rfl
        | cons e2 es2 =>
          obtain ⟨c3, cs3, -, -, hcs3⟩ := run_cons hrest
          rw [hcs3] at hnil
          simp at hnil
      subst hes
      rw [q2, q3, if_pos q1]
      simp [returningTicks, cooldownTriggers]
    | cons x pre1 =>
      simp only [List.cons_append, List.cons.injEq] at hcs
      obtain ⟨rfl, rfl⟩ := hcs
      have hx := hpre x (List.mem_cons_self _ _)
      have h1 := k1 hx
      have h2 := ih x pre1 cN hx hrest (fun y hy => hpre y (List.mem_cons_of_mem _ hy)) hN
      omega

end FeedArmController

/-! ## The claims on the rate estimate, the refresh of the stalled flag, re-triggered
cycles and the invariant of the pulse counter -/

/-- Claim C21, refuted: after `begin()` at clock 1000 and one event counted
at clock 1100, `sample()` at clock 1300 sees 1 pulse in 300 ms and stores the
rate 13981013/4194304 (3.3333332...), the `float` result of the code, not
`1 / (300 / 1000)`, which is 10/3. And `sample()` at clock `1000 + 2^32`
instead, `2^32` ms after the previous sampling, reads the elapsed time 0 on
the 32-bit clock and leaves the rate at 0. -/
theorem sample_rate_rounds_to_float :
    (((ReedSwitch.init.begin 4 1000).handleInterrupt 1100).sample 1300).2 = 1 ∧
    (((ReedSwitch.init.begin 4 1000).handleInterrupt 1100).sample 1300).1.pulsesPerSec =
      13981013 / 4194304 ∧
    (1 : ℚ) / ((300 : ℚ) / 1000) = 10 / 3 ∧
    (((ReedSwitch.init.begin 4 1000).handleInterrupt 1100).sample 4294968296).2 = 1 ∧
    (((ReedSwitch.init.begin 4 1000).handleInterrupt 1100).sample 4294968296).1.pulsesPerSec =
      0 := by
  decide!

/-- Claim C21, amended. A call of `sample()` returns the pulse delta and
advances the sampling baseline (count and time) whatever the elapsed time,
and leaves the pulse count and the last-pulse timestamp alone. When the
32-bit difference between the clock and the time of the previous sampling
is 0 the rate estimate is left unchanged; when it is `d > 0` the rate
becomes the `float` result of `(float)delta / ((float)d / 1000.0f)`, the two
conversions and the two divisions each rounded to the nearest `float`,
which is within the relative error `2^-21` of `delta / (d / 1000)`. For a
`sample()` at clock `t` that follows a `sample()` at clock `tp`, with only
interrupts in between and less than `2^32` ms elapsed, that difference is
`t - tp` and the delta is the number of events counted in between (modulo
`2^32`). -/
theorem sample_division_guard (r : ReedSwitch) (t : Nat) :
    (r.sample t).2 = sub32 r.pulseCount r.lastSampleCount ∧
    (r.sample t).1.lastSampleCount = r.pulseCount ∧
    (r.sample t).1.lastSampleTimeMs = millis t ∧
    (r.sample t).1.pulseCount = r.pulseCount ∧
    (r.sample t).1.lastPulseTimeMs = r.lastPulseTimeMs ∧
    (sub32 (millis t) r.lastSampleTimeMs = 0 →
      (r.sample t).1.pulsesPerSec = r.pulsesPerSec) ∧
    (0 < sub32 (millis t) r.lastSampleTimeMs →
      (r.sample t).1.pulsesPerSec =
        f32 (f32 ((r.sample t).2 : ℚ) /
          f32 (f32 (sub32 (millis t) r.lastSampleTimeMs : ℚ) / 1000)) ∧
      |(r.sample t).1.pulsesPerSec -
          ((r.sample t).2 : ℚ) / ((sub32 (millis t) r.lastSampleTimeMs : ℚ) / 1000)| ≤
        ((r.sample t).2 : ℚ) / ((sub32 (millis t) r.lastSampleTimeMs : ℚ) / 1000) / 2097152) ∧
    (∀ (rp : ReedSwitch) (tp : Nat) (js : List ReedCall),
      r = (rp.sample tp).1.calls js → (∀ k ∈ js, k.isInterrupt = true) →
      rp.pulseCount < 4294967296 → tp ≤ t → t - tp < 4294967296 →
      sub32 (millis t) r.lastSampleTimeMs = t - tp ∧
      (r.sample t).2 = (rp.sample tp).1.acceptedCount js % 4294967296 ∧
      (t = tp → (r.sample t).1.pulsesPerSec = (rp.sample tp).1.pulsesPerSec) ∧
      (tp < t → (r.sample t).1.pulsesPerSec =
        f32 (f32 (((rp.sample tp).1.acceptedCount js % 4294967296 : Nat) : ℚ) /
          f32 (f32 ((t - tp : Nat) : ℚ) / 1000)))) := by
  have hzero : sub32 (millis t) r.lastSampleTimeMs = 0 →
      (r.sample t).1.pulsesPerSec = r.pulsesPerSec := by
    intro h0
    show (if sub32 (millis t) r.lastSampleTimeMs > 0 then _ else r.pulsesPerSec) = _
    rw [if_neg (by omega)]
  have hpos : 0 < sub32 (millis t) r.lastSampleTimeMs →
      (r.sample t).1.pulsesPerSec =
        f32 (f32 ((r.sample t).2 : ℚ) /
          f32 (f32 (sub32 (millis t) r.lastSampleTimeMs : ℚ) / 1000)) := by
    intro hd
    show (if sub32 (millis t) r.lastSampleTimeMs > 0 then _ else r.pulsesPerSec) = _
    rw [if_pos hd]
    rfl
  refine ⟨rfl, rfl, rfl, rfl, rfl, hzero, fun hd => ⟨hpos hd, ?_⟩, ?_⟩
  · rw [hpos hd]
    exact rate_error _ _ hd
  intro rp tp js hr hjs hpc h1 h2
  have hbase : (rp.sample tp).1.lastSampleCount = (rp.sample tp).1.pulseCount := rfl
  have hret := (sample_after_interrupts (rp.sample tp).1 js t hjs hpc hbase).1
  obtain ⟨hlt, hrate⟩ := calls_interrupts_sampling js (rp.sample tp).1 hjs
  rw [← hr] at hret hlt hrate
  have htime : r.lastSampleTimeMs = millis tp := hlt
  have hd : sub32 (millis t) r.lastSampleTimeMs = t - tp := by
    rw [htime]
    simp only [sub32, millis, U32]
    omega
  refine ⟨hd, hret, ?_, ?_⟩
  · intro he
    rw [hzero (by rw [hd]; omega), hrate]
  · intro hlt2
    rw [hpos (by rw [hd]; omega), hd, hret]

/-- Claim C21, amended, on a pulse counter begun at clock 1000 with one
event counted at clock 1100 and sampled at clock 1300: a second `sample()`
at the same clock returns 0 and leaves the rate at 13981013/4194304, which
the first one stored and which is within `2^-21` of 10/3. -/
theorem sample_division_guard_witness :
    ((((ReedSwitch.init.begin 4 1000).handleInterrupt 1100).sample 1300).1.sample 1300).2 = 0 ∧
    ((((ReedSwitch.init.begin 4 1000).handleInterrupt 1100).sample 1300).1.sample
      1300).1.pulsesPerSec = 13981013 / 4194304 ∧
    |(((ReedSwitch.init.begin 4 1000).handleInterrupt 1100).sample 1300).1.pulsesPerSec -
      10 / 3| ≤ 10 / 3 / 2097152 := by
  refine ⟨((sample_division_guard
      (((ReedSwitch.init.begin 4 1000).handleInterrupt 1100).sample 1300).1 1300).1).trans
      (by decide!),
   ((sample_division_guard
      (((ReedSwitch.init.begin 4 1000).handleInterrupt 1100).sample 1300).1 1300).2.2.2.2.2.1
      (by decide!)).trans (by decide!), ?_⟩
  have h := ((sample_division_guard ((ReedSwitch.init.begin 4 1000).handleInterrupt 1100)
    1300).2.2.2.2.2.2.1 (by decide!)).2
  have e1 : ((((ReedSwitch.init.begin 4 1000).handleInterrupt 1100).sample 1300).2 : ℚ) = 1 := by
    have : (((ReedSwitch.init.begin 4 1000).handleInterrupt 1100).sample 1300).2 = 1 := by
      decide!
    rw [this]; norm_num
  have e2 : ((sub32 (millis 1300)
      ((ReedSwitch.init.begin 4 1000).handleInterrupt 1100).lastSampleTimeMs : Nat) : ℚ) =
        300 := by
    have : sub32 (millis 1300)
        ((ReedSwitch.init.begin 4 1000).handleInterrupt 1100).lastSampleTimeMs = 300 := by
      decide!
    rw [this]; norm_num
  rw [e1, e2] at h
  have e3 : (1 : ℚ) / (300 / 1000) = 10 / 3 := by norm_num
  rwa [e3] at h

/-- Claim C22. In a tick where the 32-bit time since the last refresh is
below 1000 ms, `update()` leaves the stalled flag and the time of the last
refresh unchanged and does not call `sample()`: the pulse counter is
untouched, except that it is reset when the tick leaves COOLDOWN. In a tick
where that time is at least 1000 ms, the time of the last refresh becomes the
clock of the tick and, when there is a pulse counter, `sample()` is called
on it and the stalled flag becomes `isStalled(reedStallTimeoutMs)`; without a
pulse counter the flag is unchanged. The `switch` of `update()`, with the
reset of the pulse counter at the COOLDOWN exit, `triggerUnstick()` and
`setTensionAngle()` leave the flag and the time of the last refresh
unchanged. When the last refresh was at clock `tl` and less than `2^32` ms
have passed, the 32-bit time since the last refresh is the true one. -/
theorem stalled_flag_refresh_cadence (c c2 : FeedArmController) (i : TickInput)
    (h : c.update i = some c2) :
    (sub32 (millis i.now) c.lastReedSampleTime < 1000 →
      c2.filamentStalled = c.filamentStalled ∧
      c2.lastReedSampleTime = c.lastReedSampleTime ∧
      (¬(c.state = COOLDOWN ∧ c2.state = MONITORING) → c2.reed = c.reed) ∧
      (c.state = COOLDOWN → c2.state = MONITORING →
        c2.reed = c.reed.map (fun r => ReedSwitch.reset r i.resetTime))) ∧
    (sub32 (millis i.now) c.lastReedSampleTime ≥ 1000 →
      c2.lastReedSampleTime = millis i.now ∧
      (∀ r, c.reed = some r →
        c2.filamentStalled =
          (r.sample i.sampleTime).1.isStalled c.cfg.reedStallTimeoutMs i.stalledTime ∧
        c2.filamentStalled = r.isStalled c.cfg.reedStallTimeoutMs i.stalledTime ∧
        (¬(c.state = COOLDOWN ∧ c2.state = MONITORING) →
          c2.reed = some (r.sample i.sampleTime).1) ∧
        (c.state = COOLDOWN → c2.state = MONITORING →
          c2.reed = some ((r.sample i.sampleTime).1.reset i.resetTime))) ∧
      (c.reed = none → c2.filamentStalled = c.filamentStalled ∧ c2.reed = none)) ∧
    (∀ (p : FeedArmController) (e : Nat) (j : TickInput),
      (p.switchState e j).filamentStalled = p.filamentStalled ∧
      (p.switchState e j).lastReedSampleTime = p.lastReedSampleTime) ∧
    (∀ (d : FeedArmController) (t : Nat),
      (d.triggerUnstick t).filamentStalled = d.filamentStalled ∧
      (d.triggerUnstick t).lastReedSampleTime = d.lastReedSampleTime ∧
      (d.triggerUnstick t).reed = d.reed) ∧
    (∀ (d : FeedArmController) (a : ℚ),
      (d.setTensionAngle a).filamentStalled = d.filamentStalled ∧
      (d.setTensionAngle a).lastReedSampleTime = d.lastReedSampleTime ∧
      (d.setTensionAngle a).reed = d.reed) ∧
    (∀ tl : Nat, c.lastReedSampleTime = millis tl → tl ≤ i.now → i.now - tl < 4294967296 →
      sub32 (millis i.now) c.lastReedSampleTime = i.now - tl) := by
  obtain ⟨p, hp, rfl, hf, hr, hl⟩ := update_refresh h
  obtain ⟨s1, s2, s3, s4⟩ := switchState_refresh p (sub32 (millis i.now) c.stateEnteredAt) i
  rw [hp.state] at s3 s4
  refine ⟨?_, ?_, fun p e j => ⟨(switchState_refresh p e j).1, (switchState_refresh p e j).2.1⟩,
    ?_, fun d a => ⟨rfl, rfl, rfl⟩, ?_⟩
  · intro hlt
    have hsr : c.sampleReed i = c := by
      unfold sampleReed
      rw [if_neg (by omega)]
    rw [hsr] at hf hr hl
    refine ⟨s1.trans hf, s2.trans hl, fun hn => (s3 hn).trans hr, fun h1 h2 => ?_⟩
    rw [s4 h1 h2, hr]
  · intro hge
    have hl2 : (c.sampleReed i).lastReedSampleTime = millis i.now := by
      unfold sampleReed
      rw [if_pos hge]
    refine ⟨s2.trans (hl.trans hl2), ?_, ?_⟩
    · intro r hrd
      have hsr : (c.sampleReed i).filamentStalled =
            (r.sample i.sampleTime).1.isStalled c.cfg.reedStallTimeoutMs i.stalledTime ∧
          (c.sampleReed i).reed = some (r.sample i.sampleTime).1 := by
        unfold sampleReed
        rw [if_pos hge]
        simp [hrd]
      rw [hsr.1] at hf
      rw [hsr.2] at hr
      refine ⟨s1.trans hf, s1.trans hf, fun hn => (s3 hn).trans hr, fun h1 h2 => ?_⟩
      rw [s4 h1 h2, hr]
      rfl
    · intro hrd
      have hsr : (c.sampleReed i).filamentStalled = c.filamentStalled ∧
          (c.sampleReed i).reed = none := by
        unfold sampleReed
        rw [if_pos hge]
        simp [hrd]
      rw [hsr.1] at hf
      rw [hsr.2] at hr
      refine ⟨s1.trans hf, ?_⟩
      by_cases hn : c.state = COOLDOWN ∧
          (p.switchState (sub32 (millis i.now) c.stateEnteredAt) i).state = MONITORING
      · rw [s4 hn.1 hn.2, hr]; rfl
      · exact (s3 hn).trans hr
  · intro d t
    simp only [triggerUnstick, transitionTo]
    split_ifs <;> exact ⟨rfl, rfl, rfl⟩
  · intro tl htl h1 h2
    rw [htl]
    simp only [sub32, millis, U32]
    omega

/-- Claim C22 at the controller `bench`, whose stalled flag is false and was
last refreshed at clock 1000: the tick at clock 5000 refreshes the flag, which
becomes true since no pulse has come for more than 3000 ms. -/
theorem stalled_flag_refresh_cadence_witness :
    benchRefreshed.lastReedSampleTime = 5000 ∧
    benchRefreshed.filamentStalled = true ∧ bench.filamentStalled = false := by
  have hu : bench.update (tickAt 5000 2225) = some benchRefreshed := by decide!
  obtain ⟨h1, h2, -⟩ := (stalled_flag_refresh_cadence bench benchRefreshed (tickAt 5000 2225)
    hu).2.1 (by decide)
  refine ⟨h1.trans (by decide), ?_, by decide⟩
  rw [(h2 (ReedSwitch.init.begin 4 1000) rfl).2.1]
  decide

/-- Claim C23, refuted: the cycle of `benchMax`, whose unstick count is
4294967295, with one manual re-trigger from COOLDOWN passes twice through
RETURNING and ends in MONITORING with the unstick count 1, not 4294967297. -/
theorem retrigger_count_wraps :
    benchMax.unstickCount = 4294967295 ∧ wrapStart.state = UNSTICKING ∧
    wrapStart.returningTicks retriggerTail = 2 ∧
    wrapStart.cooldownTriggers retriggerTail = 1 ∧
    (wrapStart.run retriggerTail).map
        (fun cs => ((cs.getLastD benchMax).state, (cs.getLastD benchMax).unstickCount)) =
      some (MONITORING, 1) := by
  decide!

/-- Claim C23, amended. `triggerUnstick()` called in COOLDOWN with the feed
servo attached moves to UNSTICKING with the servo still attached, and the
tick that follows keeps the saved tension angle and the commanded one,
leaves the servo attached, and makes one servo call only, the write of the
unstick angle to the feed servo: no second `attach`. So when a cycle starts
in MONITORING with the feed servo detached, by a manual trigger or a jam
tick, and runs to the first return to MONITORING under any events but
`setTensionAngle()`, with any number of re-triggers, the commanded tension
angle is at the end what it was before the cycle; the cycle passes through
RETURNING once more than it is re-triggered from COOLDOWN; and the unstick
count has grown by the number of passes through RETURNING modulo `2^32`,
exactly so when that sum stays below `2^32`. -/
theorem retrigger_keeps_saved_tension (c0 c1 cN : FeedArmController)
    (evs : List Event) (pre : List FeedArmController)
    (h0 : c0.state = MONITORING) (hdet : c0.feedServoAttached = false)
    (hcount : c0.unstickCount < 4294967296)
    (hstart : (∃ t, c1 = c0.triggerUnstick t) ∨
      (∃ i, c0.update i = some c1 ∧ c1.state = UNSTICKING))
    (hrun : c1.run evs = some (pre ++ [cN]))
    (hpre : ∀ x ∈ pre, x.state ≠ MONITORING)
    (hN : cN.state = MONITORING)
    (hno : ∀ e ∈ evs, e.isSetTension = false) :
    (∀ (c c2 : FeedArmController) (t : Nat) (i : TickInput),
      c.state = COOLDOWN → c.feedServoAttached = true →
      (c.triggerUnstick t).update i = some c2 →
      (c.triggerUnstick t).state = UNSTICKING ∧
      (c.triggerUnstick t).feedServoAttached = true ∧
      (c.triggerUnstick t).savedTensionAngle = c.savedTensionAngle ∧
      (c.triggerUnstick t).servoLog = c.servoLog ∧
      c2.state = HOLD_UNSTICK ∧ c2.savedTensionAngle = c.savedTensionAngle ∧
      c2.tensionAngle = c.tensionAngle ∧ c2.feedServoAttached = true ∧
      c2.servoLog = c.servoLog ++
        [(ServoId.feed, ServoCall.write (toInt c.cfg.feedArmUnstickAngle))]) ∧
    cN.tensionAngle = c0.tensionAngle ∧
    c1.returningTicks evs = c1.cooldownTriggers evs + 1 ∧
    cN.unstickCount = (c0.unstickCount + c1.returningTicks evs) % 4294967296 ∧
    (c0.unstickCount + c1.returningTicks evs < 4294967296 →
      cN.unstickCount = c0.unstickCount + c1.returningTicks evs) := by
  have hc1 : c1.state = UNSTICKING ∧ c1.feedServoAttached = false ∧
      c1.tensionAngle = c0.tensionAngle ∧ c1.unstickCount = c0.unstickCount := by
    rcases hstart with ⟨t, rfl⟩ | ⟨i, hu, hs⟩
    · simp [triggerUnstick, transitionTo, h0, hdet]
    · obtain ⟨p, hp, rfl, -⟩ := update_some hu
      rw [switchState_MONITORING (hp.state.trans h0)] at hs ⊢
      split_ifs at hs ⊢ with hj
      · exact ⟨rfl, hp.feedServoAttached.trans hdet, hp.tensionAngle, hp.unstickCount⟩
      · rw [hp.state.trans h0] at hs; simp at hs
  have hne : c1.state ≠ MONITORING := by rw [hc1.1]; simp
  have hpass := run_passes evs c1 pre cN hne hrun hpre hN
  rw [if_neg (by rw [hc1.1]; simp), Nat.add_zero] at hpass
  have hcnt := run_unstickCount evs c1 (pre ++ [cN]) (by rw [hc1.2.2.2]; exact hcount) hrun
  rw [List.getLastD_concat, hc1.2.2.2] at hcnt
  refine ⟨?_, ?_, hpass, hcnt, fun hlt => by rw [hcnt, Nat.mod_eq_of_lt hlt]⟩
  · intro c c2 t i hs ha hu
    have ht : c.triggerUnstick t =
        { c with state := UNSTICKING, stateEnteredAt := millis t } := by
      unfold triggerUnstick
      rw [if_pos (Or.inr hs)]
      rfl
    obtain ⟨p, hp, rfl, -⟩ := update_some hu
    rw [ht] at hp
    have hps : p.state = UNSTICKING := hp.state
    have hpa : p.feedServoAttached = true := hp.feedServoAttached.trans ha
    rw [switchState_UNSTICKING hps, if_neg (by rw [hpa]; simp)]
    refine ⟨by rw [ht], by rw [ht]; exact ha, by rw [ht], by rw [ht], rfl, hp.savedTensionAngle,
      hp.tensionAngle, hpa, ?_⟩
    show p.servoLog ++ _ = _
    rw [hp.servoLog, hp.cfg]
  · exact (saved_run evs c1 pre cN (Or.inr ⟨hc1.1, hc1.2.1, hc1.2.2.1⟩) hne hrun hpre hN
      (setsTensionBeforeSave_eq_false evs c1 hno)).1

/-- Claim C23, amended, at the cycle of `bench` with one manual re-trigger
from COOLDOWN: it passes twice through RETURNING and ends with the commanded
tension angle 80 of `bench` and the unstick count 2. -/
theorem retrigger_keeps_saved_tension_witness :
    (retriggerTrace.getLastD bench).tensionAngle = bench.tensionAngle ∧
    cycleStart.returningTicks retriggerTail = 2 ∧
    (retriggerTrace.getLastD bench).unstickCount = 2 := by
  obtain ⟨-, h2, h3, h4, -⟩ := retrigger_keeps_saved_tension bench cycleStart
    (retriggerTrace.getLastD bench) retriggerTail retriggerTrace.dropLast rfl rfl (by decide)
    (Or.inr ⟨jamTick, bench_update_jamTick, cycleStart_state⟩)
    (by decide!) (by decide!) (by decide!) (by decide)
  have h5 : cycleStart.cooldownTriggers retriggerTail = 1 := by decide!
  rw [h5] at h3
  refine ⟨h2, h3, ?_⟩
  rw [h4, h3]
  decide

/-- Claim C24. In every state reached from `begin()` by a history of
interrupts, `sample()` calls and `reset()` calls in which fewer than `2^32`
events are counted, the sampling baseline is at most the pulse count; so the
subtraction in `sample()` does not wrap: the value returned by a `sample()`
in that state is the exact difference of the count and the baseline. And the
pulse counts read by the `sample()` calls made since the last `reset()` are
in non-decreasing order, each at most the current count. The same holds in
every state passed on the way, so between any two `reset()` calls. -/
theorem baseline_le_count (r0 : ReedSwitch) (pin t0 : Nat) (hs : List CounterCall)
    (h : (r0.begin pin t0).acceptedTotal hs < 4294967296) :
    ((r0.begin pin t0).history hs).lastSampleCount ≤
      ((r0.begin pin t0).history hs).pulseCount ∧
    (∀ t, (((r0.begin pin t0).history hs).sample t).2 +
        ((r0.begin pin t0).history hs).lastSampleCount =
      ((r0.begin pin t0).history hs).pulseCount) ∧
    ((r0.begin pin t0).observedSinceReset [] hs).Pairwise (· ≤ ·) ∧
    (∀ x ∈ (r0.begin pin t0).observedSinceReset [] hs,
      x ≤ ((r0.begin pin t0).history hs).pulseCount) ∧
    ((r0.begin pin t0).history hs).pulseCount ≤ (r0.begin pin t0).acceptedTotal hs ∧
    (∀ hs1 hs2 : List CounterCall, hs = hs1 ++ hs2 →
      ((r0.begin pin t0).history hs1).lastSampleCount ≤
        ((r0.begin pin t0).history hs1).pulseCount ∧
      ((r0.begin pin t0).observedSinceReset [] hs1).Pairwise (· ≤ ·)) := by
  have hz : (r0.begin pin t0).pulseCount = 0 := rfl
  have hall : ∀ hs1 : List CounterCall, (r0.begin pin t0).acceptedTotal hs1 < 4294967296 →
      ((r0.begin pin t0).history hs1).lastSampleCount ≤
        ((r0.begin pin t0).history hs1).pulseCount ∧
      ((r0.begin pin t0).history hs1).pulseCount ≤
        (r0.begin pin t0).pulseCount + (r0.begin pin t0).acceptedTotal hs1 ∧
      ((r0.begin pin t0).observedSinceReset [] hs1).Pairwise (· ≤ ·) ∧
      (∀ x ∈ (r0.begin pin t0).observedSinceReset [] hs1,
        x ≤ ((r0.begin pin t0).history hs1).pulseCount) := fun hs1 h1 =>
    history_invariant hs1 (r0.begin pin t0) [] (Nat.le_refl 0)
      (by rw [hz]; omega) List.Pairwise.nil (fun x hx => by simp at hx)
  obtain ⟨i1, i2, i3, i4⟩ := hall hs h
  rw [hz, Nat.zero_add] at i2
  refine ⟨i1, ?_, i3, i4, i2, ?_⟩
  · intro t
    show sub32 _ _ + _ = _
    simp only [sub32, U32]
    omega
  · intro hs1 hs2 he
    have hle : (r0.begin pin t0).acceptedTotal hs1 < 4294967296 := by
      rw [he, acceptedTotal_append] at h
      omega
    obtain ⟨j1, -, j3, -⟩ := hall hs1 hle
    exact ⟨j1, j3⟩

/-- Claim C24 on the history `resetHistory` after `begin()` at clock 1000:
three events are counted, and after the `reset()` the two `sample()` calls
read the counts 1 and 2. -/
theorem baseline_le_count_witness :
    (ReedSwitch.init.begin 4 1000).acceptedTotal resetHistory = 3 ∧
    (ReedSwitch.init.begin 4 1000).observedSinceReset [] resetHistory = [1, 2] ∧
    ((ReedSwitch.init.begin 4 1000).observedSinceReset [] resetHistory).Pairwise (· ≤ ·) :=
  ⟨by decide!, by decide!,
   (baseline_le_count ReedSwitch.init 4 1000 resetHistory (by decide!)).2.2.1⟩

end FilamintFixer
